import Mathlib

/-!
# vicissicalc: formula evaluator and cell grid

A shallow embedding of the evaluation core of `vicissicalc.c`:
the tokenizer (`next`), the precedence-climbing evaluator (`parse_factor`,
`parse_expr`, `apply`, `evaluate`), the cell grid (`setup`, `set_text`,
`update`, `get_value`) and the file (`write_file`, `read_file`).

Conventions of the embedding.

* A C string is the list of its characters before the terminating NUL; the
  pointer `s->p` into the formula is the list of the characters still to read.
* A message pointer (`const char *plaint`) is a `Plaint`: the two static arrays
  `unknown` and `calculating`, which the program compares by address, or a
  string literal. `NULL` is `none`.
* `Value` is a C `double`. Its arithmetic, the conversions between `unsigned`
  and `double`, and `strtod` are not part of the program; they are the
  parameter `Arith V`. Every general theorem holds for every such
  interpretation; `fracArith` is an exact interpretation used to run the
  program on concrete formulas.
* The grid and `the_plaint` are the global state `State V`, passed explicitly.
* The mutually recursive functions take a `fuel` argument that bounds the depth
  of the calls; `none` means that the fuel ran out (or that an `assert`
  failed). `get_value_total` shows that enough fuel always gives a result.
* The functions with the suffix `_traced` are the same functions with a list of
  events, the entries and ends of `update`; `erasure` shows that they compute
  what the functions without the suffix compute.
* A file is the list of its characters. The libc functions `fgets` and
  `sscanf` are modelled for the one format string that `read_file` uses.
-/

namespace Vicissicalc

/-! ## Messages -/

/-- The values of a `const char *` message pointer, `NULL` apart: the static
arrays `unknown` and `calculating`, and the string literals. -/
inductive Plaint where
  | unknown
  | calculating
  | lit (text : String)
deriving DecidableEq, Repr

/-- The characters a message pointer points to. -/
def Plaint.text : Plaint → String
  | .unknown => "Unknown"
  | .calculating => "Circular reference"
  | .lit t => t

/-- The marker `#define valid NULL`. -/
def valid : Option Plaint := none

/-- The C helper `orelse`: `s1 ? s1 : s2`, for a second argument that is not
`NULL`. -/
def orelse (s1 : Option Plaint) (s2 : Plaint) : Plaint :=
  match s1 with
  | some p => p
  | none => s2

/-! ## Characters -/

/-- The libc predicate `isspace` in the C locale. -/
def isspace (ch : Char) : Bool :=
  ch == ' ' || ch == '\t' || ch == '\n' || ch == '\x0b' || ch == '\x0c' || ch == '\r'

/-- The libc predicate `isdigit`. -/
def isdigit (ch : Char) : Bool :=
  '0' ≤ ch && ch ≤ '9'

/-- The single-character tokens: the characters of `"+-*/%^@cr()"`. -/
def token_chars : List Char :=
  ['+', '-', '*', '/', '%', '^', '@', 'c', 'r', '(', ')']

/-- The token code for the end of the input, `'\0'`. -/
def tok_end : Char := '\x00'

/-! ## The arithmetic of `Value` -/

/-- The operations on `double` that the program uses, and `strtod`. `strtod`
returns the value read and the rest of the input (`endptr`); it is only called
on input that starts with a digit, and then reads that digit at least. -/
structure Arith (V : Type) where
  /-- The constant `0`. -/
  zero : V
  /-- The sum `lhs + rhs`. -/
  add : V → V → V
  /-- The difference `lhs - rhs`. -/
  sub : V → V → V
  /-- The product `lhs * rhs`. -/
  mul : V → V → V
  /-- The quotient `lhs / rhs`. -/
  div : V → V → V
  /-- The libm function `fmod`. -/
  fmod : V → V → V
  /-- The libm function `pow`. -/
  pow : V → V → V
  /-- The negation `-x`. -/
  neg : V → V
  /-- The test `rhs == 0`. -/
  isZero : V → Bool
  /-- The conversion from `unsigned` to `double`. -/
  ofUnsigned : Nat → V
  /-- The conversion from `double` to `unsigned`. -/
  toUnsigned : V → Nat
  /-- The libc function `strtod`: the value and the unread rest. -/
  strtod : List Char → V × List Char
  /-- On input starting with a digit `strtod` reads at least one character. -/
  strtod_progress : ∀ (d : Char) (tl : List Char), isdigit d = true →
    (strtod (d :: tl)).2.length ≤ tl.length

/-! ## The evaluation context -/

/-- The C `struct Context`. -/
structure Context (V : Type) where
  p : List Char
  row : Nat
  col : Nat
  token : Char
  token_value : V
  plaint : Option Plaint

/-- The C function `complain`: the first complaint is kept and the rest of the
input is skipped. -/
def complain {V : Type} (s : Context V) (plaint : Plaint) : Context V :=
  match s.plaint with
  | none => { s with plaint := some plaint, p := [] }
  | some _ => s

/-- The C function `next`, the tokenizer. -/
def next {V : Type} (N : Arith V) (s : Context V) : Context V :=
  match s.p.dropWhile isspace with
  | [] => { s with p := [], token := tok_end }
  | ch :: rest =>
    if isdigit ch then
      { s with p := (N.strtod (ch :: rest)).2, token := '0',
               token_value := (N.strtod (ch :: rest)).1 }
    else if ch ∈ token_chars then
      { s with p := rest, token := ch }
    else
      { complain { s with p := ch :: rest } (.lit "Syntax error: unknown token type")
        with token := tok_end }

/-- The C function `find_formula`: the text after the `=` prefix, if any. -/
def find_formula (s : List Char) : Option (List Char) :=
  match s.dropWhile (fun ch => ch == ' ' || ch == '\t') with
  | '=' :: t => some t
  | _ => none

/-- The switch of `parse_expr`: left and right precedence of an operator. -/
def binding (rator : Char) : Option (Int × Int) :=
  if rator = '+' then some (1, 2)
  else if rator = '-' then some (1, 2)
  else if rator = '*' then some (3, 4)
  else if rator = '/' then some (3, 4)
  else if rator = '%' then some (3, 4)
  else if rator = '^' then some (5, 5)
  else if rator = '@' then some (7, 8)
  else none

/-! ## The grid -/

/-- The C `struct Cell`. -/
structure Cell (V : Type) where
  text : List Char
  plaint : Option Plaint
  value : V

/-- The number of rows of the grid. -/
def nrows : Nat := 20

/-- The number of columns of the grid. -/
def ncols : Nat := 4

/-- The global state: the array `cells` and the latch `the_plaint`. Only the
entries with `r < nrows` and `c < ncols` are ever read or written. -/
structure State (V : Type) where
  cells : Nat → Nat → Cell V
  the_plaint : Option Plaint

/-- The assignment `cells[r][c] = cell`. -/
def State.set {V : Type} (σ : State V) (r c : Nat) (cell : Cell V) : State V :=
  { σ with cells := fun r1 c1 => if r1 = r ∧ c1 = c then cell else σ.cells r1 c1 }

/-- The C function `error`: latch the first message. -/
def error {V : Type} (plaint : Plaint) (σ : State V) : State V :=
  match σ.the_plaint with
  | none => { σ with the_plaint := some plaint }
  | some _ => σ

/-- The C function `setup`: every cell is empty and unknown. -/
def setup {V : Type} (N : Arith V) : State V :=
  { cells := fun _ _ => { text := [], plaint := some .unknown, value := N.zero },
    the_plaint := none }

/-- The argument `text` of `set_text` as a pointer: a buffer of the caller
(`input`, a line of the file), or the text buffer that a cell owns
(`copy_text` passes `cells[row][col].text`). -/
inductive TextArg where
  | buffer (chars : List Char)
  | cell_text (row col : Nat)

/-- The characters a `TextArg` points to. -/
def TextArg.chars {V : Type} (σ : State V) : TextArg → List Char
  | .buffer t => t
  | .cell_text r c => (σ.cells r c).text

/-- The pointer comparison `cells[row][col].text == text`: each cell owns its
own buffer, and no buffer of a caller is the buffer of a cell. -/
def TextArg.is_text_of (row col : Nat) : TextArg → Bool
  | .buffer _ => false
  | .cell_text r c => r == row && c == col

/-- The C function `set_text`. The result is `none` when the `assert` fails. -/
def set_text {V : Type} (row col : Nat) (text : TextArg) (σ : State V) :
    Option (State V) :=
  if ¬ (row < nrows ∧ col < ncols) then none
  else if text.is_text_of row col then some σ
  else
    let t := text.chars σ
    let σ1 := σ.set row col { σ.cells row col with text := t }
    some { σ1 with cells := fun r c =>
      if r < nrows ∧ c < ncols then { σ1.cells r c with plaint := some .unknown }
      else σ1.cells r c }

/-! ## The evaluator and the recomputation -/

mutual

/-- The C function `parse_factor`. -/
def parse_factor {V : Type} (N : Arith V) :
    Nat → Context V → State V → Option (V × Context V × State V)
  | 0, _, _ => none
  | fuel + 1, s, σ =>
    if s.token = '0' then some (s.token_value, next N s, σ)
    else if s.token = '-' then
      match parse_factor N fuel (next N s) σ with
      | none => none
      | some (v, s1, σ1) => some (N.neg v, s1, σ1)
    else if s.token = 'c' then some (N.ofUnsigned s.col, next N s, σ)
    else if s.token = 'r' then some (N.ofUnsigned s.row, next N s, σ)
    else if s.token = '(' then
      match parse_expr N fuel (next N s) 0 σ with
      | none => none
      | some (v, s1, σ1) =>
        let s2 := if s1.token ≠ ')' then complain s1 (.lit "Syntax error: expected ')'")
                  else s1
        some (v, next N s2, σ1)
    else
      some (N.zero, next N (complain s (.lit "Syntax error: expected a factor")), σ)
termination_by structural fuel => fuel

/-- The C function `apply`. -/
def apply {V : Type} (N : Arith V) :
    Nat → Context V → Char → V → V → State V → Option (V × Context V × State V)
  | 0, _, _, _, _, _ => none
  | fuel + 1, s, rator, lhs, rhs, σ =>
    if rator = '+' then some (N.add lhs rhs, s, σ)
    else if rator = '-' then some (N.sub lhs rhs, s, σ)
    else if rator = '*' then some (N.mul lhs rhs, s, σ)
    else if rator = '/' then
      if N.isZero rhs then some (N.zero, complain s (.lit "Divide by 0"), σ)
      else some (N.div lhs rhs, s, σ)
    else if rator = '%' then
      if N.isZero rhs then some (N.zero, complain s (.lit "Divide by 0"), σ)
      else some (N.fmod lhs rhs, s, σ)
    else if rator = '^' then some (N.pow lhs rhs, s, σ)
    else if rator = '@' then
      match get_value N fuel (N.toUnsigned lhs) (N.toUnsigned rhs) (some (.lit "")) σ with
      | none => none
      | some (.error plaint, σ1) => some (N.zero, complain s plaint, σ1)
      | some (.ok value, σ1) => some (value, s, σ1)
    else none
termination_by structural fuel => fuel

/-- The C function `parse_expr`: a factor, then the operator loop. -/
def parse_expr {V : Type} (N : Arith V) :
    Nat → Context V → Int → State V → Option (V × Context V × State V)
  | 0, _, _, _ => none
  | fuel + 1, s, precedence, σ =>
    match parse_factor N fuel s σ with
    | none => none
    | some (lhs, s1, σ1) => parse_expr_loop N fuel s1 precedence lhs σ1
termination_by structural fuel => fuel

/-- The loop `for (;;)` of `parse_expr`, entered with the current `lhs`. -/
def parse_expr_loop {V : Type} (N : Arith V) :
    Nat → Context V → Int → V → State V → Option (V × Context V × State V)
  | 0, _, _, _, _ => none
  | fuel + 1, s, precedence, lhs, σ =>
    match binding s.token with
    | none => some (lhs, s, σ)
    | some (lp, rp) =>
      if lp < precedence then some (lhs, s, σ)
      else
        match parse_expr N fuel (next N s) rp σ with
        | none => none
        | some (rhs, s1, σ1) =>
          match apply N fuel s1 s.token lhs rhs σ1 with
          | none => none
          | some (v, s2, σ2) => parse_expr_loop N fuel s2 precedence v σ2
termination_by structural fuel => fuel

/-- The C function `evaluate`. It returns the complaint, and the value it
stored in `*result` if it stored one. The field `token_value` of the fresh
context is not initialised in C; it is read only after `next` has set it. -/
def evaluate {V : Type} (N : Arith V) :
    Nat → List Char → Nat → Nat → State V → Option (Option Plaint × Option V × State V)
  | 0, _, _, _, _ => none
  | fuel + 1, expression, r, c, σ =>
    match find_formula expression with
    | none => some (some (.lit "No formula"), none, σ)
    | some p =>
      let context : Context V :=
        { p := p, row := r, col := c, token := tok_end, token_value := N.zero,
          plaint := none }
      match parse_expr N fuel (next N context) 0 σ with
      | none => none
      | some (result, s1, σ1) =>
        let s2 := if s1.token ≠ tok_end then
                    complain s1 (.lit "Syntax error: unexpected token")
                  else s1
        some (s2.plaint, some result, σ1)
termination_by structural fuel => fuel

/-- The C function `update`. -/
def update {V : Type} (N : Arith V) : Nat → Nat → Nat → State V → Option (State V)
  | 0, _, _, _ => none
  | fuel + 1, r, c, σ =>
    if ¬ (r < nrows ∧ c < ncols) then none
    else
      let σ0 := σ.set r c { σ.cells r c with plaint := some .calculating }
      match evaluate N fuel (σ0.cells r c).text r c σ0 with
      | none => none
      | some (plaint, result, σ1) =>
        let value := match result with
          | some v => v
          | none => (σ1.cells r c).value
        let σ2 := σ1.set r c { σ1.cells r c with plaint := plaint, value := value }
        match plaint with
        | some p => some (error p σ2)
        | none => some σ2
termination_by structural fuel => fuel

/-- The C function `get_value`. The result is `.error plaint` for a returned
message and `.ok value` when `NULL` is returned and `*value` is set. -/
def get_value {V : Type} (N : Arith V) :
    Nat → Nat → Nat → Option Plaint → State V → Option (Except Plaint V × State V)
  | 0, _, _, _, _ => none
  | fuel + 1, r, c, derived_plaint, σ =>
    if nrows ≤ r ∨ ncols ≤ c then some (.error (.lit "Cell out of range"), σ)
    else
      match (if (σ.cells r c).plaint = some .unknown then update N fuel r c σ
             else some σ) with
      | none => none
      | some σ1 =>
        if (σ1.cells r c).plaint = some .calculating then
          some (.error .calculating, σ1)
        else
          match (σ1.cells r c).plaint with
          | some p => some (.error (orelse derived_plaint p), σ1)
          | none => some (.ok (σ1.cells r c).value, σ1)
termination_by structural fuel => fuel
end

/-! ## An exact interpretation of the arithmetic -/

/-- A fraction `num / den` in lowest terms with `den > 0`. -/
structure Frac where
  num : Int
  den : Nat
deriving DecidableEq, Repr

/-- The fraction `n / d` in lowest terms; `0` when `d = 0`. -/
def Frac.make (n : Int) (d : Nat) : Frac :=
  if d = 0 then ⟨0, 1⟩
  else ⟨n / (Nat.gcd n.natAbs d : Int), d / Nat.gcd n.natAbs d⟩

/-- The integer `n` as a fraction. -/
def Frac.ofInt (n : Int) : Frac := ⟨n, 1⟩

/-- Truncation toward zero. -/
def Frac.trunc (a : Frac) : Int := Int.tdiv a.num a.den

/-- The sum of two fractions. -/
def Frac.add (a b : Frac) : Frac := Frac.make (a.num * b.den + b.num * a.den) (a.den * b.den)

/-- The negation of a fraction. -/
def Frac.neg (a : Frac) : Frac := ⟨-a.num, a.den⟩

/-- The difference of two fractions. -/
def Frac.sub (a b : Frac) : Frac := Frac.add a (Frac.neg b)

/-- The product of two fractions. -/
def Frac.mul (a b : Frac) : Frac := Frac.make (a.num * b.num) (a.den * b.den)

/-- The quotient of two fractions; `0` when the divisor is `0`. -/
def Frac.div (a b : Frac) : Frac :=
  if b.num < 0 then Frac.make (-(a.num * b.den)) (a.den * b.num.natAbs)
  else Frac.make (a.num * b.den) (a.den * b.num.natAbs)

/-- The remainder `a - b * trunc (a / b)`, as `fmod` computes it. -/
def Frac.fmod (a b : Frac) : Frac :=
  Frac.sub a (Frac.mul b (Frac.ofInt (Frac.div a b).trunc))

/-- The power `a ^ b` for an integer exponent `b`; exponents that are not
integers have no exact power and give `0`. -/
def Frac.pow (a b : Frac) : Frac :=
  if b.den ≠ 1 then ⟨0, 1⟩
  else if 0 ≤ b.num then Frac.make (a.num ^ b.num.toNat) (a.den ^ b.num.toNat)
  else Frac.div ⟨1, 1⟩ (Frac.make (a.num ^ b.num.natAbs) (a.den ^ b.num.natAbs))

/-- The value of a decimal digit. -/
def digit_value (ch : Char) : Nat := ch.toNat - '0'.toNat

/-- Read the digits of an integer part: the number so far, then the rest. -/
def read_digits : Nat → List Char → Nat × List Char
  | acc, [] => (acc, [])
  | acc, ch :: rest =>
    if isdigit ch then read_digits (acc * 10 + digit_value ch) rest
    else (acc, ch :: rest)

/-- Read the digits of a fraction part: numerator and denominator so far. -/
def read_fraction : Nat → Nat → List Char → Nat × Nat × List Char
  | n, d, [] => (n, d, [])
  | n, d, ch :: rest =>
    if isdigit ch then read_fraction (n * 10 + digit_value ch) (d * 10) rest
    else (n, d, ch :: rest)

/-- The function `strtod` on decimal literals `digits[.digits]`, exactly. -/
def Frac.strtod (p : List Char) : Frac × List Char :=
  match read_digits 0 p with
  | (n, '.' :: rest) =>
    let r := read_fraction n 1 rest
    (Frac.make r.1 r.2.1, r.2.2)
  | (n, rest) => (Frac.ofInt n, rest)

/-- The conversion `unsigned r = lhs` of a `double` as the compilers for x86-64
do it: the value is truncated toward zero to a 64-bit integer, of which the low
32 bits are kept, so that a value outside the range of `unsigned` wraps modulo
`2^32` (`4294967296` becomes `0`, `-1` becomes `4294967295`); a value that does
not fit 64 bits gives `-2^63`, of which the low 32 bits are `0`. The C standard
leaves the conversion of a value outside the range of `unsigned` undefined. -/
def Frac.toUnsigned (a : Frac) : Nat :=
  if -9223372036854775808 ≤ a.trunc ∧ a.trunc < 9223372036854775808 then
    (a.trunc % 4294967296).toNat
  else 0

/-- Exact arithmetic on fractions, used to run the program on concrete
formulas. It agrees with the arithmetic of `double` on the real machine where
the latter is exact: decimal literals `digits[.digits]` and results of `+`,
`-`, `*`, `/`, `%` and of `^` with an integer exponent that a `double` holds
without rounding, in particular small integers. It does not model rounding,
overflow to infinity, literals with an exponent or in hexadecimal (`strtod`
reads them, `Frac.strtod` stops before the `e` or `x`), or `^` with an exponent
that is not an integer (`Frac.pow` gives `0`). The general theorems do not
depend on it: they hold for every `Arith`. -/
def fracArith : Arith Frac where
  zero := ⟨0, 1⟩
  add := Frac.add
  sub := Frac.sub
  mul := Frac.mul
  div := Frac.div
  fmod := Frac.fmod
  pow := Frac.pow
  neg := Frac.neg
  isZero := fun a => a.num == 0
  ofUnsigned := fun n => Frac.ofInt n
  toUnsigned := Frac.toUnsigned
  strtod := Frac.strtod
  strtod_progress := by
    have hd : ∀ (l : List Char) (acc : Nat), (read_digits acc l).2.length ≤ l.length := by
      intro l
      induction l with
      | nil => intro acc; simp [read_digits]
      | cons ch rest ih =>
        intro acc
        by_cases h : isdigit ch = true
        · simp only [read_digits, h, if_true]
          exact Nat.le_succ_of_le (ih _)
        · simp [read_digits, h]
    have hf : ∀ (l : List Char) (n d : Nat), (read_fraction n d l).2.2.length ≤ l.length := by
      intro l
      induction l with
      | nil => intro n d; simp [read_fraction]
      | cons ch rest ih =>
        intro n d
        by_cases h : isdigit ch = true
        · simp only [read_fraction, h, if_true]
          exact Nat.le_succ_of_le (ih _ _)
        · simp [read_fraction, h]
    intro d tl h
    have h1 := hd tl (0 * 10 + digit_value d)
    unfold Frac.strtod
    simp only [read_digits, h, if_true]
    split
    · rename_i n rest heq
      rw [heq] at h1
      have h2 := hf rest n 1
      simp only [List.length_cons] at h1
      simp only
      omega
    · rename_i n rest _ heq
      rw [heq] at h1
      exact h1

/-- The grid after `setup` and one `set_text` call from a buffer for each entry
of the list, the last entry first; `none` if an entry is outside the grid. -/
def load {V : Type} (N : Arith V) : List (Nat × Nat × String) → Option (State V)
  | [] => some (setup N)
  | (r, c, t) :: rest =>
    match load N rest with
    | none => none
    | some σ => set_text r c (.buffer t.toList) σ


/-! ## Predicates used in the statements and proofs -/

/-- The statement that one more unit of fuel keeps every result reached with
`fuel`. -/
def FuelStep {V : Type} (N : Arith V) (fuel : Nat) : Prop :=
  (∀ s σ res, parse_factor N fuel s σ = some res → parse_factor N (fuel + 1) s σ = some res) ∧
  (∀ s rator lhs rhs σ res, apply N fuel s rator lhs rhs σ = some res →
    apply N (fuel + 1) s rator lhs rhs σ = some res) ∧
  (∀ s prec σ res, parse_expr N fuel s prec σ = some res →
    parse_expr N (fuel + 1) s prec σ = some res) ∧
  (∀ s prec lhs σ res, parse_expr_loop N fuel s prec lhs σ = some res →
    parse_expr_loop N (fuel + 1) s prec lhs σ = some res) ∧
  (∀ e r c σ res, evaluate N fuel e r c σ = some res →
    evaluate N (fuel + 1) e r c σ = some res) ∧
  (∀ r c σ res, update N fuel r c σ = some res → update N (fuel + 1) r c σ = some res) ∧
  (∀ r c d σ res, get_value N fuel r c d σ = some res →
    get_value N (fuel + 1) r c d σ = some res)

/-- The size of what a context has still to read: the unread characters, and
the current token unless it is the end. -/
def Context.size {V : Type} (s : Context V) : Nat :=
  s.p.length + (if s.token = tok_end then 0 else 1)

/-- The state `σ1` comes after the state `σ` within one epoch: the texts are
the same, a cell that was not unknown is the same, and a latched message is
kept. -/
structure Later {V : Type} (σ σ1 : State V) : Prop where
  settled : ∀ r c, (σ.cells r c).plaint ≠ some .unknown → σ1.cells r c = σ.cells r c
  text : ∀ r c, (σ1.cells r c).text = (σ.cells r c).text
  latch : ∀ m, σ.the_plaint = some m → σ1.the_plaint = some m
  outside : ∀ r c, ¬ (r < nrows ∧ c < ncols) → σ1.cells r c = σ.cells r c

/-- What `get_value` returns for a cell that is not unknown. -/
def read_cell {V : Type} (derived_plaint : Option Plaint) (cell : Cell V) : Except Plaint V :=
  if cell.plaint = some .calculating then .error .calculating
  else
    match cell.plaint with
    | some p => .error (orelse derived_plaint p)
    | none => .ok cell.value

/-- The invariants of a run of the parser from context `s` and state `σ` to
context `s1` and state `σ1`. -/
structure Step {V : Type} (s : Context V) (σ : State V) (s1 : Context V) (σ1 : State V) :
    Prop where
  later : Later σ σ1
  size : s1.size ≤ s.size
  plaint : s.plaint ≠ some .unknown → s1.plaint ≠ some .unknown

/-- The invariants of all seven functions, for results reached with `fuel`. -/
def Invariants {V : Type} (N : Arith V) (fuel : Nat) : Prop :=
  (∀ s σ v s1 σ1, parse_factor N fuel s σ = some (v, s1, σ1) → Step s σ s1 σ1) ∧
  (∀ s rator lhs rhs σ v s1 σ1, apply N fuel s rator lhs rhs σ = some (v, s1, σ1) →
    Step s σ s1 σ1) ∧
  (∀ s prec σ v s1 σ1, parse_expr N fuel s prec σ = some (v, s1, σ1) → Step s σ s1 σ1) ∧
  (∀ s prec lhs σ v s1 σ1, parse_expr_loop N fuel s prec lhs σ = some (v, s1, σ1) →
    Step s σ s1 σ1) ∧
  (∀ e r c σ p v σ1, evaluate N fuel e r c σ = some (p, v, σ1) →
    Later σ σ1 ∧ p ≠ some .unknown) ∧
  (∀ r c σ σ1, (σ.cells r c).plaint = some .unknown → update N fuel r c σ = some σ1 →
    Later σ σ1 ∧ (σ1.cells r c).plaint ≠ some .unknown) ∧
  (∀ r c d σ res σ1, get_value N fuel r c d σ = some (res, σ1) →
    Later σ σ1 ∧
    (r < nrows ∧ c < ncols →
      (σ1.cells r c).plaint ≠ some .unknown ∧ res = read_cell d (σ1.cells r c)) ∧
    (¬ (r < nrows ∧ c < ncols) → res = .error (.lit "Cell out of range") ∧ σ1 = σ))

/-- The cells of the grid that are unknown. -/
def unknown_cells {V : Type} (σ : State V) : Finset (Nat × Nat) :=
  ((Finset.range nrows) ×ˢ (Finset.range ncols)).filter
    (fun rc => (σ.cells rc.1 rc.2).plaint = some .unknown)

/-- The parser returns from context `s` in state `σ`, given enough fuel. -/
def ParserTotal {V : Type} (N : Arith V) (s : Context V) (σ : State V) : Prop :=
  (∃ fuel res, parse_factor N fuel s σ = some res) ∧
  (∀ prec lhs, ∃ fuel res, parse_expr_loop N fuel s prec lhs σ = some res)

/-- The characters that end a number literal in the formulas below: the
operators and the closing parenthesis. -/
def delimiters : List Char := ['+', '-', '*', '/', '%', '^', '@', ')']

/-- The rest of the input is empty or starts with a delimiter. -/
def Delimited (rest : List Char) : Prop :=
  ∀ ch tl, rest = ch :: tl → ch ∈ delimiters

/-- The characters `lit` are a number literal of value `v`: they start with a
digit, and `strtod` reads exactly them, with value `v`, whenever the input
ends after them or goes on with a delimiter. -/
def IsNumber {V : Type} (N : Arith V) (lit : List Char) (v : V) : Prop :=
  (∃ d tl, lit = d :: tl ∧ isdigit d = true) ∧
    ∀ rest, Delimited rest → N.strtod (lit ++ rest) = (v, rest)

/-- The value of a string of decimal digits, from the value `acc` of the digits
before it. -/
def digits_value (acc : Nat) (ds : List Char) : Nat :=
  ds.foldl (fun a ch => a * 10 + digit_value ch) acc

/-- The grid after `setup` and the `set_text` calls of `load`; the grid after
`setup` alone if a cell of the list is outside the grid. -/
def grid {V : Type} (N : Arith V) (l : List (Nat × Nat × String)) : State V :=
  (load N l).getD (setup N)

/-- The state after a call `get_value(r, c, NULL)` run with `fuel`. -/
def evaluated {V : Type} (N : Arith V) (fuel r c : Nat) (σ : State V) : State V :=
  match get_value N fuel r c none σ with
  | some res => res.2
  | none => σ

/-- The value that `apply` returns for an arithmetic operator when no division
by zero occurs. -/
def arith {V : Type} (N : Arith V) (rator : Char) (lhs rhs : V) : V :=
  if rator = '+' then N.add lhs rhs
  else if rator = '-' then N.sub lhs rhs
  else if rator = '*' then N.mul lhs rhs
  else if rator = '/' then N.div lhs rhs
  else if rator = '%' then N.fmod lhs rhs
  else if rator = '^' then N.pow lhs rhs
  else N.zero

/-- A context that has met the end of the input without a complaint has read
all of it. -/
def Context.EndOK {V : Type} (s : Context V) : Prop :=
  s.plaint = none → s.token = tok_end → s.p = []

/-- The complaints that the parser can raise while it reads an expression. -/
def parser_complaints : List Plaint :=
  [.lit "Syntax error: unknown token type", .lit "Syntax error: expected ')'",
   .lit "Syntax error: expected a factor", .lit "Divide by 0", .lit "Cell out of range",
   .calculating, .lit ""]

/-- From context `s` to context `s1` of one evaluation: the first complaint is
kept, a new complaint is one of `parser_complaints`, input that was skipped to
its end stays there, and the end of the input is met only when all is read. -/
structure Kept {V : Type} (s s1 : Context V) : Prop where
  plaint : ∀ q, s.plaint = some q → s1.plaint = some q
  source : s1.plaint = s.plaint ∨ ∃ q ∈ parser_complaints, s1.plaint = some q
  truncated : s.p = [] → s1.p = []
  ended : s.EndOK → s1.EndOK
  row : s1.row = s.row
  col : s1.col = s.col

/-- The statements of `Kept` for the four functions of the parser, for results
reached with `fuel`. -/
def KeptAll {V : Type} (N : Arith V) (fuel : Nat) : Prop :=
  (∀ s σ v s1 σ1, parse_factor N fuel s σ = some (v, s1, σ1) → Kept s s1 ∧ s1.EndOK) ∧
  (∀ s rator lhs rhs σ v s1 σ1, apply N fuel s rator lhs rhs σ = some (v, s1, σ1) →
    Kept s s1) ∧
  (∀ s prec σ v s1 σ1, parse_expr N fuel s prec σ = some (v, s1, σ1) →
    Kept s s1 ∧ s1.EndOK) ∧
  (∀ s prec lhs σ v s1 σ1, parse_expr_loop N fuel s prec lhs σ = some (v, s1, σ1) →
    Kept s s1)

/-- The negation applied `n` times. -/
def neg_iter {V : Type} (N : Arith V) : Nat → V → V
  | 0, v => v
  | n + 1, v => N.neg (neg_iter N n v)

/-- The formula test in the words of the specification: after stripping leading
whitespace, the text begins with `=`; whitespace is what the tokenizer skips. -/
def spec_is_formula (text : List Char) : Bool :=
  match text.dropWhile isspace with
  | '=' :: _ => true
  | _ => false

/-- The text begins with `=` after leading blanks and tabs. -/
def HasFormulaPrefix (text : List Char) : Prop :=
  ∃ ws t, text = ws ++ '=' :: t ∧ ∀ ch ∈ ws, ch = ' ' ∨ ch = '\t'

/-! ## The evaluator with a trace of its updates -/

/-- An event of a run: `update(r, c)` was entered, or `update(r, c)` was left
with the status it stored in the cell. -/
inductive Event where
  | entered (r c : Nat)
  | left (r c : Nat) (plaint : Option Plaint)
deriving DecidableEq

mutual

/-- The function `parse_factor` with the list of the events of the call. -/
def parse_factor_traced {V : Type} (N : Arith V) :
    Nat → Context V → State V → Option (V × Context V × State V × List Event)
  | 0, _, _ => none
  | fuel + 1, s, σ =>
    if s.token = '0' then some (s.token_value, next N s, σ, [])
    else if s.token = '-' then
      match parse_factor_traced N fuel (next N s) σ with
      | none => none
      | some (v, s1, σ1, l) => some (N.neg v, s1, σ1, l)
    else if s.token = 'c' then some (N.ofUnsigned s.col, next N s, σ, [])
    else if s.token = 'r' then some (N.ofUnsigned s.row, next N s, σ, [])
    else if s.token = '(' then
      match parse_expr_traced N fuel (next N s) 0 σ with
      | none => none
      | some (v, s1, σ1, l) =>
        let s2 := if s1.token ≠ ')' then complain s1 (.lit "Syntax error: expected ')'")
                  else s1
        some (v, next N s2, σ1, l)
    else
      some (N.zero, next N (complain s (.lit "Syntax error: expected a factor")), σ, [])
termination_by structural fuel => fuel

/-- The function `apply` with the list of the events of the call. -/
def apply_traced {V : Type} (N : Arith V) :
    Nat → Context V → Char → V → V → State V →
      Option (V × Context V × State V × List Event)
  | 0, _, _, _, _, _ => none
  | fuel + 1, s, rator, lhs, rhs, σ =>
    if rator = '+' then some (N.add lhs rhs, s, σ, [])
    else if rator = '-' then some (N.sub lhs rhs, s, σ, [])
    else if rator = '*' then some (N.mul lhs rhs, s, σ, [])
    else if rator = '/' then
      if N.isZero rhs then some (N.zero, complain s (.lit "Divide by 0"), σ, [])
      else some (N.div lhs rhs, s, σ, [])
    else if rator = '%' then
      if N.isZero rhs then some (N.zero, complain s (.lit "Divide by 0"), σ, [])
      else some (N.fmod lhs rhs, s, σ, [])
    else if rator = '^' then some (N.pow lhs rhs, s, σ, [])
    else if rator = '@' then
      match get_value_traced N fuel (N.toUnsigned lhs) (N.toUnsigned rhs)
          (some (.lit "")) σ with
      | none => none
      | some (.error plaint, σ1, l) => some (N.zero, complain s plaint, σ1, l)
      | some (.ok value, σ1, l) => some (value, s, σ1, l)
    else none
termination_by structural fuel => fuel

/-- The function `parse_expr` with the list of the events of the call. -/
def parse_expr_traced {V : Type} (N : Arith V) :
    Nat → Context V → Int → State V → Option (V × Context V × State V × List Event)
  | 0, _, _, _ => none
  | fuel + 1, s, precedence, σ =>
    match parse_factor_traced N fuel s σ with
    | none => none
    | some (lhs, s1, σ1, l1) =>
      match parse_expr_loop_traced N fuel s1 precedence lhs σ1 with
      | none => none
      | some (v, s2, σ2, l2) => some (v, s2, σ2, l1 ++ l2)
termination_by structural fuel => fuel

/-- The function `parse_expr_loop` with the list of the events of the call. -/
def parse_expr_loop_traced {V : Type} (N : Arith V) :
    Nat → Context V → Int → V → State V → Option (V × Context V × State V × List Event)
  | 0, _, _, _, _ => none
  | fuel + 1, s, precedence, lhs, σ =>
    match binding s.token with
    | none => some (lhs, s, σ, [])
    | some (lp, rp) =>
      if lp < precedence then some (lhs, s, σ, [])
      else
        match parse_expr_traced N fuel (next N s) rp σ with
        | none => none
        | some (rhs, s1, σ1, l1) =>
          match apply_traced N fuel s1 s.token lhs rhs σ1 with
          | none => none
          | some (v, s2, σ2, l2) =>
            match parse_expr_loop_traced N fuel s2 precedence v σ2 with
            | none => none
            | some (v3, s3, σ3, l3) => some (v3, s3, σ3, l1 ++ (l2 ++ l3))
termination_by structural fuel => fuel

/-- The function `evaluate` with the list of the events of the call. -/
def evaluate_traced {V : Type} (N : Arith V) :
    Nat → List Char → Nat → Nat → State V →
      Option (Option Plaint × Option V × State V × List Event)
  | 0, _, _, _, _ => none
  | fuel + 1, expression, r, c, σ =>
    match find_formula expression with
    | none => some (some (.lit "No formula"), none, σ, [])
    | some p =>
      match parse_expr_traced N fuel
          (next N ⟨p, r, c, tok_end, N.zero, none⟩) 0 σ with
      | none => none
      | some (result, s1, σ1, l) =>
        let s2 := if s1.token ≠ tok_end then
                    complain s1 (.lit "Syntax error: unexpected token")
                  else s1
        some (s2.plaint, some result, σ1, l)
termination_by structural fuel => fuel

/-- The function `update` with the list of the events of the call: its own
entry, the events of the evaluation, its own end. -/
def update_traced {V : Type} (N : Arith V) :
    Nat → Nat → Nat → State V → Option (State V × List Event)
  | 0, _, _, _ => none
  | fuel + 1, r, c, σ =>
    if ¬ (r < nrows ∧ c < ncols) then none
    else
      let σ0 := σ.set r c { σ.cells r c with plaint := some .calculating }
      match evaluate_traced N fuel (σ0.cells r c).text r c σ0 with
      | none => none
      | some (plaint, result, σ1, l) =>
        let value := match result with
          | some v => v
          | none => (σ1.cells r c).value
        let σ2 := σ1.set r c { σ1.cells r c with plaint := plaint, value := value }
        match plaint with
        | some p => some (error p σ2, .entered r c :: (l ++ [.left r c plaint]))
        | none => some (σ2, .entered r c :: (l ++ [.left r c plaint]))
termination_by structural fuel => fuel

/-- The function `get_value` with the list of the events of the call. -/
def get_value_traced {V : Type} (N : Arith V) :
    Nat → Nat → Nat → Option Plaint → State V →
      Option (Except Plaint V × State V × List Event)
  | 0, _, _, _, _ => none
  | fuel + 1, r, c, derived_plaint, σ =>
    if nrows ≤ r ∨ ncols ≤ c then some (.error (.lit "Cell out of range"), σ, [])
    else
      match (if (σ.cells r c).plaint = some .unknown then update_traced N fuel r c σ
             else some (σ, [])) with
      | none => none
      | some (σ1, l) =>
        if (σ1.cells r c).plaint = some .calculating then
          some (.error .calculating, σ1, l)
        else
          match (σ1.cells r c).plaint with
          | some p => some (.error (orelse derived_plaint p), σ1, l)
          | none => some (.ok (σ1.cells r c).value, σ1, l)
termination_by structural fuel => fuel

end

/-- The traced functions compute what the functions of the program compute:
forgetting the events gives the original results. -/
def Erasure {V : Type} (N : Arith V) (fuel : Nat) : Prop :=
  (∀ s σ, parse_factor N fuel s σ =
    (parse_factor_traced N fuel s σ).map (fun x => (x.1, x.2.1, x.2.2.1))) ∧
  (∀ s rator lhs rhs σ, apply N fuel s rator lhs rhs σ =
    (apply_traced N fuel s rator lhs rhs σ).map (fun x => (x.1, x.2.1, x.2.2.1))) ∧
  (∀ s prec σ, parse_expr N fuel s prec σ =
    (parse_expr_traced N fuel s prec σ).map (fun x => (x.1, x.2.1, x.2.2.1))) ∧
  (∀ s prec lhs σ, parse_expr_loop N fuel s prec lhs σ =
    (parse_expr_loop_traced N fuel s prec lhs σ).map (fun x => (x.1, x.2.1, x.2.2.1))) ∧
  (∀ e r c σ, evaluate N fuel e r c σ =
    (evaluate_traced N fuel e r c σ).map (fun x => (x.1, x.2.1, x.2.2.1))) ∧
  (∀ r c σ, update N fuel r c σ = (update_traced N fuel r c σ).map (fun x => x.1)) ∧
  (∀ r c d σ, get_value N fuel r c d σ =
    (get_value_traced N fuel r c d σ).map (fun x => (x.1, x.2.1)))

/-- The cells whose `update` the events report as entered, in the order of
the events. -/
def entered_cells : List Event → List (Nat × Nat)
  | [] => []
  | .entered r c :: l => (r, c) :: entered_cells l
  | .left _ _ _ :: l => entered_cells l

/-- The message of the first `update` that the events report as finished with
a failure, if there is one. -/
def first_failure : List Event → Option Plaint
  | [] => none
  | .entered _ _ :: l => first_failure l
  | .left _ _ (some p) :: _ => some p
  | .left _ _ none :: l => first_failure l

/-- The latch after a run with the events `l` that began with the latch
`before`, as first-wins prescribes: a message held before stays, an empty latch
takes the message of the first failed `update`. -/
def latched (before : Option Plaint) (l : List Event) : Option Plaint :=
  match before with
  | some m => some m
  | none => first_failure l

/-- What the events `l` of a run from state `σ` to state `σ1` tell: the cells
entered were unknown before and are not unknown after, no cell was entered
twice, and the latch is first-wins. -/
structure Traced {V : Type} (σ : State V) (l : List Event) (σ1 : State V) : Prop where
  later : Later σ σ1
  before : ∀ rc ∈ entered_cells l, (σ.cells rc.1 rc.2).plaint = some .unknown
  after : ∀ rc ∈ entered_cells l, (σ1.cells rc.1 rc.2).plaint ≠ some .unknown
  nodup : (entered_cells l).Nodup
  latch : σ1.the_plaint = latched σ.the_plaint l

/-- The events of every traced function satisfy `Traced`, for results reached
with `fuel`. -/
def TracedAll {V : Type} (N : Arith V) (fuel : Nat) : Prop :=
  (∀ s σ v s1 σ1 l, parse_factor_traced N fuel s σ = some (v, s1, σ1, l) → Traced σ l σ1) ∧
  (∀ s rator lhs rhs σ v s1 σ1 l,
    apply_traced N fuel s rator lhs rhs σ = some (v, s1, σ1, l) → Traced σ l σ1) ∧
  (∀ s prec σ v s1 σ1 l,
    parse_expr_traced N fuel s prec σ = some (v, s1, σ1, l) → Traced σ l σ1) ∧
  (∀ s prec lhs σ v s1 σ1 l,
    parse_expr_loop_traced N fuel s prec lhs σ = some (v, s1, σ1, l) → Traced σ l σ1) ∧
  (∀ e r c σ p v σ1 l,
    evaluate_traced N fuel e r c σ = some (p, v, σ1, l) → Traced σ l σ1) ∧
  (∀ r c σ σ1 l, (σ.cells r c).plaint = some .unknown →
    update_traced N fuel r c σ = some (σ1, l) → Traced σ l σ1) ∧
  (∀ r c d σ res σ1 l,
    get_value_traced N fuel r c d σ = some (res, σ1, l) → Traced σ l σ1)

/-- The statement that one more unit of fuel keeps every result, events
included, that a traced function reached with `fuel`. -/
def TracedStep {V : Type} (N : Arith V) (fuel : Nat) : Prop :=
  (∀ s σ res, parse_factor_traced N fuel s σ = some res →
    parse_factor_traced N (fuel + 1) s σ = some res) ∧
  (∀ s rator lhs rhs σ res, apply_traced N fuel s rator lhs rhs σ = some res →
    apply_traced N (fuel + 1) s rator lhs rhs σ = some res) ∧
  (∀ s prec σ res, parse_expr_traced N fuel s prec σ = some res →
    parse_expr_traced N (fuel + 1) s prec σ = some res) ∧
  (∀ s prec lhs σ res, parse_expr_loop_traced N fuel s prec lhs σ = some res →
    parse_expr_loop_traced N (fuel + 1) s prec lhs σ = some res) ∧
  (∀ e r c σ res, evaluate_traced N fuel e r c σ = some res →
    evaluate_traced N (fuel + 1) e r c σ = some res) ∧
  (∀ r c σ res, update_traced N fuel r c σ = some res →
    update_traced N (fuel + 1) r c σ = some res) ∧
  (∀ r c d σ res, get_value_traced N fuel r c d σ = some res →
    get_value_traced N (fuel + 1) r c d σ = some res)

/-- A sequence of calls of `get_value`, one after the other, each with its
row, column and `derived_plaint`: the results, the final state, and the events
of all the calls in order. -/
def calls_traced {V : Type} (N : Arith V) (fuel : Nat) :
    List (Nat × Nat × Option Plaint) → State V →
      Option (List (Except Plaint V) × State V × List Event)
  | [], σ => some ([], σ, [])
  | (r, c, d) :: rest, σ =>
    match get_value_traced N fuel r c d σ with
    | none => none
    | some (res, σ1, l1) =>
      match calls_traced N fuel rest σ1 with
      | none => none
      | some (results, σ2, l2) => some (res :: results, σ2, l1 ++ l2)

/-- A sequence of calls of `get_value`, one after the other: the results and
the final state. -/
def calls {V : Type} (N : Arith V) (fuel : Nat) :
    List (Nat × Nat × Option Plaint) → State V → Option (List (Except Plaint V) × State V)
  | [], σ => some ([], σ)
  | (r, c, d) :: rest, σ =>
    match get_value N fuel r c d σ with
    | none => none
    | some (res, σ1) =>
      match calls N fuel rest σ1 with
      | none => none
      | some (results, σ2) => some (res :: results, σ2)

/-! ## The file: `write_file` and `read_file` -/

/-- The C function `is_blank`: the text has blanks and tabs only. -/
def is_blank (s : List Char) : Bool :=
  (s.dropWhile (fun ch => ch == ' ' || ch == '\t')).isEmpty

/-- The digits that `printf` writes for `%u`. -/
def decimal (n : Nat) : List Char := Nat.toDigits 10 n

/-- The characters that `fprintf(file, "%u %u %s\n", r, c, text)` writes. -/
def record (r c : Nat) (text : List Char) : List Char :=
  decimal r ++ ' ' :: (decimal c ++ ' ' :: (text ++ ['\n']))

/-- The loops of `write_file` over the cells `l`, in their order. -/
def write_cells {V : Type} (σ : State V) : List (Nat × Nat) → List Char
  | [] => []
  | (r, c) :: rest =>
    (if is_blank (σ.cells r c).text then [] else record r c (σ.cells r c).text) ++
      write_cells σ rest

/-- The cells of the grid in the order of the loops of `write_file`: row by
row, and in a row column by column. -/
def cell_order : List (Nat × Nat) :=
  List.product (List.range nrows) (List.range ncols)

/-- The C function `write_file`, for a file that can be opened: the characters
written to the file. -/
def write_file {V : Type} (σ : State V) : List Char :=
  write_cells σ cell_order

/-- The characters that `fgets` stores when it may store `n` more characters,
and the rest of the file: it stops after a newline. -/
def take_line : Nat → List Char → List Char × List Char
  | 0, file => ([], file)
  | _ + 1, [] => ([], [])
  | n + 1, ch :: file =>
    if ch = '\n' then ([ch], file)
    else ((take_line n file).1.cons ch, (take_line n file).2)

/-- The libc function `fgets` with a buffer of `size` bytes: the line read and
the rest of the file, `none` at the end of the file. -/
def fgets (size : Nat) (file : List Char) : Option (List Char × List Char) :=
  match file with
  | [] => none
  | _ :: _ => some (take_line (size - 1) file)

/-- The conversion that `sscanf` makes for the digits of a `%u` item with value
`n`, negated for a minus sign, as glibc on a 64-bit machine does it: `strtoul`
and then the low 32 bits. -/
def convert_unsigned (negative : Bool) (n : Nat) : Nat :=
  if 18446744073709551616 ≤ n then 4294967295
  else if negative then (18446744073709551616 - n) % 4294967296
  else n % 4294967296

/-- The item `%u` of `sscanf`: white space is skipped, then an optional sign
and at least one digit are read. The value and the unread rest, `none` when the
input does not match. -/
def scan_unsigned (input : List Char) : Option (Nat × List Char) :=
  let p := input.dropWhile isspace
  let negative := p.head? = some '-'
  let q := if p.head? = some '-' ∨ p.head? = some '+' then p.tail else p
  match q with
  | [] => none
  | ch :: _ =>
    if isdigit ch then
      some (convert_unsigned negative (read_digits 0 q).1, (read_digits 0 q).2)
    else none

/-- The call `sscanf(line, "%u %u %[^\n]", &r, &c, text)`: the three items when
all three are matched (the call returns 3), `none` otherwise. A blank of the
format skips white space; the item `%[^\n]` needs at least one character that
is not a newline. -/
def sscanf_line (line : List Char) : Option (Nat × Nat × List Char) :=
  match scan_unsigned line with
  | none => none
  | some (r, l1) =>
    match scan_unsigned (l1.dropWhile isspace) with
    | none => none
    | some (c, l2) =>
      let text := (l2.dropWhile isspace).takeWhile (fun ch => ch != '\n')
      if text.isEmpty then none else some (r, c, text)

/-- The loop of `read_file` over the lines of the file; the fuel bounds the
number of lines. The result is `none` when the fuel runs out or the `assert` of
`set_text` fails. -/
def read_lines {V : Type} : Nat → List Char → State V → Option (State V)
  | 0, _, _ => none
  | fuel + 1, file, σ =>
    match fgets 1024 file with
    | none => some σ
    | some (line, rest) =>
      match sscanf_line line with
      | none => read_lines fuel rest (error (.lit "Bad line in file") σ)
      | some (r, c, text) =>
        if nrows ≤ r ∨ ncols ≤ c then
          read_lines fuel rest (error (.lit "Row or column number out of range in file") σ)
        else
          match set_text r c (.buffer text) σ with
          | none => none
          | some σ1 => read_lines fuel rest σ1

/-- The C function `read_file`, for a file that can be opened and has the
characters `file`. Every line has a character, so there are no more lines than
characters. -/
def read_file {V : Type} (file : List Char) (σ : State V) : Option (State V) :=
  read_lines (file.length + 1) file σ

/-- A grid written to a file and read into the grid after `setup`. -/
def reloaded {V : Type} (N : Arith V) (σ : State V) : Option (State V) :=
  read_file (write_file σ) (setup N)

/-- Two states that no call of `get_value` tells apart: in every cell of the
grid the formula found in the text, the status, and for a valid cell the value
are the same. -/
structure Alike {V : Type} (σa σb : State V) : Prop where
  formula : ∀ r c, r < nrows → c < ncols →
    find_formula (σa.cells r c).text = find_formula (σb.cells r c).text
  plaint : ∀ r c, r < nrows → c < ncols → (σa.cells r c).plaint = (σb.cells r c).plaint
  value : ∀ r c, r < nrows → c < ncols → (σa.cells r c).plaint = none →
    (σa.cells r c).value = (σb.cells r c).value

/-- The statement that every function, run with `fuel` from two states that
are alike, gives the same result and two states that are alike. -/
def Simulation {V : Type} (N : Arith V) (fuel : Nat) : Prop :=
  (∀ s σa σb v s1 σa1, Alike σa σb → parse_factor N fuel s σa = some (v, s1, σa1) →
    ∃ σb1, parse_factor N fuel s σb = some (v, s1, σb1) ∧ Alike σa1 σb1) ∧
  (∀ s rator lhs rhs σa σb v s1 σa1, Alike σa σb →
    apply N fuel s rator lhs rhs σa = some (v, s1, σa1) →
    ∃ σb1, apply N fuel s rator lhs rhs σb = some (v, s1, σb1) ∧ Alike σa1 σb1) ∧
  (∀ s prec σa σb v s1 σa1, Alike σa σb → parse_expr N fuel s prec σa = some (v, s1, σa1) →
    ∃ σb1, parse_expr N fuel s prec σb = some (v, s1, σb1) ∧ Alike σa1 σb1) ∧
  (∀ s prec lhs σa σb v s1 σa1, Alike σa σb →
    parse_expr_loop N fuel s prec lhs σa = some (v, s1, σa1) →
    ∃ σb1, parse_expr_loop N fuel s prec lhs σb = some (v, s1, σb1) ∧ Alike σa1 σb1) ∧
  (∀ ea eb r c σa σb p v σa1, find_formula ea = find_formula eb → Alike σa σb →
    evaluate N fuel ea r c σa = some (p, v, σa1) →
    ∃ σb1, evaluate N fuel eb r c σb = some (p, v, σb1) ∧ Alike σa1 σb1) ∧
  (∀ r c σa σb σa1, Alike σa σb → update N fuel r c σa = some σa1 →
    ∃ σb1, update N fuel r c σb = some σb1 ∧ Alike σa1 σb1) ∧
  (∀ r c d σa σb res σa1, Alike σa σb → get_value N fuel r c d σa = some (res, σa1) →
    ∃ σb1, get_value N fuel r c d σb = some (res, σb1) ∧ Alike σa1 σb1)

/-- A text that `write_file` and `read_file` keep, up to leading blanks and
tabs: it has no newline, it is short enough for its record to fit the line
buffer of `read_file`, and its first character after leading blanks and tabs is
not white space. -/
def storable (t : List Char) : Bool :=
  t.all (fun ch => ch != '\n') && decide (t.length ≤ 1017) &&
    match t.dropWhile (fun ch => ch == ' ' || ch == '\t') with
    | [] => true
    | ch :: _ => !isspace ch

/-! ## More fuel keeps a result -/

theorem fuel_step {V : Type} (N : Arith V) : ∀ fuel, FuelStep N fuel := by
  intro fuel
  induction fuel with
  | zero =>
    refine ⟨?_, ?_, ?_, ?_, ?_, ?_, ?_⟩ <;> intros <;> simp_all [parse_factor, apply, parse_expr, parse_expr_loop, evaluate, update, get_value]
  | succ n ih =>
    obtain ⟨hf, ha, he, hl, hv, hu, hg⟩ := ih
    refine ⟨?_, ?_, ?_, ?_, ?_, ?_, ?_⟩
    · intro s σ res h
      rw [parse_factor] at h ⊢
      split_ifs at h ⊢ with h1 h2 h3 h4 h5
      · exact h
      · cases hc : parse_factor N n (next N s) σ with
        | none => simp [hc] at h
        | some x => rw [hc] at h; rw [hf _ _ _ hc]; exact h
      · exact h
      · exact h
      · cases hc : parse_expr N n (next N s) 0 σ with
        | none => simp [hc] at h
        | some x => rw [hc] at h; rw [he _ _ _ _ hc]; exact h
      · exact h
    · intro s rator lhs rhs σ res h
      rw [apply] at h ⊢
      split_ifs at h ⊢
      all_goals first
        | exact h
        | (cases hc : get_value N n (N.toUnsigned lhs) (N.toUnsigned rhs) (some (.lit "")) σ with
           | none => simp [hc] at h
           | some x => rw [hc] at h; rw [hg _ _ _ _ _ hc]; exact h)
    · intro s prec σ res h
      rw [parse_expr] at h ⊢
      cases hc : parse_factor N n s σ with
      | none => simp [hc] at h
      | some x =>
        rw [hc] at h; rw [hf _ _ _ hc]
        obtain ⟨lhs, s1, σ1⟩ := x
        exact hl _ _ _ _ _ h
    · intro s prec lhs σ res h
      rw [parse_expr_loop] at h ⊢
      cases hb : binding s.token with
      | none => rw [hb] at h; exact h
      | some lr =>
        obtain ⟨lp, rp⟩ := lr
        rw [hb] at h
        simp only at h ⊢
        split_ifs at h ⊢ with h1
        · exact h
        · cases hc : parse_expr N n (next N s) rp σ with
          | none => simp [hc] at h
          | some x =>
            obtain ⟨rhs, s1, σ1⟩ := x
            rw [hc] at h; rw [he _ _ _ _ hc]
            simp only at h ⊢
            cases hc2 : apply N n s1 s.token lhs rhs σ1 with
            | none => simp [hc2] at h
            | some y =>
              obtain ⟨v, s2, σ2⟩ := y
              rw [hc2] at h; rw [ha _ _ _ _ _ _ hc2]
              exact hl _ _ _ _ _ h
    · intro e r c σ res h
      rw [evaluate] at h ⊢
      cases hff : find_formula e with
      | none => rw [hff] at h; exact h
      | some p =>
        rw [hff] at h
        simp only at h ⊢
        cases hc : parse_expr N n (next N { p := p, row := r, col := c, token := tok_end, token_value := N.zero, plaint := none }) 0 σ with
        | none => simp [hc] at h
        | some x => rw [hc] at h; rw [he _ _ _ _ hc]; exact h
    · intro r c σ res h
      rw [update] at h ⊢
      split_ifs at h ⊢ with h1
      simp only at h ⊢
      cases hc : evaluate N n ((σ.set r c { σ.cells r c with plaint := some .calculating }).cells r c).text r c (σ.set r c { σ.cells r c with plaint := some .calculating }) with
      | none => simp [hc] at h
      | some x => rw [hc] at h; rw [hv _ _ _ _ _ hc]; exact h
    · intro r c d σ res h
      rw [get_value] at h ⊢
      split_ifs at h ⊢ with h1 h2
      · exact h
      · cases hc : update N n r c σ with
        | none => simp [hc] at h
        | some x => rw [hc] at h; rw [hu _ _ _ _ hc]; exact h
      · exact h


theorem fuel_mono_aux {V : Type} (N : Arith V) (fuel k : Nat) :
    (∀ s σ res, parse_factor N fuel s σ = some res →
      parse_factor N (fuel + k) s σ = some res) ∧
    (∀ s prec σ res, parse_expr N fuel s prec σ = some res →
      parse_expr N (fuel + k) s prec σ = some res) ∧
    (∀ s prec lhs σ res, parse_expr_loop N fuel s prec lhs σ = some res →
      parse_expr_loop N (fuel + k) s prec lhs σ = some res) ∧
    (∀ e r c σ res, evaluate N fuel e r c σ = some res →
      evaluate N (fuel + k) e r c σ = some res) ∧
    (∀ r c σ res, update N fuel r c σ = some res → update N (fuel + k) r c σ = some res) ∧
    (∀ r c d σ res, get_value N fuel r c d σ = some res →
      get_value N (fuel + k) r c d σ = some res) := by
  induction k with
  | zero => simp
  | succ k ih =>
    obtain ⟨hf, he, hl, hv, hu, hg⟩ := ih
    obtain ⟨sf, _, se, sl, sv, su, sg⟩ := fuel_step N (fuel + k)
    refine ⟨?_, ?_, ?_, ?_, ?_, ?_⟩
    · intro s σ res h; exact sf _ _ _ (hf _ _ _ h)
    · intro s prec σ res h; exact se _ _ _ _ (he _ _ _ _ h)
    · intro s prec lhs σ res h; exact sl _ _ _ _ _ (hl _ _ _ _ _ h)
    · intro e r c σ res h; exact sv _ _ _ _ _ (hv _ _ _ _ _ h)
    · intro r c σ res h; exact su _ _ _ _ (hu _ _ _ _ h)
    · intro r c d σ res h; exact sg _ _ _ _ _ (hg _ _ _ _ _ h)

theorem parse_factor_mono {V : Type} (N : Arith V) {fuel fuel1 : Nat} {s : Context V}
    {σ : State V} {res : V × Context V × State V}
    (h : parse_factor N fuel s σ = some res) (hle : fuel ≤ fuel1) :
    parse_factor N fuel1 s σ = some res := by
  obtain ⟨k, rfl⟩ := Nat.exists_eq_add_of_le hle
  exact (fuel_mono_aux N fuel k).1 _ _ _ h

theorem parse_expr_mono {V : Type} (N : Arith V) {fuel fuel1 : Nat} {s : Context V}
    {prec : Int} {σ : State V} {res : V × Context V × State V}
    (h : parse_expr N fuel s prec σ = some res) (hle : fuel ≤ fuel1) :
    parse_expr N fuel1 s prec σ = some res := by
  obtain ⟨k, rfl⟩ := Nat.exists_eq_add_of_le hle
  exact (fuel_mono_aux N fuel k).2.1 _ _ _ _ h

theorem parse_expr_loop_mono {V : Type} (N : Arith V) {fuel fuel1 : Nat} {s : Context V}
    {prec : Int} {lhs : V} {σ : State V} {res : V × Context V × State V}
    (h : parse_expr_loop N fuel s prec lhs σ = some res) (hle : fuel ≤ fuel1) :
    parse_expr_loop N fuel1 s prec lhs σ = some res := by
  obtain ⟨k, rfl⟩ := Nat.exists_eq_add_of_le hle
  exact (fuel_mono_aux N fuel k).2.2.1 _ _ _ _ _ h

theorem evaluate_mono {V : Type} (N : Arith V) {fuel fuel1 : Nat} {e : List Char}
    {r c : Nat} {σ : State V} {res : Option Plaint × Option V × State V}
    (h : evaluate N fuel e r c σ = some res) (hle : fuel ≤ fuel1) :
    evaluate N fuel1 e r c σ = some res := by
  obtain ⟨k, rfl⟩ := Nat.exists_eq_add_of_le hle
  exact (fuel_mono_aux N fuel k).2.2.2.1 _ _ _ _ _ h

theorem update_mono {V : Type} (N : Arith V) {fuel fuel1 : Nat} {r c : Nat}
    {σ : State V} {res : State V}
    (h : update N fuel r c σ = some res) (hle : fuel ≤ fuel1) :
    update N fuel1 r c σ = some res := by
  obtain ⟨k, rfl⟩ := Nat.exists_eq_add_of_le hle
  exact (fuel_mono_aux N fuel k).2.2.2.2.1 _ _ _ _ h

theorem get_value_mono {V : Type} (N : Arith V) {fuel fuel1 : Nat} {r c : Nat}
    {d : Option Plaint} {σ : State V} {res : Except Plaint V × State V}
    (h : get_value N fuel r c d σ = some res) (hle : fuel ≤ fuel1) :
    get_value N fuel1 r c d σ = some res := by
  obtain ⟨k, rfl⟩ := Nat.exists_eq_add_of_le hle
  exact (fuel_mono_aux N fuel k).2.2.2.2.2 _ _ _ _ _ h

/-! ## Invariants of an evaluation -/

theorem dropWhile_length (f : Char → Bool) (l : List Char) :
    (l.dropWhile f).length ≤ l.length := by
  induction l with
  | nil => simp
  | cons a l ih =>
    simp only [List.dropWhile_cons]
    split
    · exact Nat.le_succ_of_le ih
    · exact Nat.le_refl _

theorem next_size {V : Type} (N : Arith V) (s : Context V) :
    (next N s).size ≤ s.p.length := by
  have hd := dropWhile_length isspace s.p
  unfold next
  split
  · simp [Context.size]
  · rename_i ch rest heq
    rw [heq] at hd
    simp only [List.length_cons] at hd
    split_ifs with h1 h2
    · have := N.strtod_progress ch rest h1
      simp only [Context.size]
      split_ifs <;> omega
    · simp only [Context.size]
      split_ifs <;> omega
    · simp only [Context.size, complain]
      split
      · simp
      · simp
        omega

theorem next_size_le {V : Type} (N : Arith V) (s : Context V) :
    (next N s).size ≤ s.size := by
  have := next_size N s
  simp only [Context.size] at this ⊢
  omega

theorem next_size_lt {V : Type} (N : Arith V) (s : Context V) (h : s.token ≠ tok_end) :
    (next N s).size < s.size := by
  have := next_size N s
  simp only [Context.size, h, if_false] at this ⊢
  omega

theorem complain_size {V : Type} (s : Context V) (p : Plaint) :
    (complain s p).size ≤ s.size := by
  unfold complain
  split
  · simp [Context.size]
  · exact Nat.le_refl _

theorem complain_token {V : Type} (s : Context V) (p : Plaint) :
    (complain s p).token = s.token := by
  unfold complain
  split <;> rfl

theorem complain_plaint {V : Type} (s : Context V) (p : Plaint) :
    (complain s p).plaint = some (orelse s.plaint p) := by
  unfold complain orelse
  split <;> simp_all

theorem next_plaint {V : Type} (N : Arith V) (s : Context V) :
    (next N s).plaint = s.plaint ∨
      (s.plaint = none ∧
        (next N s).plaint = some (.lit "Syntax error: unknown token type")) := by
  unfold next
  split
  · exact Or.inl rfl
  · split_ifs
    · exact Or.inl rfl
    · exact Or.inl rfl
    · simp only [complain]
      cases h : s.plaint <;> simp [h]


theorem Later.refl {V : Type} (σ : State V) : Later σ σ :=
  ⟨fun _ _ _ => rfl, fun _ _ => rfl, fun _ h => h, fun _ _ _ => rfl⟩

theorem Later.trans {V : Type} {σ σ1 σ2 : State V} (h1 : Later σ σ1) (h2 : Later σ1 σ2) :
    Later σ σ2 := by
  refine ⟨?_, ?_, ?_, ?_⟩
  · intro r c h
    have e1 := h1.settled r c h
    have : (σ1.cells r c).plaint ≠ some .unknown := by rw [e1]; exact h
    rw [h2.settled r c this, e1]
  · intro r c
    rw [h2.text, h1.text]
  · intro m h
    exact h2.latch m (h1.latch m h)
  · intro r c h
    rw [h2.outside r c h, h1.outside r c h]

theorem Later.unknown {V : Type} {σ σ1 : State V} (h : Later σ σ1) (r c : Nat)
    (hu : (σ1.cells r c).plaint = some .unknown) : (σ.cells r c).plaint = some .unknown := by
  by_contra hn
  rw [h.settled r c hn] at hu
  exact hn hu

theorem error_cells {V : Type} (p : Plaint) (σ : State V) : (error p σ).cells = σ.cells := by
  unfold error
  split <;> rfl

theorem error_latch {V : Type} (p : Plaint) (σ : State V) (m : Plaint)
    (h : σ.the_plaint = some m) : (error p σ).the_plaint = some m := by
  unfold error
  split
  · simp_all
  · exact h

/-- What a call of `get_value` with fuel does, in terms of `read_cell`. -/
theorem get_value_succ {V : Type} (N : Arith V) (fuel r c : Nat) (d : Option Plaint)
    (σ : State V) :
    get_value N (fuel + 1) r c d σ =
      if nrows ≤ r ∨ ncols ≤ c then some (.error (.lit "Cell out of range"), σ)
      else
        (if (σ.cells r c).plaint = some .unknown then update N fuel r c σ
         else some σ).map (fun σ1 => (read_cell d (σ1.cells r c), σ1)) := by
  have key : ∀ σ1 : State V,
      (if (σ1.cells r c).plaint = some .calculating then
          some ((.error .calculating : Except Plaint V), σ1)
        else
          match (σ1.cells r c).plaint with
          | some p => some (.error (orelse d p), σ1)
          | none => some (.ok (σ1.cells r c).value, σ1)) =
        some (read_cell d (σ1.cells r c), σ1) := by
    intro σ1
    unfold read_cell
    by_cases h3 : (σ1.cells r c).plaint = some .calculating
    · simp only [h3, if_true]
    · simp only [h3, if_false]
      cases hp : (σ1.cells r c).plaint <;> rfl
  rw [get_value]
  split_ifs with h1 h2
  · rfl
  · cases hc : update N fuel r c σ with
    | none => rfl
    | some σ1 => exact key σ1
  · exact key σ

theorem next_plaint_ne {V : Type} (N : Arith V) (s : Context V)
    (h : s.plaint ≠ some .unknown) : (next N s).plaint ≠ some .unknown := by
  rcases next_plaint N s with h1 | ⟨_, h1⟩
  · rw [h1]; exact h
  · rw [h1]; simp

theorem complain_plaint_ne {V : Type} (s : Context V) (p : Plaint) (hp : p ≠ .unknown)
    (h : s.plaint ≠ some .unknown) : (complain s p).plaint ≠ some .unknown := by
  rw [complain_plaint]
  unfold orelse
  split
  · rename_i q hq
    rw [hq] at h
    exact h
  · simpa using hp

theorem later_update_step {V : Type} (σ σ2 σ3 : State V) (r c : Nat) (cell : Cell V)
    (hunk : (σ.cells r c).plaint = some .unknown) (hin : r < nrows ∧ c < ncols)
    (i1 : Later (σ.set r c { σ.cells r c with plaint := some .calculating }) σ2)
    (htext : cell.text = (σ2.cells r c).text)
    (hcells : σ3.cells = (σ2.set r c cell).cells)
    (hlatch : ∀ m, σ2.the_plaint = some m → σ3.the_plaint = some m) : Later σ σ3 := by
  refine ⟨?_, ?_, ?_, ?_⟩
  · intro r1 c1 hne
    have hrc : ¬ (r1 = r ∧ c1 = c) := by
      rintro ⟨rfl, rfl⟩
      exact hne hunk
    have e1 := i1.settled r1 c1 (by simpa [State.set, hrc] using hne)
    rw [hcells]
    simp only [State.set, hrc, if_false] at e1 ⊢
    exact e1
  · intro r1 c1
    have e1 := i1.text r1 c1
    rw [hcells]
    by_cases hrc : r1 = r ∧ c1 = c
    · obtain ⟨rfl, rfl⟩ := hrc
      simp only [State.set, and_self, if_true] at e1 ⊢
      rw [htext, e1]
    · simp only [State.set, hrc, if_false] at e1 ⊢
      exact e1
  · intro m hm
    exact hlatch m (i1.latch m (by simpa [State.set] using hm))
  · intro r1 c1 hout
    have hrc : ¬ (r1 = r ∧ c1 = c) := by
      rintro ⟨rfl, rfl⟩
      exact hout hin
    have e1 := i1.outside r1 c1 hout
    rw [hcells]
    simp only [State.set, hrc, if_false] at e1 ⊢
    exact e1

theorem invariants {V : Type} (N : Arith V) : ∀ fuel, Invariants N fuel := by
  intro fuel
  induction fuel with
  | zero =>
    refine ⟨?_, ?_, ?_, ?_, ?_, ?_, ?_⟩ <;> intros <;>
      simp_all [parse_factor, apply, parse_expr, parse_expr_loop, evaluate, update, get_value]
  | succ n ih =>
    obtain ⟨hf, ha, he, hl, hv, hu, hg⟩ := ih
    refine ⟨?_, ?_, ?_, ?_, ?_, ?_, ?_⟩
    · intro s σ v s1 σ1 h
      rw [parse_factor] at h
      split_ifs at h with h1 h2 h3 h4 h5
      · simp only [Option.some.injEq, Prod.mk.injEq] at h
        obtain ⟨-, rfl, rfl⟩ := h
        exact ⟨Later.refl _, next_size_le N s, next_plaint_ne N s⟩
      · cases hc : parse_factor N n (next N s) σ with
        | none => simp [hc] at h
        | some x =>
          obtain ⟨v1, s2, σ2⟩ := x
          rw [hc] at h
          simp only [Option.some.injEq, Prod.mk.injEq] at h
          obtain ⟨-, rfl, rfl⟩ := h
          have := hf _ _ _ _ _ hc
          exact ⟨this.later, le_trans this.size (next_size_le N s),
            fun hp => this.plaint (next_plaint_ne N s hp)⟩
      · simp only [Option.some.injEq, Prod.mk.injEq] at h
        obtain ⟨-, rfl, rfl⟩ := h
        exact ⟨Later.refl _, next_size_le N s, next_plaint_ne N s⟩
      · simp only [Option.some.injEq, Prod.mk.injEq] at h
        obtain ⟨-, rfl, rfl⟩ := h
        exact ⟨Later.refl _, next_size_le N s, next_plaint_ne N s⟩
      · cases hc : parse_expr N n (next N s) 0 σ with
        | none => simp [hc] at h
        | some x =>
          obtain ⟨v1, s2, σ2⟩ := x
          rw [hc] at h
          simp only [Option.some.injEq, Prod.mk.injEq] at h
          obtain ⟨-, rfl, rfl⟩ := h
          have := he _ _ _ _ _ _ hc
          refine ⟨this.later, ?_, ?_⟩
          · refine le_trans (next_size_le N _) ?_
            refine le_trans ?_ (le_trans this.size (next_size_le N s))
            split_ifs
            · exact complain_size _ _
            · exact le_refl _
          · intro hp
            apply next_plaint_ne
            have h3 := this.plaint (next_plaint_ne N s hp)
            split_ifs
            · exact complain_plaint_ne _ _ (by simp) h3
            · exact h3
      · simp only [Option.some.injEq, Prod.mk.injEq] at h
        obtain ⟨-, rfl, rfl⟩ := h
        refine ⟨Later.refl _, le_trans (next_size_le N _) (complain_size _ _), ?_⟩
        intro hp
        exact next_plaint_ne N _ (complain_plaint_ne _ _ (by simp) hp)
    · intro s rator lhs rhs σ v s1 σ1 h
      have hrefl : Step s σ s σ := ⟨Later.refl _, le_refl _, fun hp => hp⟩
      have hdiv : Step s σ (complain s (.lit "Divide by 0")) σ :=
        ⟨Later.refl _, complain_size _ _, complain_plaint_ne _ _ (by simp)⟩
      rw [apply] at h
      split_ifs at h
      all_goals first
        | (simp only [Option.some.injEq, Prod.mk.injEq] at h
           obtain ⟨-, rfl, rfl⟩ := h
           first | exact hrefl | exact hdiv)
        | skip
      cases hc : get_value N n (N.toUnsigned lhs) (N.toUnsigned rhs) (some (.lit "")) σ with
      | none => simp [hc] at h
      | some x =>
        obtain ⟨res, σ2⟩ := x
        rw [hc] at h
        obtain ⟨hlat, hin, hout⟩ := hg _ _ _ _ _ _ hc
        cases res with
        | ok value =>
          simp only [Option.some.injEq, Prod.mk.injEq] at h
          obtain ⟨-, rfl, rfl⟩ := h
          exact ⟨hlat, le_refl _, fun hp => hp⟩
        | error plaint =>
          simp only [Option.some.injEq, Prod.mk.injEq] at h
          obtain ⟨-, rfl, rfl⟩ := h
          refine ⟨hlat, complain_size _ _, complain_plaint_ne _ _ ?_⟩
          by_cases hr : N.toUnsigned lhs < nrows ∧ N.toUnsigned rhs < ncols
          · have h2 := (hin hr).2
            unfold read_cell at h2
            split_ifs at h2
            · simp only [Except.error.injEq] at h2; rw [h2]; simp
            · split at h2
              · simp only [Except.error.injEq, orelse] at h2; rw [h2]; simp
              · simp at h2
          · have h2 := (hout hr).1
            simp only [Except.error.injEq] at h2; rw [h2]; simp
    · intro s prec σ v s1 σ1 h
      rw [parse_expr] at h
      cases hc : parse_factor N n s σ with
      | none => simp [hc] at h
      | some x =>
        obtain ⟨lhs, s2, σ2⟩ := x
        rw [hc] at h
        have h1 := hf _ _ _ _ _ hc
        have h2 := hl _ _ _ _ _ _ _ h
        exact ⟨h1.later.trans h2.later, le_trans h2.size h1.size,
          fun hp => h2.plaint (h1.plaint hp)⟩
    · intro s prec lhs σ v s1 σ1 h
      rw [parse_expr_loop] at h
      cases hb : binding s.token with
      | none =>
        rw [hb] at h
        simp only [Option.some.injEq, Prod.mk.injEq] at h
        obtain ⟨-, rfl, rfl⟩ := h
        exact ⟨Later.refl _, le_refl _, fun hp => hp⟩
      | some lr =>
        obtain ⟨lp, rp⟩ := lr
        rw [hb] at h
        simp only at h
        split_ifs at h with h1
        · simp only [Option.some.injEq, Prod.mk.injEq] at h
          obtain ⟨-, rfl, rfl⟩ := h
          exact ⟨Later.refl _, le_refl _, fun hp => hp⟩
        · cases hc : parse_expr N n (next N s) rp σ with
          | none => simp [hc] at h
          | some x =>
            obtain ⟨rhs, s2, σ2⟩ := x
            rw [hc] at h
            simp only at h
            cases hc2 : apply N n s2 s.token lhs rhs σ2 with
            | none => simp [hc2] at h
            | some y =>
              obtain ⟨v2, s3, σ3⟩ := y
              rw [hc2] at h
              simp only at h
              have i1 := he _ _ _ _ _ _ hc
              have i2 := ha _ _ _ _ _ _ _ _ hc2
              have i3 := hl _ _ _ _ _ _ _ h
              refine ⟨(i1.later.trans i2.later).trans i3.later, ?_, ?_⟩
              · exact le_trans i3.size (le_trans i2.size (le_trans i1.size (next_size_le N s)))
              · intro hp
                exact i3.plaint (i2.plaint (i1.plaint (next_plaint_ne N s hp)))
    · intro e r c σ p v σ1 h
      rw [evaluate] at h
      cases hff : find_formula e with
      | none =>
        rw [hff] at h
        simp only [Option.some.injEq, Prod.mk.injEq] at h
        obtain ⟨rfl, -, rfl⟩ := h
        exact ⟨Later.refl _, by simp⟩
      | some p0 =>
        rw [hff] at h
        simp only at h
        cases hc : parse_expr N n (next N { p := p0, row := r, col := c, token := tok_end, token_value := N.zero, plaint := none }) 0 σ with
        | none => simp [hc] at h
        | some x =>
          obtain ⟨v2, s2, σ2⟩ := x
          rw [hc] at h
          simp only [Option.some.injEq, Prod.mk.injEq] at h
          obtain ⟨rfl, -, rfl⟩ := h
          have i1 := he _ _ _ _ _ _ hc
          refine ⟨i1.later, ?_⟩
          have h3 := i1.plaint (next_plaint_ne N _ (by simp))
          split_ifs
          · exact complain_plaint_ne _ _ (by simp) h3
          · exact h3
    · intro r c σ σ1 hunk h
      rw [update] at h
      split_ifs at h with h1
      simp only [not_not] at h1
      simp only at h
      cases hc : evaluate N n ((σ.set r c { σ.cells r c with plaint := some .calculating }).cells r c).text r c (σ.set r c { σ.cells r c with plaint := some .calculating }) with
      | none => simp [hc] at h
      | some x =>
        obtain ⟨p, v, σ2⟩ := x
        rw [hc] at h
        simp only at h
        obtain ⟨i1, i2⟩ := hv _ _ _ _ _ _ _ hc
        have key : ∀ (cell : Cell V) (σ3 : State V), σ3.cells = (σ2.set r c cell).cells →
            cell.text = (σ2.cells r c).text → cell.plaint = p →
            (∀ m, σ2.the_plaint = some m → σ3.the_plaint = some m) →
            Later σ σ3 ∧ (σ3.cells r c).plaint ≠ some .unknown := by
          intro cell σ3 hcells htext hplaint hlatch
          refine ⟨later_update_step σ σ2 σ3 r c cell hunk h1 i1 htext hcells hlatch, ?_⟩
          rw [hcells]
          simp only [State.set, and_self, if_true, hplaint]
          exact i2
        cases p with
        | none =>
          simp only [Option.some.injEq] at h
          subst h
          exact key _ _ rfl rfl rfl (fun m hm => hm)
        | some q =>
          simp only [Option.some.injEq] at h
          subst h
          exact key _ _ (error_cells _ _) rfl rfl (fun m hm => error_latch _ _ m hm)
    · intro r c d σ res σ1 h
      rw [get_value_succ] at h
      split_ifs at h with h1 h2
      · simp only [Option.some.injEq, Prod.mk.injEq] at h
        obtain ⟨rfl, rfl⟩ := h
        refine ⟨Later.refl _, ?_, fun _ => ⟨rfl, rfl⟩⟩
        intro hin
        exfalso
        rcases h1 with h1 | h1 <;> omega
      · cases hc : update N n r c σ with
        | none => simp [hc] at h
        | some σ2 =>
          rw [hc] at h
          simp only [Option.map_some', Option.some.injEq, Prod.mk.injEq] at h
          obtain ⟨rfl, rfl⟩ := h
          obtain ⟨i1, i2⟩ := hu _ _ _ _ h2 hc
          exact ⟨i1, fun _ => ⟨i2, rfl⟩, fun hout => absurd (by omega) hout⟩
      · simp only [Option.map_some', Option.some.injEq, Prod.mk.injEq] at h
        obtain ⟨rfl, rfl⟩ := h
        exact ⟨Later.refl _, fun _ => ⟨h2, rfl⟩, fun hout => absurd (by omega) hout⟩


/-! ## Every call returns -/

theorem unknown_cells_later {V : Type} {σ σ1 : State V} (h : Later σ σ1) :
    (unknown_cells σ1).card ≤ (unknown_cells σ).card := by
  apply Finset.card_le_card
  intro rc hrc
  simp only [unknown_cells, Finset.mem_filter] at hrc ⊢
  exact ⟨hrc.1, h.unknown _ _ hrc.2⟩

theorem unknown_cells_set {V : Type} (σ : State V) (r c : Nat) (hin : r < nrows ∧ c < ncols)
    (hu : (σ.cells r c).plaint = some .unknown) :
    (unknown_cells (σ.set r c { σ.cells r c with plaint := some .calculating })).card <
      (unknown_cells σ).card := by
  apply Finset.card_lt_card
  rw [Finset.ssubset_iff_of_subset]
  · refine ⟨(r, c), ?_, ?_⟩
    · simp only [unknown_cells, Finset.mem_filter, Finset.mem_product, Finset.mem_range]
      exact ⟨hin, hu⟩
    · simp [unknown_cells, State.set]
  · intro rc hrc
    simp only [unknown_cells, Finset.mem_filter, State.set] at hrc ⊢
    refine ⟨hrc.1, ?_⟩
    have h2 := hrc.2
    split_ifs at h2 with h3
    · simp at h2
    · exact h2

theorem binding_tok_end {lr : Int × Int} {tok : Char} (h : binding tok = some lr) :
    tok ≠ tok_end := by
  rintro rfl
  simp [binding, tok_end] at h

theorem apply_mono {V : Type} (N : Arith V) {fuel fuel1 : Nat} {s : Context V}
    {rator : Char} {lhs rhs : V} {σ : State V} {res : V × Context V × State V}
    (h : apply N fuel s rator lhs rhs σ = some res) (hle : fuel ≤ fuel1) :
    apply N fuel1 s rator lhs rhs σ = some res := by
  obtain ⟨k, rfl⟩ := Nat.exists_eq_add_of_le hle
  induction k with
  | zero => exact h
  | succ k ih => exact (fuel_step N (fuel + k)).2.1 _ _ _ _ _ _ (ih (Nat.le_add_right _ _))

theorem parse_expr_of {V : Type} (N : Arith V) {f1 f2 : Nat} {s s1 : Context V}
    {σ σ1 : State V} {prec : Int} {lhs : V} {res : V × Context V × State V}
    (hF : parse_factor N f1 s σ = some (lhs, s1, σ1))
    (hL : parse_expr_loop N f2 s1 prec lhs σ1 = some res) :
    parse_expr N (max f1 f2 + 1) s prec σ = some res := by
  rw [parse_expr, parse_factor_mono N hF (le_max_left _ _)]
  exact parse_expr_loop_mono N hL (le_max_right _ _)

theorem parse_expr_loop_of {V : Type} (N : Arith V) {f1 f2 f3 : Nat} {s s1 s2 : Context V}
    {σ σ1 σ2 : State V} {prec lp rp : Int} {lhs rhs v : V}
    {res : V × Context V × State V}
    (hb : binding s.token = some (lp, rp)) (hp : ¬ lp < prec)
    (hE : parse_expr N f1 (next N s) rp σ = some (rhs, s1, σ1))
    (hA : apply N f2 s1 s.token lhs rhs σ1 = some (v, s2, σ2))
    (hL : parse_expr_loop N f3 s2 prec v σ2 = some res) :
    parse_expr_loop N (max f1 (max f2 f3) + 1) s prec lhs σ = some res := by
  rw [parse_expr_loop, hb]
  simp only [hp, if_false]
  rw [parse_expr_mono N hE (le_max_left _ _)]
  simp only
  rw [apply_mono N hA (le_trans (le_max_left f2 f3) (le_max_right f1 (max f2 f3)))]
  exact parse_expr_loop_mono N hL (le_trans (le_max_right _ _) (le_max_right _ _))

theorem apply_total {V : Type} (N : Arith V) (s : Context V) (rator : Char) (lhs rhs : V)
    (σ : State V) {lr : Int × Int} (hb : binding rator = some lr)
    (hG : ∀ r c d, ∃ fuel res, get_value N fuel r c d σ = some res) :
    ∃ fuel res, apply N fuel s rator lhs rhs σ = some res := by
  obtain ⟨f, res, hg⟩ := hG (N.toUnsigned lhs) (N.toUnsigned rhs) (some (.lit ""))
  refine ⟨f + 1, ?_⟩
  rw [apply, hg]
  unfold binding at hb
  split_ifs at hb ⊢
  all_goals first
    | exact ⟨_, rfl⟩
    | (obtain ⟨e, σ1⟩ := res
       cases e <;> exact ⟨_, rfl⟩)

theorem parser_total_step {V : Type} (N : Arith V) (n : Nat)
    (hG : ∀ σ : State V, (unknown_cells σ).card ≤ n →
      ∀ r c d, ∃ fuel res, get_value N fuel r c d σ = some res) :
    ∀ k, ∀ (s : Context V) (σ : State V), s.size ≤ k → (unknown_cells σ).card ≤ n →
      ParserTotal N s σ := by
  intro k
  induction k using Nat.strong_induction_on with
  | _ k ih =>
    -- the expression parser returns on every smaller context
    have hE : ∀ (s : Context V) (σ : State V), s.size < k → (unknown_cells σ).card ≤ n →
        ∀ prec, ∃ fuel res, parse_expr N fuel s prec σ = some res := by
      intro s σ hs hσ prec
      obtain ⟨⟨f1, ⟨lhs, s1, σ1⟩, h1⟩, -⟩ := ih s.size hs s σ (le_refl _) hσ
      have i1 := (invariants N f1).1 _ _ _ _ _ h1
      obtain ⟨-, hl⟩ := ih s.size hs s1 σ1 i1.size
        (le_trans (unknown_cells_later i1.later) hσ)
      obtain ⟨f2, res, h2⟩ := hl prec lhs
      exact ⟨_, res, parse_expr_of N h1 h2⟩
    intro s σ hs hσ
    refine ⟨?_, ?_⟩
    · by_cases h2 : s.token = '-'
      · have hlt : (next N s).size < k :=
          lt_of_lt_of_le (next_size_lt N s (by rw [h2]; decide)) hs
        obtain ⟨⟨f1, ⟨v, s1, σ1⟩, h1⟩, -⟩ := ih _ hlt (next N s) σ (le_refl _) hσ
        refine ⟨f1 + 1, ?_⟩
        rw [parse_factor]
        simp [h2, h1]
      · by_cases h5 : s.token = '('
        · have hlt : (next N s).size < k :=
            lt_of_lt_of_le (next_size_lt N s (by rw [h5]; decide)) hs
          obtain ⟨f1, ⟨v, s1, σ1⟩, h1⟩ := hE (next N s) σ hlt hσ 0
          refine ⟨f1 + 1, ?_⟩
          rw [parse_factor]
          simp [h5, h1]
        · refine ⟨1, ?_⟩
          rw [parse_factor]
          simp only [h2, h5, if_false]
          split_ifs <;> exact ⟨_, rfl⟩
    · intro prec lhs
      cases hb : binding s.token with
      | none =>
        refine ⟨1, ?_⟩
        rw [parse_expr_loop, hb]
        exact ⟨_, rfl⟩
      | some lr =>
        obtain ⟨lp, rp⟩ := lr
        by_cases hp : lp < prec
        · refine ⟨1, ?_⟩
          rw [parse_expr_loop, hb]
          simp only [hp, if_true]
          exact ⟨_, rfl⟩
        · have hlt : (next N s).size < k :=
            lt_of_lt_of_le (next_size_lt N s (binding_tok_end hb)) hs
          obtain ⟨f1, ⟨rhs, s1, σ1⟩, h1⟩ := hE (next N s) σ hlt hσ rp
          have i1 := (invariants N f1).2.2.1 _ _ _ _ _ _ h1
          have hσ1 := le_trans (unknown_cells_later i1.later) hσ
          obtain ⟨f2, ⟨v, s2, σ2⟩, h2⟩ := apply_total N s1 s.token lhs rhs σ1 hb (hG σ1 hσ1)
          have i2 := (invariants N f2).2.1 _ _ _ _ _ _ _ _ h2
          have hσ2 := le_trans (unknown_cells_later i2.later) hσ1
          have hlt2 : s2.size < k := lt_of_le_of_lt (le_trans i2.size i1.size) hlt
          obtain ⟨-, hl⟩ := ih _ hlt2 s2 σ2 (le_refl _) hσ2
          obtain ⟨f3, res, h3⟩ := hl prec v
          exact ⟨_, res, parse_expr_loop_of N hb hp h1 h2 h3⟩

theorem parse_expr_total_of {V : Type} (N : Arith V) (n : Nat)
    (hG : ∀ σ : State V, (unknown_cells σ).card ≤ n →
      ∀ r c d, ∃ fuel res, get_value N fuel r c d σ = some res)
    (s : Context V) (σ : State V) (hσ : (unknown_cells σ).card ≤ n) (prec : Int) :
    ∃ fuel res, parse_expr N fuel s prec σ = some res := by
  obtain ⟨⟨f1, ⟨lhs, s1, σ1⟩, h1⟩, -⟩ := parser_total_step N n hG _ s σ (le_refl _) hσ
  have i1 := (invariants N f1).1 _ _ _ _ _ h1
  obtain ⟨-, hl⟩ := parser_total_step N n hG _ s1 σ1 (le_refl _)
    (le_trans (unknown_cells_later i1.later) hσ)
  obtain ⟨f2, res, h2⟩ := hl prec lhs
  exact ⟨_, res, parse_expr_of N h1 h2⟩

theorem get_value_total_aux {V : Type} (N : Arith V) :
    ∀ n, ∀ σ : State V, (unknown_cells σ).card ≤ n →
      ∀ r c d, ∃ fuel res, get_value N fuel r c d σ = some res := by
  intro n
  induction n using Nat.strong_induction_on with
  | _ n ih =>
    intro σ hσ r c d
    by_cases hout : nrows ≤ r ∨ ncols ≤ c
    · refine ⟨1, ?_⟩
      rw [get_value_succ]
      simp only [hout, if_true]
      exact ⟨_, rfl⟩
    · by_cases hu : (σ.cells r c).plaint = some .unknown
      · have hin : r < nrows ∧ c < ncols := by omega
        have hlt := unknown_cells_set σ r c hin hu
        have hm : (unknown_cells (σ.set r c { σ.cells r c with plaint := some .calculating })).card < n :=
          lt_of_lt_of_le hlt hσ
        have hev : ∃ fuel res, evaluate N fuel ((σ.set r c { σ.cells r c with plaint := some .calculating }).cells r c).text r c (σ.set r c { σ.cells r c with plaint := some .calculating }) = some res := by
          cases hff : find_formula ((σ.set r c { σ.cells r c with plaint := some .calculating }).cells r c).text with
          | none =>
            refine ⟨1, ?_⟩
            rw [evaluate, hff]
            exact ⟨_, rfl⟩
          | some p =>
            obtain ⟨f1, res, h1⟩ := parse_expr_total_of N _ (fun σ1 h1 => ih _ hm σ1 h1)
              (next N { p := p, row := r, col := c, token := tok_end, token_value := N.zero, plaint := none })
              (σ.set r c { σ.cells r c with plaint := some .calculating }) (le_refl _) 0
            refine ⟨f1 + 1, ?_⟩
            rw [evaluate, hff]
            simp only [h1]
            exact ⟨_, rfl⟩
        obtain ⟨f1, ⟨p, v, σ1⟩, h1⟩ := hev
        have hup : ∃ σ2, update N (f1 + 1) r c σ = some σ2 := by
          rw [update]
          simp only [hin, and_self, not_true_eq_false, if_false, h1]
          cases p <;> exact ⟨_, rfl⟩
        obtain ⟨σ2, h2⟩ := hup
        refine ⟨f1 + 2, ?_⟩
        rw [get_value_succ]
        simp only [hout, if_false, hu, if_true, h2]
        exact ⟨_, rfl⟩
      · refine ⟨1, ?_⟩
        rw [get_value_succ]
        simp only [hout, if_false, hu]
        exact ⟨_, rfl⟩

/-- Every call of `get_value` returns: there is an amount of fuel from which on
the call gives one and the same result. -/
theorem get_value_total {V : Type} (N : Arith V) (σ : State V) (r c : Nat)
    (d : Option Plaint) :
    ∃ fuel res, ∀ fuel1, fuel ≤ fuel1 → get_value N fuel1 r c d σ = some res := by
  obtain ⟨fuel, res, h⟩ := get_value_total_aux N _ σ (le_refl _) r c d
  exact ⟨fuel, res, fun fuel1 hle => get_value_mono N h hle⟩

/-! ## The tokenizer on literals and operators -/

theorem delimited_nil : Delimited [] := by
  intro ch tl h
  cases h

theorem delimited_cons {ch : Char} {tl : List Char} (h : ch ∈ delimiters) :
    Delimited (ch :: tl) := by
  intro ch1 tl1 h1
  cases h1
  exact h

theorem isspace_of_isdigit {d : Char} (h : isdigit d = true) : isspace d = false := by
  simp only [isdigit, Bool.and_eq_true, decide_eq_true_eq] at h
  simp only [isspace, Bool.or_eq_false_iff, beq_eq_false_iff_ne, ne_eq]
  refine ⟨⟨⟨⟨⟨?_, ?_⟩, ?_⟩, ?_⟩, ?_⟩, ?_⟩ <;>
    (rintro rfl
     exact absurd h.1 (by decide))

theorem token_chars_spec : ∀ ch ∈ token_chars, isspace ch = false ∧ isdigit ch = false := by
  decide

theorem next_number {V : Type} (N : Arith V) {lit : List Char} {v : V}
    (h : IsNumber N lit v) {rest : List Char} (hr : Delimited rest)
    (row col : Nat) (tok : Char) (tv : V) (pl : Option Plaint) :
    next N ⟨lit ++ rest, row, col, tok, tv, pl⟩ = ⟨rest, row, col, '0', v, pl⟩ := by
  obtain ⟨⟨d, tl, rfl, hd⟩, hs⟩ := h
  have h2 := hs rest hr
  simp only [List.cons_append] at h2
  simp [next, isspace_of_isdigit hd, hd, h2]

theorem next_number_end {V : Type} (N : Arith V) {lit : List Char} {v : V}
    (h : IsNumber N lit v) (row col : Nat) (tok : Char) (tv : V) (pl : Option Plaint) :
    next N ⟨lit, row, col, tok, tv, pl⟩ = ⟨[], row, col, '0', v, pl⟩ := by
  have := next_number N h delimited_nil row col tok tv pl
  simpa using this

theorem next_token {V : Type} (N : Arith V) {ch : Char} (h : ch ∈ token_chars)
    (rest : List Char) (row col : Nat) (tok : Char) (tv : V) (pl : Option Plaint) :
    next N ⟨ch :: rest, row, col, tok, tv, pl⟩ = ⟨rest, row, col, ch, tv, pl⟩ := by
  obtain ⟨h1, h2⟩ := token_chars_spec ch h
  simp [next, h1, h2, h]

theorem next_end {V : Type} (N : Arith V) (row col : Nat) (tok : Char) (tv : V)
    (pl : Option Plaint) :
    next N ⟨[], row, col, tok, tv, pl⟩ = ⟨[], row, col, tok_end, tv, pl⟩ := by
  simp [next]

theorem find_formula_eq (t : List Char) : find_formula ('=' :: t) = some t := by
  simp [find_formula]


/-! ## Number literals of the exact arithmetic; claims C1 and C4 -/

theorem delimiters_not_digit : ∀ ch ∈ delimiters, isdigit ch = false ∧ ch ≠ '.' := by
  decide

theorem read_digits_delimited (rest : List Char) (hr : Delimited rest) (acc : Nat) :
    read_digits acc rest = (acc, rest) := by
  cases rest with
  | nil => rfl
  | cons ch tl =>
    have := (delimiters_not_digit ch (hr ch tl rfl)).1
    simp [read_digits, this]

theorem read_digits_append (ds rest : List Char) (hall : ∀ ch ∈ ds, isdigit ch = true)
    (hr : Delimited rest) :
    ∀ acc, read_digits acc (ds ++ rest) = (digits_value acc ds, rest) := by
  induction ds with
  | nil =>
    intro acc
    simpa [digits_value] using read_digits_delimited rest hr acc
  | cons d tl ih =>
    intro acc
    have hd : isdigit d = true := hall d (by simp)
    have := ih (fun ch hch => hall ch (by simp [hch])) (acc * 10 + digit_value d)
    rw [List.cons_append, read_digits]
    simp only [hd, if_true]
    exact this

/-- A nonempty string of decimal digits is a number literal of `fracArith`. -/
theorem frac_is_number (ds : List Char) (hne : ds ≠ []) (hall : ∀ ch ∈ ds, isdigit ch = true) :
    IsNumber fracArith ds (Frac.ofInt (digits_value 0 ds)) := by
  refine ⟨?_, ?_⟩
  · cases ds with
    | nil => exact absurd rfl hne
    | cons d tl => exact ⟨d, tl, rfl, hall d (by simp)⟩
  · intro rest hr
    show Frac.strtod (ds ++ rest) = _
    unfold Frac.strtod
    rw [read_digits_append ds rest hall hr 0]
    cases rest with
    | nil => rfl
    | cons ch tl =>
      have hne2 := (delimiters_not_digit ch (hr ch tl rfl)).2
      split
      · rename_i heq
        simp only [Prod.mk.injEq, List.cons.injEq] at heq
        exact absurd heq.2.1 hne2
      · rename_i heq
        simp only [Prod.mk.injEq] at heq
        rw [← heq.1, ← heq.2]

/-- Claim C1: for every grid content and every state of the statuses, every call
`get_value(r, c, msg)` returns: from some amount of fuel on, the call gives one
and the same result, so the recursion through `update`, `evaluate`,
`parse_expr` and `apply` is well founded. -/
theorem C1_get_value_terminates {V : Type} (N : Arith V) (σ : State V) (r c : Nat)
    (msg : Option Plaint) :
    ∃ fuel res, ∀ fuel1, fuel ≤ fuel1 → get_value N fuel1 r c msg σ = some res :=
  get_value_total N σ r c msg

/-- Claim C4: calling `get_value(r, c, msg)` twice in a row gives the same result
twice, and the second call leaves the whole state as the first call left it. -/
theorem C4_get_value_twice {V : Type} (N : Arith V) (σ : State V) (r c : Nat)
    (msg : Option Plaint) :
    ∃ fuel res σ1,
      (∀ fuel1, fuel ≤ fuel1 → get_value N fuel1 r c msg σ = some (res, σ1)) ∧
      (∀ fuel2, 1 ≤ fuel2 → get_value N fuel2 r c msg σ1 = some (res, σ1)) := by
  obtain ⟨fuel, ⟨res, σ1⟩, h⟩ := get_value_total N σ r c msg
  refine ⟨fuel, res, σ1, h, ?_⟩
  intro fuel2 h2
  obtain ⟨k, rfl⟩ := Nat.exists_eq_add_of_le h2
  obtain ⟨-, hin, hout⟩ := (invariants N fuel).2.2.2.2.2.2 _ _ _ _ _ _ (h fuel (le_refl _))
  rw [Nat.add_comm, get_value_succ]
  by_cases hr : r < nrows ∧ c < ncols
  · obtain ⟨hne, hres⟩ := hin hr
    have : ¬ (nrows ≤ r ∨ ncols ≤ c) := by omega
    simp only [this, if_false, hne, Option.map_some', hres]
  · obtain ⟨hres, -⟩ := hout hr
    have : nrows ≤ r ∨ ncols ≤ c := by omega
    simp only [this, if_true, hres]

/-! ## References to a cell: claims C2, C3 and C9 -/

theorem at_token : '@' ∈ token_chars := by decide

theorem delimited_at (tl : List Char) : Delimited ('@' :: tl) := delimited_cons (by decide)

theorem State.set_cells_same {V : Type} (σ : State V) (r c : Nat) (cell : Cell V) :
    (σ.set r c cell).cells r c = cell := by
  simp [State.set]

theorem State.set_cells_other {V : Type} (σ : State V) (r c r1 c1 : Nat) (cell : Cell V)
    (h : ¬ (r1 = r ∧ c1 = c)) : (σ.set r c cell).cells r1 c1 = σ.cells r1 c1 := by
  simp [State.set, h]

/-- What `update` does on a cell whose text is the formula `=R@C`, in terms of
the result of the call `get_value(R, C, "")` that the formula makes. -/
theorem update_reference {V : Type} (N : Arith V) (σ : State V) (r c : Nat)
    (R C : List Char) (vr vc : V) (hR : IsNumber N R vr) (hC : IsNumber N C vc)
    (hin : r < nrows ∧ c < ncols)
    (htext : (σ.cells r c).text = '=' :: (R ++ '@' :: C))
    (fuel : Nat) (res : Except Plaint V) (σ1 : State V)
    (hg : get_value N fuel (N.toUnsigned vr) (N.toUnsigned vc) (some (.lit ""))
      (σ.set r c { σ.cells r c with plaint := some .calculating }) = some (res, σ1)) :
    update N (fuel + 6) r c σ =
      match res with
      | .error p =>
        some (error p (σ1.set r c { σ1.cells r c with plaint := some p, value := N.zero }))
      | .ok v => some (σ1.set r c { σ1.cells r c with plaint := none, value := v }) := by
  have g5 := get_value_mono N hg (Nat.le_add_right fuel 1)
  simp only [htext] at g5
  have hnot : ¬ ¬ (r < nrows ∧ c < ncols) := not_not.mpr hin
  cases res with
  | error p =>
    simp [update, hnot, State.set_cells_same, htext, evaluate, find_formula_eq, parse_expr,
      parse_factor, parse_expr_loop, apply, next_number N hR (delimited_at _),
      next_number_end N hC, next_token N at_token, next_end, binding, tok_end, g5, complain]
  | ok v =>
    simp [update, hnot, State.set_cells_same, htext, evaluate, find_formula_eq, parse_expr,
      parse_factor, parse_expr_loop, apply, next_number N hR (delimited_at _),
      next_number_end N hC, next_token N at_token, next_end, binding, tok_end, g5, complain]

theorem get_value_settled {V : Type} (N : Arith V) (fuel r c : Nat) (d : Option Plaint)
    (σ : State V) (hin : r < nrows ∧ c < ncols) (h : (σ.cells r c).plaint ≠ some .unknown) :
    get_value N (fuel + 1) r c d σ = some (read_cell d (σ.cells r c), σ) := by
  have : ¬ (nrows ≤ r ∨ ncols ≤ c) := by omega
  rw [get_value_succ]
  simp only [this, if_false, h, Option.map_some']

theorem get_value_unknown {V : Type} (N : Arith V) (fuel r c : Nat) (d : Option Plaint)
    (σ σ1 : State V) (hin : r < nrows ∧ c < ncols) (h : (σ.cells r c).plaint = some .unknown)
    (hu : update N fuel r c σ = some σ1) :
    get_value N (fuel + 1) r c d σ = some (read_cell d (σ1.cells r c), σ1) := by
  have : ¬ (nrows ≤ r ∨ ncols ≤ c) := by omega
  rw [get_value_succ]
  simp only [this, if_false, h, if_true, hu, Option.map_some']

/-- Claim C2, as the code has it: when an unknown cell `(r, c)` holds a formula
`=R@C` that refers to the cell itself, the call `get_value` made during its own
evaluation finds the marker `calculating` and returns it, and after the outer
`get_value` the status of the cell is that marker itself, the static string
"Circular reference": it is not a status distinct from the marker. -/
theorem C2_self_reference_keeps_marker {V : Type} (N : Arith V) (σ : State V) (r c : Nat)
    (R C : List Char) (vr vc : V) (hR : IsNumber N R vr) (hC : IsNumber N C vc)
    (hr : N.toUnsigned vr = r) (hc : N.toUnsigned vc = c) (hin : r < nrows ∧ c < ncols)
    (htext : (σ.cells r c).text = '=' :: (R ++ '@' :: C))
    (hunk : (σ.cells r c).plaint = some .unknown) (msg : Option Plaint) :
    (∀ fuel, get_value N (fuel + 1) (N.toUnsigned vr) (N.toUnsigned vc) (some (.lit ""))
        (σ.set r c { σ.cells r c with plaint := some .calculating }) =
      some (.error .calculating, σ.set r c { σ.cells r c with plaint := some .calculating })) ∧
    ∃ σ1, (∀ fuel, 8 ≤ fuel → get_value N fuel r c msg σ = some (.error .calculating, σ1)) ∧
      (σ1.cells r c).plaint = some .calculating ∧
      Plaint.calculating.text = "Circular reference" := by
  have h1 : ∀ fuel, get_value N (fuel + 1) (N.toUnsigned vr) (N.toUnsigned vc) (some (.lit ""))
        (σ.set r c { σ.cells r c with plaint := some .calculating }) =
      some (.error .calculating, σ.set r c { σ.cells r c with plaint := some .calculating }) := by
    intro fuel
    rw [hr, hc, get_value_settled N fuel r c _ _ hin (by simp [State.set_cells_same])]
    simp [read_cell, State.set_cells_same]
  refine ⟨h1, error .calculating
    ((σ.set r c { σ.cells r c with plaint := some .calculating }).set r c
      { (σ.set r c { σ.cells r c with plaint := some .calculating }).cells r c with
        plaint := some .calculating, value := N.zero }), ?_, ?_, rfl⟩
  · intro fuel hf
    obtain ⟨k, rfl⟩ := Nat.exists_eq_add_of_le hf
    have hu := update_reference N σ r c R C vr vc hR hC hin htext _ _ _ (h1 k)
    have e : 8 + k = (k + 1 + 6) + 1 := by omega
    rw [e, get_value_unknown N _ r c msg σ _ hin hunk hu]
    simp [read_cell, error_cells, State.set_cells_same]
  · simp [error_cells, State.set_cells_same]

/-- Claim C2 fails as stated: after `get_value` on cell `(0,0)` holding `=0@0`
the status of the cell is the marker `calculating` itself. -/
theorem C2_counterexample :
    (get_value fracArith 20 0 0 none (grid fracArith [(0, 0, "=0@0")])).map
      (fun res => decide ((res.2.cells 0 0).plaint ≠ some Plaint.calculating)) =
    some false := by
  decide

/-- The theorem of claim C2 at cell `(0,0)` holding `=0@0`. -/
theorem C2_witness :
    get_value fracArith (0 + 1) 0 0 (some (.lit ""))
        ((grid fracArith [(0, 0, "=0@0")]).set 0 0
          { (grid fracArith [(0, 0, "=0@0")]).cells 0 0 with plaint := some .calculating }) =
      some (.error .calculating, (grid fracArith [(0, 0, "=0@0")]).set 0 0
          { (grid fracArith [(0, 0, "=0@0")]).cells 0 0 with plaint := some .calculating }) ∧
    ∃ σ1, get_value fracArith 8 0 0 none (grid fracArith [(0, 0, "=0@0")]) =
        some (.error .calculating, σ1) ∧
      (σ1.cells 0 0).plaint = some .calculating ∧
      Plaint.calculating.text = "Circular reference" :=
  have h := C2_self_reference_keeps_marker fracArith (grid fracArith [(0, 0, "=0@0")]) 0 0
    ['0'] ['0'] (Frac.ofInt 0) (Frac.ofInt 0) (frac_is_number ['0'] (by decide) (by decide))
    (frac_is_number ['0'] (by decide) (by decide)) rfl rfl (by decide) rfl rfl none
  ⟨h.1 0, h.2.elim fun σ1 h1 => ⟨σ1, h1.1 8 (Nat.le_refl 8), h1.2⟩⟩

/-- Claim C3, as the code has it: let the unknown cell B hold a formula `=R@C`
that refers to another cell A of the grid. Evaluating B returns, and whenever A
then has an ordinary error status (any message other than the marker
`calculating`), the status of B is the error with the empty message, and
`get_value` on B returns the override, or the empty message if there is none. -/
theorem C3_reference_gets_empty_message {V : Type} (N : Arith V) (σ : State V)
    (ra ca rb cb : Nat) (R C : List Char) (vr vc : V)
    (hR : IsNumber N R vr) (hC : IsNumber N C vc)
    (hra : N.toUnsigned vr = ra) (hca : N.toUnsigned vc = ca)
    (hA : ra < nrows ∧ ca < ncols) (hB : rb < nrows ∧ cb < ncols)
    (hne : ¬ (ra = rb ∧ ca = cb))
    (htext : (σ.cells rb cb).text = '=' :: (R ++ '@' :: C))
    (hunk : (σ.cells rb cb).plaint = some .unknown) (msg : Option Plaint) :
    ∃ fuel res σ1,
      (∀ fuel1, fuel ≤ fuel1 → get_value N fuel1 rb cb msg σ = some (res, σ1)) ∧
      (∀ m, (σ1.cells ra ca).plaint = some (.lit m) →
        (σ1.cells rb cb).plaint = some (.lit "") ∧ res = .error (orelse msg (.lit ""))) := by
  obtain ⟨f, ⟨resA, σA⟩, hgA⟩ := get_value_total N
    (σ.set rb cb { σ.cells rb cb with plaint := some .calculating }) ra ca (some (.lit ""))
  have hA1 := hgA f (le_refl _)
  obtain ⟨-, hinA, -⟩ := (invariants N f).2.2.2.2.2.2 _ _ _ _ _ _ hA1
  obtain ⟨-, hresA⟩ := hinA hA
  rw [← hra, ← hca] at hA1
  have hu := update_reference N σ rb cb R C vr vc hR hC hB htext f resA σA hA1
  have hg := get_value_unknown N (f + 6) rb cb msg σ
  cases resA with
  | error p =>
    simp only at hu
    have hg1 := hg _ hB hunk hu
    refine ⟨f + 6 + 1, _, _, fun fuel1 hle => get_value_mono N hg1 hle, ?_⟩
    intro m hm
    rw [error_cells, State.set_cells_other _ _ _ _ _ _ hne] at hm
    have hp : p = .lit "" := by
      simp only [read_cell, hm, orelse] at hresA
      simpa using hresA
    subst hp
    simp [error_cells, State.set_cells_same, read_cell]
  | ok v =>
    simp only at hu
    have hg1 := hg _ hB hunk hu
    refine ⟨f + 6 + 1, _, _, fun fuel1 hle => get_value_mono N hg1 hle, ?_⟩
    intro m hm
    rw [State.set_cells_other _ _ _ _ _ _ hne] at hm
    simp [read_cell, hm] at hresA

/-- Claim C3 fails as stated for a circular reference: with `=0@0` in cell
`(0,0)` and `=0@0` in cell `(1,0)`, evaluating `(1,0)` gives it the message
"Circular reference", not the empty message. -/
theorem C3_counterexample :
    (get_value fracArith 20 1 0 none (grid fracArith [(0, 0, "=0@0"), (1, 0, "=0@0")])).map
      (fun res => ((res.2.cells 1 0).plaint.map Plaint.text,
        decide ((res.2.cells 1 0).plaint.map Plaint.text = some ""))) =
    some (some "Circular reference", false) := by
  decide

/-- The theorem of claim C3 with `=1/0` in cell `(0,0)` and `=0@0` in cell
`(1,0)`: the message of `(1,0)` is empty, and `(0,0)` keeps "Divide by 0". -/
theorem C3_witness :
    (∃ fuel res σ1,
      (∀ fuel1, fuel ≤ fuel1 →
        get_value fracArith fuel1 1 0 none (grid fracArith [(0, 0, "=1/0"), (1, 0, "=0@0")]) =
          some (res, σ1)) ∧
      (∀ m, (σ1.cells 0 0).plaint = some (.lit m) →
        (σ1.cells 1 0).plaint = some (.lit "") ∧ res = .error (orelse none (.lit "")))) ∧
    (get_value fracArith 20 1 0 none (grid fracArith [(0, 0, "=1/0"), (1, 0, "=0@0")])).map
      (fun res => ((res.2.cells 0 0).plaint, (res.2.cells 1 0).plaint)) =
    some (some (.lit "Divide by 0"), some (.lit "")) :=
  ⟨C3_reference_gets_empty_message fracArith
      (grid fracArith [(0, 0, "=1/0"), (1, 0, "=0@0")]) 0 0 1 0 ['0'] ['0']
      (Frac.ofInt 0) (Frac.ofInt 0) (frac_is_number ['0'] (by decide) (by decide))
      (frac_is_number ['0'] (by decide) (by decide)) rfl rfl (by decide) (by decide)
      (by decide) rfl rfl none,
    by decide⟩

/-- Claim C5, as the code has it: for an in-range cell `(row, col)`, a call of
`set_text` whose argument is not the cell's own text buffer (a buffer of the
caller, whatever its characters, or the text of another cell) stores those
characters in the cell, leaves every other text as it is and makes every cell of
the grid unknown; a call whose argument is the cell's own text buffer changes
nothing at all. -/
theorem C5_set_text_frame {V : Type} (σ : State V) (row col : Nat) (text : TextArg)
    (hin : row < nrows ∧ col < ncols) :
    (text.is_text_of row col = false →
      ∃ σ1, set_text row col text σ = some σ1 ∧
        (σ1.cells row col).text = text.chars σ ∧
        (∀ r c, ¬ (r = row ∧ c = col) → (σ1.cells r c).text = (σ.cells r c).text) ∧
        (∀ r c, r < nrows → c < ncols → (σ1.cells r c).plaint = some .unknown)) ∧
    (text.is_text_of row col = true → set_text row col text σ = some σ) := by
  have hnot : ¬ ¬ (row < nrows ∧ col < ncols) := not_not.mpr hin
  refine ⟨?_, ?_⟩
  · intro h
    refine ⟨_, by simp only [set_text, hnot, if_false, h]; rfl, ?_, ?_, ?_⟩
    · simp [State.set, hin]
    · intro r c hrc
      by_cases hr : r < nrows ∧ c < ncols
      · simp [State.set, hr, hrc]
      · simp [State.set, hr, hrc]
    · intro r c hr hc
      simp [hr, hc]
  · intro h
    simp only [set_text, hnot, if_false, h, if_true]

/-- Claim C5 fails as stated when the argument is the cell's own text buffer,
as in `copy_text` onto the cell under the cursor: cell `(0,0)` holds `=1` and is
valid, and after `set_text(0, 0, cells[0][0].text)` it is still valid, not
unknown. -/
theorem C5_counterexample :
    (set_text 0 0 (.cell_text 0 0)
        (evaluated fracArith 20 0 0 (grid fracArith [(0, 0, "=1")]))).map
      (fun σ => ((σ.cells 0 0).plaint, decide ((σ.cells 0 0).plaint = some Plaint.unknown))) =
    some (none, false) := by
  decide

/-- The theorem of claim C5 on the valid cell `(0,0)` holding `=1`, for the
buffer `=1` (the same characters) and for the cell's own buffer. -/
theorem C5_witness :
    ((TextArg.buffer ['=', '1']).is_text_of 0 0 = false →
      ∃ σ1, set_text 0 0 (.buffer ['=', '1'])
          (evaluated fracArith 20 0 0 (grid fracArith [(0, 0, "=1")])) = some σ1 ∧
        (σ1.cells 0 0).text = (TextArg.buffer ['=', '1']).chars
          (evaluated fracArith 20 0 0 (grid fracArith [(0, 0, "=1")])) ∧
        (∀ r c, ¬ (r = 0 ∧ c = 0) → (σ1.cells r c).text =
          ((evaluated fracArith 20 0 0 (grid fracArith [(0, 0, "=1")])).cells r c).text) ∧
        (∀ r c, r < nrows → c < ncols → (σ1.cells r c).plaint = some .unknown)) ∧
    ((TextArg.buffer ['=', '1']).is_text_of 0 0 = true →
      set_text 0 0 (.buffer ['=', '1'])
          (evaluated fracArith 20 0 0 (grid fracArith [(0, 0, "=1")])) =
        some (evaluated fracArith 20 0 0 (grid fracArith [(0, 0, "=1")]))) ∧
    ((evaluated fracArith 20 0 0 (grid fracArith [(0, 0, "=1")])).cells 0 0).text =
      ['=', '1'] ∧
    ((evaluated fracArith 20 0 0 (grid fracArith [(0, 0, "=1")])).cells 0 0).plaint = none :=
  ⟨(C5_set_text_frame (evaluated fracArith 20 0 0 (grid fracArith [(0, 0, "=1")])) 0 0
      (.buffer ['=', '1']) (by decide)).1,
    (C5_set_text_frame (evaluated fracArith 20 0 0 (grid fracArith [(0, 0, "=1")])) 0 0
      (.buffer ['=', '1']) (by decide)).2,
    by decide, by decide⟩

/-! ## Binding powers: claims C6 and C7 -/

theorem delimited_op {ch : Char} (h : ch ∈ delimiters) (tl : List Char) :
    Delimited (ch :: tl) := delimited_cons h

theorem delimiters_token : ∀ ch ∈ delimiters, ch ∈ token_chars := by
  decide

/-- Claim C6: `evaluate` groups the binary operators by binding power:
`=a+b*c` is `a+(b*c)` and `=(a+b)*c` is `(a+b)*c`; the left and right powers
are `+ -` (1,2), `* / %` (3,4), `^` (5,5), `@` (7,8); and the loop of
`parse_expr` leaves an operator alone when its left power is below the
precedence in force, and otherwise reads its right operand by `parse_expr` with
its right power, applies it and goes on. -/
theorem C6_binding_power {V : Type} (N : Arith V) (a b c : List Char) (va vb vc : V)
    (ha : IsNumber N a va) (hb : IsNumber N b vb) (hc : IsNumber N c vc)
    (row col : Nat) (σ : State V) :
    (∀ fuel, 12 ≤ fuel →
      evaluate N fuel ('=' :: (a ++ '+' :: (b ++ '*' :: c))) row col σ =
        some (none, some (N.add va (N.mul vb vc)), σ)) ∧
    (∀ fuel, 12 ≤ fuel →
      evaluate N fuel ('=' :: '(' :: (a ++ '+' :: (b ++ ')' :: '*' :: c))) row col σ =
        some (none, some (N.mul (N.add va vb) vc), σ)) ∧
    (binding '+' = some (1, 2) ∧ binding '-' = some (1, 2) ∧ binding '*' = some (3, 4) ∧
      binding '/' = some (3, 4) ∧ binding '%' = some (3, 4) ∧ binding '^' = some (5, 5) ∧
      binding '@' = some (7, 8)) ∧
    (∀ (fuel : Nat) (s : Context V) (prec : Int) (lhs : V) (τ : State V) (lp rp : Int),
      binding s.token = some (lp, rp) →
      (lp < prec → parse_expr_loop N (fuel + 1) s prec lhs τ = some (lhs, s, τ)) ∧
      (¬ lp < prec → parse_expr_loop N (fuel + 1) s prec lhs τ =
        (parse_expr N fuel (next N s) rp τ).bind (fun x =>
          (apply N fuel x.2.1 s.token lhs x.1 x.2.2).bind (fun y =>
            parse_expr_loop N fuel y.2.1 prec y.1 y.2.2)))) := by
  have d1 : ∀ tl, Delimited ('+' :: tl) := fun tl => delimited_cons (by decide)
  have d2 : ∀ tl, Delimited ('*' :: tl) := fun tl => delimited_cons (by decide)
  have d3 : ∀ tl, Delimited (')' :: tl) := fun tl => delimited_cons (by decide)
  have t1 : '+' ∈ token_chars := by decide
  have t2 : '*' ∈ token_chars := by decide
  have t3 : '(' ∈ token_chars := by decide
  have t4 : ')' ∈ token_chars := by decide
  refine ⟨?_, ?_, by decide, ?_⟩
  · intro fuel hf
    obtain ⟨k, rfl⟩ := Nat.exists_eq_add_of_le hf
    rw [Nat.add_comm]
    simp [evaluate, find_formula_eq, parse_expr, parse_factor, parse_expr_loop, apply,
      next_number N ha (d1 _), next_number N hb (d2 _), next_number_end N hc,
      next_token N t1, next_token N t2, next_end, binding, tok_end]
  · intro fuel hf
    obtain ⟨k, rfl⟩ := Nat.exists_eq_add_of_le hf
    rw [Nat.add_comm]
    simp [evaluate, find_formula_eq, parse_expr, parse_factor, parse_expr_loop, apply,
      next_number N ha (d1 _), next_number N hb (d3 _), next_number_end N hc,
      next_token N t1, next_token N t2, next_token N t3, next_token N t4, next_end, binding,
      tok_end]
  · intro fuel s prec lhs τ lp rp hbind
    refine ⟨?_, ?_⟩
    · intro hlt
      rw [parse_expr_loop, hbind]
      simp only [hlt, if_true]
    · intro hlt
      rw [parse_expr_loop, hbind]
      simp only [hlt, if_false]
      cases h1 : parse_expr N fuel (next N s) rp τ with
      | none => rfl
      | some x =>
        obtain ⟨rhs, s1, τ1⟩ := x
        simp only [Option.some_bind]
        cases h2 : apply N fuel s1 s.token lhs rhs τ1 with
        | none => rfl
        | some y =>
          obtain ⟨v, s2, τ2⟩ := y
          rfl

/-- The theorem of claim C6 on `=2+3*4`, which gives 14, and on `=(2+3)*4`,
which gives 20. -/
theorem C6_witness :
    evaluate fracArith 12 "=2+3*4".toList 0 0 (setup fracArith) =
      some (none, some (Frac.ofInt 14), setup fracArith) ∧
    evaluate fracArith 12 "=(2+3)*4".toList 0 0 (setup fracArith) =
      some (none, some (Frac.ofInt 20), setup fracArith) :=
  have h := C6_binding_power fracArith ['2'] ['3'] ['4'] (Frac.ofInt 2) (Frac.ofInt 3)
    (Frac.ofInt 4) (frac_is_number ['2'] (by decide) (by decide))
    (frac_is_number ['3'] (by decide) (by decide))
    (frac_is_number ['4'] (by decide) (by decide)) 0 0 (setup fracArith)
  ⟨h.1 12 (Nat.le_refl 12), h.2.1 12 (Nat.le_refl 12)⟩

theorem binding_additive {op : Char} (h : binding op = some (1, 2)) : op = '+' ∨ op = '-' := by
  unfold binding at h
  split_ifs at h with h1 h2 h3 h4 h5 h6 h7
  · exact Or.inl h1
  · exact Or.inr h2
  all_goals simp at h

theorem binding_multiplicative {op : Char} (h : binding op = some (3, 4)) :
    op = '*' ∨ op = '/' ∨ op = '%' := by
  unfold binding at h
  split_ifs at h with h1 h2 h3 h4 h5 h6 h7
  · simp at h
  · simp at h
  · exact Or.inl h3
  · exact Or.inr (Or.inl h4)
  · exact Or.inr (Or.inr h5)
  all_goals simp at h

/-- The evaluation of `=a op1 b op2 c` when the loop of `parse_expr` applies
`op1` before it reads `op2`: the generic left-grouping computation. -/
theorem evaluate_left_chain {V : Type} (N : Arith V) (a b c : List Char) (va vb vc : V)
    (ha : IsNumber N a va) (hb : IsNumber N b vb) (hc : IsNumber N c vc)
    (row col : Nat) (σ : State V) (op1 op2 : Char)
    (h : (binding op1 = some (1, 2) ∧ binding op2 = some (1, 2)) ∨
      (binding op1 = some (3, 4) ∧ binding op2 = some (3, 4)))
    (hz1 : op1 = '/' ∨ op1 = '%' → N.isZero vb = false)
    (hz2 : op2 = '/' ∨ op2 = '%' → N.isZero vc = false) (k : Nat) :
    evaluate N (k + 12) ('=' :: (a ++ op1 :: (b ++ op2 :: c))) row col σ =
      some (none, some (arith N op2 (arith N op1 va vb) vc), σ) := by
  have d1 : ∀ tl, Delimited ('+' :: tl) := fun tl => delimited_cons (by decide)
  have d2 : ∀ tl, Delimited ('-' :: tl) := fun tl => delimited_cons (by decide)
  have d3 : ∀ tl, Delimited ('*' :: tl) := fun tl => delimited_cons (by decide)
  have d4 : ∀ tl, Delimited ('/' :: tl) := fun tl => delimited_cons (by decide)
  have d5 : ∀ tl, Delimited ('%' :: tl) := fun tl => delimited_cons (by decide)
  have t1 : '+' ∈ token_chars := by decide
  have t2 : '-' ∈ token_chars := by decide
  have t3 : '*' ∈ token_chars := by decide
  have t4 : '/' ∈ token_chars := by decide
  have t5 : '%' ∈ token_chars := by decide
  rcases h with ⟨h1, h2⟩ | ⟨h1, h2⟩
  · rcases binding_additive h1 with rfl | rfl <;> rcases binding_additive h2 with rfl | rfl <;>
      simp [evaluate, find_formula_eq, parse_expr, parse_factor, parse_expr_loop, apply, arith,
        next_number N ha (d1 _), next_number N ha (d2 _), next_number N hb (d1 _),
        next_number N hb (d2 _), next_number_end N hc, next_token N t1, next_token N t2,
        next_end, binding, tok_end]
  · rcases binding_multiplicative h1 with rfl | rfl | rfl <;>
      rcases binding_multiplicative h2 with rfl | rfl | rfl <;>
      simp at hz1 hz2 <;>
      simp [evaluate, find_formula_eq, parse_expr, parse_factor, parse_expr_loop, apply, arith,
        next_number N ha (d3 _), next_number N ha (d4 _), next_number N ha (d5 _),
        next_number N hb (d3 _), next_number N hb (d4 _), next_number N hb (d5 _),
        next_number_end N hc, next_token N t3, next_token N t4, next_token N t5,
        next_end, binding, tok_end, hz1, hz2]

/-- The evaluation of `=a op1 b op2 c` for operators among `* / %` when the
first divisor is zero: it fails with "Divide by 0". -/
theorem evaluate_chain_zero_first {V : Type} (N : Arith V) (a b c : List Char) (va vb : V)
    (ha : IsNumber N a va) (hb : IsNumber N b vb)
    (row col : Nat) (σ : State V) (op1 op2 : Char)
    (h1 : op1 = '/' ∨ op1 = '%') (h2 : binding op2 = some (3, 4))
    (zb : N.isZero vb = true) (k : Nat) :
    (evaluate N (k + 12) ('=' :: (a ++ op1 :: (b ++ op2 :: c))) row col σ).map
      (fun x => (x.1, x.2.2)) = some (some (.lit "Divide by 0"), σ) := by
  have d4 : ∀ tl, Delimited ('/' :: tl) := fun tl => delimited_cons (by decide)
  have d5 : ∀ tl, Delimited ('%' :: tl) := fun tl => delimited_cons (by decide)
  have d3 : ∀ tl, Delimited ('*' :: tl) := fun tl => delimited_cons (by decide)
  have t3 : '*' ∈ token_chars := by decide
  have t4 : '/' ∈ token_chars := by decide
  have t5 : '%' ∈ token_chars := by decide
  by_cases z0 : N.isZero N.zero = true <;>
    rcases h1 with rfl | rfl <;>
    rcases binding_multiplicative h2 with rfl | rfl | rfl <;>
    simp [evaluate, find_formula_eq, parse_expr, parse_factor, parse_expr_loop, apply,
      next_number N ha (d4 _), next_number N ha (d5 _), next_number N hb (d3 _),
      next_number N hb (d4 _), next_number N hb (d5 _), next_token N t3, next_token N t4,
      next_token N t5, next_end, binding, tok_end, complain, z0, zb]

/-- The evaluation of `=a op1 b op2 c` for operators among `* / %` when the
first operator succeeds and the second divisor is zero: it fails with
"Divide by 0". -/
theorem evaluate_chain_zero_second {V : Type} (N : Arith V) (a b c : List Char)
    (va vb vc : V) (ha : IsNumber N a va) (hb : IsNumber N b vb) (hc : IsNumber N c vc)
    (row col : Nat) (σ : State V) (op1 op2 : Char)
    (h1 : binding op1 = some (3, 4)) (h2 : op2 = '/' ∨ op2 = '%')
    (zb : op1 = '/' ∨ op1 = '%' → N.isZero vb = false)
    (zc : N.isZero vc = true) (k : Nat) :
    (evaluate N (k + 12) ('=' :: (a ++ op1 :: (b ++ op2 :: c))) row col σ).map
      (fun x => (x.1, x.2.2)) = some (some (.lit "Divide by 0"), σ) := by
  have d3 : ∀ tl, Delimited ('*' :: tl) := fun tl => delimited_cons (by decide)
  have d4 : ∀ tl, Delimited ('/' :: tl) := fun tl => delimited_cons (by decide)
  have d5 : ∀ tl, Delimited ('%' :: tl) := fun tl => delimited_cons (by decide)
  have t3 : '*' ∈ token_chars := by decide
  have t4 : '/' ∈ token_chars := by decide
  have t5 : '%' ∈ token_chars := by decide
  rcases binding_multiplicative h1 with rfl | rfl | rfl <;>
    rcases h2 with rfl | rfl <;>
    simp at zb <;>
    simp [evaluate, find_formula_eq, parse_expr, parse_factor, parse_expr_loop, apply,
      next_number N ha (d3 _), next_number N ha (d4 _), next_number N ha (d5 _),
      next_number N hb (d4 _), next_number N hb (d5 _),
      next_number_end N hc, next_token N t3, next_token N t4, next_token N t5,
      next_end, binding, tok_end, complain, zb, zc]

/-- Claim C7: `^` groups to the right, `=a^b^c` is `a^(b^c)`; a chain of two
operators of one level among `+ -`, or among `* / %`, groups to the left,
`=a op1 b op2 c` is `(a op1 b) op2 c`, in particular `=a-b-c` is `(a-b)-c`;
this is for divisors that are not zero, and a chain with a divisor that is zero
fails with "Divide by 0". -/
theorem C7_associativity {V : Type} (N : Arith V) (a b c : List Char) (va vb vc : V)
    (ha : IsNumber N a va) (hb : IsNumber N b vb) (hc : IsNumber N c vc)
    (row col : Nat) (σ : State V) :
    (∀ fuel, 12 ≤ fuel →
      evaluate N fuel ('=' :: (a ++ '^' :: (b ++ '^' :: c))) row col σ =
        some (none, some (N.pow va (N.pow vb vc)), σ)) ∧
    (∀ op1 op2 : Char,
      (binding op1 = some (1, 2) ∧ binding op2 = some (1, 2)) ∨
        (binding op1 = some (3, 4) ∧ binding op2 = some (3, 4)) →
      (op1 = '/' ∨ op1 = '%' → N.isZero vb = false) →
      (op2 = '/' ∨ op2 = '%' → N.isZero vc = false) →
      ∀ fuel, 12 ≤ fuel →
        evaluate N fuel ('=' :: (a ++ op1 :: (b ++ op2 :: c))) row col σ =
          some (none, some (arith N op2 (arith N op1 va vb) vc), σ)) ∧
    (∀ fuel, 12 ≤ fuel →
      evaluate N fuel ('=' :: (a ++ '-' :: (b ++ '-' :: c))) row col σ =
        some (none, some (N.sub (N.sub va vb) vc), σ)) ∧
    (∀ op1 op2 : Char, binding op1 = some (3, 4) → binding op2 = some (3, 4) →
      ((op1 = '/' ∨ op1 = '%') ∧ N.isZero vb = true) ∨
        ((op2 = '/' ∨ op2 = '%') ∧ N.isZero vc = true) →
      ∀ fuel, 12 ≤ fuel →
        (evaluate N fuel ('=' :: (a ++ op1 :: (b ++ op2 :: c))) row col σ).map
          (fun x => (x.1, x.2.2)) = some (some (.lit "Divide by 0"), σ)) := by
  have dp : ∀ tl, Delimited ('^' :: tl) := fun tl => delimited_cons (by decide)
  have tp : '^' ∈ token_chars := by decide
  refine ⟨?_, ?_, ?_, ?_⟩
  · intro fuel hf
    obtain ⟨k, rfl⟩ := Nat.exists_eq_add_of_le hf
    rw [Nat.add_comm]
    simp [evaluate, find_formula_eq, parse_expr, parse_factor, parse_expr_loop, apply,
      next_number N ha (dp _), next_number N hb (dp _), next_number_end N hc,
      next_token N tp, next_end, binding, tok_end]
  · intro op1 op2 h hz1 hz2 fuel hf
    obtain ⟨k, rfl⟩ := Nat.exists_eq_add_of_le hf
    rw [Nat.add_comm]
    exact evaluate_left_chain N a b c va vb vc ha hb hc row col σ op1 op2 h hz1 hz2 k
  · intro fuel hf
    obtain ⟨k, rfl⟩ := Nat.exists_eq_add_of_le hf
    rw [Nat.add_comm]
    exact evaluate_left_chain N a b c va vb vc ha hb hc row col σ '-' '-'
      (Or.inl ⟨by decide, by decide⟩) (fun h => absurd h (by decide))
      (fun h => absurd h (by decide)) k
  · intro op1 op2 h1 h2 hz fuel hf
    obtain ⟨k, rfl⟩ := Nat.exists_eq_add_of_le hf
    rw [Nat.add_comm]
    by_cases hfirst : (op1 = '/' ∨ op1 = '%') ∧ N.isZero vb = true
    · exact evaluate_chain_zero_first N a b c va vb ha hb row col σ op1 op2 hfirst.1 h2
        hfirst.2 k
    · have hsecond : (op2 = '/' ∨ op2 = '%') ∧ N.isZero vc = true := by
        rcases hz with hz | hz
        · exact absurd hz hfirst
        · exact hz
      refine evaluate_chain_zero_second N a b c va vb vc ha hb hc row col σ op1 op2 h1
        hsecond.1 ?_ hsecond.2 k
      intro hop
      cases hzb : N.isZero vb with
      | false => rfl
      | true => exact absurd ⟨hop, hzb⟩ hfirst

/-- The theorem of claim C7 on `=2^3^2`, which gives 512, on `=10-4-3`, which
gives 3, and on `=8/4/2`, which gives 1. -/
theorem C7_witness :
    evaluate fracArith 12 "=2^3^2".toList 0 0 (setup fracArith) =
      some (none, some (Frac.ofInt 512), setup fracArith) ∧
    evaluate fracArith 12 "=10-4-3".toList 0 0 (setup fracArith) =
      some (none, some (Frac.ofInt 3), setup fracArith) ∧
    evaluate fracArith 12 "=8/4/2".toList 0 0 (setup fracArith) =
      some (none, some (Frac.ofInt 1), setup fracArith) :=
  ⟨(C7_associativity fracArith ['2'] ['3'] ['2'] (Frac.ofInt 2) (Frac.ofInt 3) (Frac.ofInt 2)
      (frac_is_number ['2'] (by decide) (by decide))
      (frac_is_number ['3'] (by decide) (by decide))
      (frac_is_number ['2'] (by decide) (by decide)) 0 0 (setup fracArith)).1 12
      (Nat.le_refl 12),
    (C7_associativity fracArith ['1', '0'] ['4'] ['3'] (Frac.ofInt 10) (Frac.ofInt 4)
      (Frac.ofInt 3) (frac_is_number ['1', '0'] (by decide) (by decide))
      (frac_is_number ['4'] (by decide) (by decide))
      (frac_is_number ['3'] (by decide) (by decide)) 0 0 (setup fracArith)).2.2.1 12
      (Nat.le_refl 12),
    (C7_associativity fracArith ['8'] ['4'] ['2'] (Frac.ofInt 8) (Frac.ofInt 4)
      (Frac.ofInt 2) (frac_is_number ['8'] (by decide) (by decide))
      (frac_is_number ['4'] (by decide) (by decide))
      (frac_is_number ['2'] (by decide) (by decide)) 0 0 (setup fracArith)).2.1 '/' '/'
      (Or.inr ⟨by decide, by decide⟩) (fun _ => by decide) (fun _ => by decide) 12
      (Nat.le_refl 12)⟩

/-! ## Division by zero and the keywords: claims C8 and C10 -/

/-- The evaluation of `=a/z` and `=a%z` for a divisor `z` that is zero. -/
theorem evaluate_zero_divide {V : Type} (N : Arith V) (a z : List Char) (va vz : V)
    (ha : IsNumber N a va) (hz : IsNumber N z vz) (hzero : N.isZero vz = true)
    (row col : Nat) (σ : State V) (op : Char) (hop : op = '/' ∨ op = '%') (k : Nat) :
    evaluate N (k + 8) ('=' :: (a ++ op :: z)) row col σ =
      some (some (.lit "Divide by 0"), some N.zero, σ) := by
  have d4 : ∀ tl, Delimited ('/' :: tl) := fun tl => delimited_cons (by decide)
  have d5 : ∀ tl, Delimited ('%' :: tl) := fun tl => delimited_cons (by decide)
  have t4 : '/' ∈ token_chars := by decide
  have t5 : '%' ∈ token_chars := by decide
  rcases hop with rfl | rfl <;>
    simp [evaluate, find_formula_eq, parse_expr, parse_factor, parse_expr_loop, apply,
      next_number N ha (d4 _), next_number N ha (d5 _), next_number_end N hz,
      next_token N t4, next_token N t5, next_end, binding, tok_end, hzero, complain]

/-- Claim C8: for a number literal `a` and a divisor literal that is zero, `=a/0`
and `=a%0` fail with the message "Divide by 0" and the value 0; the failing
application of `/` or `%` returns 0 and complains "Divide by 0"; `update`
leaves the cell with the status `Error("Divide by 0")`; and `/` and `%` with a
divisor that is not zero return the quotient or remainder and raise no
complaint. -/
theorem C8_divide_by_zero {V : Type} (N : Arith V) (a z : List Char) (va vz : V)
    (ha : IsNumber N a va) (hz : IsNumber N z vz) (hzero : N.isZero vz = true)
    (σ : State V) :
    (∀ (op : Char) (row col fuel : Nat), op = '/' ∨ op = '%' → 8 ≤ fuel →
      evaluate N fuel ('=' :: (a ++ op :: z)) row col σ =
        some (some (.lit "Divide by 0"), some N.zero, σ)) ∧
    (∀ (op : Char) (fuel : Nat) (s : Context V) (lhs rhs : V), op = '/' ∨ op = '%' →
      N.isZero rhs = true →
      apply N (fuel + 1) s op lhs rhs σ = some (N.zero, complain s (.lit "Divide by 0"), σ)) ∧
    (∀ (fuel : Nat) (s : Context V) (lhs rhs : V), N.isZero rhs = false →
      apply N (fuel + 1) s '/' lhs rhs σ = some (N.div lhs rhs, s, σ) ∧
      apply N (fuel + 1) s '%' lhs rhs σ = some (N.fmod lhs rhs, s, σ)) ∧
    (∀ (op : Char) (r c : Nat), op = '/' ∨ op = '%' → r < nrows ∧ c < ncols →
      (σ.cells r c).text = '=' :: (a ++ op :: z) →
      ∃ σ1, (∀ fuel, 9 ≤ fuel → update N fuel r c σ = some σ1) ∧
        (σ1.cells r c).plaint = some (.lit "Divide by 0") ∧
        (σ1.cells r c).value = N.zero) := by
  refine ⟨?_, ?_, ?_, ?_⟩
  · intro op row col fuel hop hf
    obtain ⟨k, rfl⟩ := Nat.exists_eq_add_of_le hf
    rw [Nat.add_comm]
    exact evaluate_zero_divide N a z va vz ha hz hzero row col σ op hop k
  · intro op fuel s lhs rhs hop hr
    rcases hop with rfl | rfl <;> simp [apply, hr]
  · intro fuel s lhs rhs hr
    constructor <;> simp [apply, hr]
  · intro op r c hop hin htext
    have hnot : ¬ ¬ (r < nrows ∧ c < ncols) := not_not.mpr hin
    have hev := fun k => evaluate_zero_divide N a z va vz ha hz hzero r c
      (σ.set r c { σ.cells r c with plaint := some .calculating }) op hop k
    refine ⟨error (.lit "Divide by 0")
      ((σ.set r c { σ.cells r c with plaint := some .calculating }).set r c
        { (σ.set r c { σ.cells r c with plaint := some .calculating }).cells r c with
          plaint := some (.lit "Divide by 0"), value := N.zero }), ?_, ?_, ?_⟩
    · intro fuel hf
      obtain ⟨k, rfl⟩ := Nat.exists_eq_add_of_le hf
      have e : 9 + k = (k + 8) + 1 := by omega
      have ht : ((σ.set r c { σ.cells r c with plaint := some .calculating }).cells r c).text =
          '=' :: (a ++ op :: z) := by
        rw [State.set_cells_same]
        exact htext
      rw [e, update]
      simp only [hnot, if_false]
      rw [ht, hev k]
      simp only [ht]
    · simp [error_cells, State.set_cells_same]
    · simp [error_cells, State.set_cells_same]

/-- The theorem of claim C8 on `=5/0`, evaluated and in cell `(0,0)`. -/
theorem C8_witness :
    evaluate fracArith 8 "=5/0".toList 0 0 (grid fracArith [(0, 0, "=5/0")]) =
      some (some (.lit "Divide by 0"), some (Frac.ofInt 0),
        grid fracArith [(0, 0, "=5/0")]) ∧
    (∃ σ1, update fracArith 9 0 0 (grid fracArith [(0, 0, "=5/0")]) = some σ1 ∧
      (σ1.cells 0 0).plaint = some (.lit "Divide by 0") ∧
      (σ1.cells 0 0).value = Frac.ofInt 0) :=
  have h := C8_divide_by_zero fracArith ['5'] ['0'] (Frac.ofInt 5) (Frac.ofInt 0)
    (frac_is_number ['5'] (by decide) (by decide))
    (frac_is_number ['0'] (by decide) (by decide)) rfl (grid fracArith [(0, 0, "=5/0")])
  ⟨h.1 '/' 0 0 8 (Or.inl rfl) (Nat.le_refl 8),
    (h.2.2.2 '/' 0 0 (Or.inl rfl) (by decide) rfl).elim
      fun σ1 h1 => ⟨σ1, h1.1 9 (Nat.le_refl 9), h1.2⟩⟩

theorem Frac.make_one (n : Int) : Frac.make n 1 = ⟨n, 1⟩ := by
  simp [Frac.make]

/-- Claim C10: the keyword `r` is the row and `c` the column of the evaluating
cell: `evaluate("=r*10+c", row, col)` succeeds with the value `row*10+col`, in
the arithmetic of the program for every literal `10`, and as the exact number
for every row and column. -/
theorem C10_row_and_column {V : Type} (N : Arith V) (v10 : V)
    (h10 : IsNumber N ['1', '0'] v10) (row col : Nat) (σ : State V) :
    (∀ fuel, 12 ≤ fuel →
      evaluate N fuel ['=', 'r', '*', '1', '0', '+', 'c'] row col σ =
        some (none, some (N.add (N.mul (N.ofUnsigned row) v10) (N.ofUnsigned col)), σ)) ∧
    (∀ (τ : State Frac) (fuel : Nat), 12 ≤ fuel →
      evaluate fracArith fuel ['=', 'r', '*', '1', '0', '+', 'c'] row col τ =
        some (none, some (Frac.ofInt (row * 10 + col : Nat)), τ)) := by
  have d1 : ∀ tl, Delimited ('+' :: tl) := fun tl => delimited_cons (by decide)
  have t1 : '+' ∈ token_chars := by decide
  have t2 : '*' ∈ token_chars := by decide
  have t3 : 'r' ∈ token_chars := by decide
  have t4 : 'c' ∈ token_chars := by decide
  have key : ∀ {W : Type} (M : Arith W) (w10 : W), IsNumber M ['1', '0'] w10 →
      ∀ (τ : State W) (k : Nat),
      evaluate M (k + 12) ['=', 'r', '*', '1', '0', '+', 'c'] row col τ =
        some (none, some (M.add (M.mul (M.ofUnsigned row) w10) (M.ofUnsigned col)), τ) := by
    intro W M w10 hw τ k
    have hn := next_number M hw (d1 ['c'])
    simp only [List.cons_append, List.nil_append] at hn
    simp [evaluate, find_formula_eq, parse_expr, parse_factor, parse_expr_loop, apply,
      hn, next_token M t1, next_token M t2, next_token M t3, next_token M t4,
      next_end, binding, tok_end]
  refine ⟨?_, ?_⟩
  · intro fuel hf
    obtain ⟨k, rfl⟩ := Nat.exists_eq_add_of_le hf
    rw [Nat.add_comm]
    exact key N v10 h10 σ k
  · intro τ fuel hf
    obtain ⟨k, rfl⟩ := Nat.exists_eq_add_of_le hf
    rw [Nat.add_comm,
      key fracArith (Frac.ofInt 10) (frac_is_number ['1', '0'] (by decide) (by decide)) τ k]
    simp [fracArith, Frac.add, Frac.mul, Frac.ofInt, Frac.make_one]

/-- The theorem of claim C10 at row 2 and column 3, where the value is 23. -/
theorem C10_witness :
    evaluate fracArith 12 "=r*10+c".toList 2 3 (setup fracArith) =
      some (none, some (Frac.ofInt 23), setup fracArith) :=
  (C10_row_and_column fracArith (Frac.ofInt 10)
    (frac_is_number ['1', '0'] (by decide) (by decide)) 2 3 (setup fracArith)).1 12
    (Nat.le_refl 12)

/-! ## The first complaint is kept -/

theorem Kept.same {V : Type} (s : Context V) : Kept s s :=
  ⟨fun _ h => h, Or.inl rfl, fun h => h, fun h => h, rfl, rfl⟩

theorem Kept.chain {V : Type} {s s1 s2 : Context V} (h1 : Kept s s1) (h2 : Kept s1 s2) :
    Kept s s2 := by
  refine ⟨fun q h => h2.plaint q (h1.plaint q h), ?_, fun h => h2.truncated (h1.truncated h),
    fun h => h2.ended (h1.ended h), by rw [h2.row, h1.row], by rw [h2.col, h1.col]⟩
  rcases h2.source with e2 | e2
  · rcases h1.source with e1 | e1
    · exact Or.inl (e2.trans e1)
    · exact Or.inr (by rw [e2]; exact e1)
  · exact Or.inr e2

theorem next_end_ok {V : Type} (N : Arith V) (s : Context V) : (next N s).EndOK := by
  unfold Context.EndOK next
  cases heq : s.p.dropWhile isspace with
  | nil => intro _ _; rfl
  | cons ch rest =>
    simp only
    split_ifs with h1 h2
    · intro _ ht
      simp [tok_end] at ht
    · intro _ ht
      exfalso
      simp only at ht
      subst ht
      revert h2
      decide
    · intro hp _
      exfalso
      simp only [complain] at hp
      split at hp <;> simp_all

theorem next_p_nil {V : Type} (N : Arith V) (s : Context V) (h : s.p = []) :
    next N s = { s with p := [], token := tok_end } := by
  simp [next, h]

theorem next_kept {V : Type} (N : Arith V) (s : Context V) : Kept s (next N s) := by
  refine ⟨?_, ?_, ?_, fun _ => next_end_ok N s, ?_, ?_⟩
  · intro q hq
    rcases next_plaint N s with h | ⟨h, -⟩
    · rw [h, hq]
    · rw [hq] at h
      cases h
  · rcases next_plaint N s with h | ⟨-, h⟩
    · exact Or.inl h
    · exact Or.inr ⟨_, by simp [parser_complaints], h⟩
  · intro h
    rw [next_p_nil N s h]
  · unfold next
    split
    · rfl
    · split_ifs
      · rfl
      · rfl
      · simp only [complain]
        split <;> rfl
  · unfold next
    split
    · rfl
    · split_ifs
      · rfl
      · rfl
      · simp only [complain]
        split <;> rfl

theorem complain_kept {V : Type} (s : Context V) (p : Plaint) (hp : p ∈ parser_complaints) :
    Kept s (complain s p) := by
  refine ⟨?_, ?_, ?_, ?_, ?_, ?_⟩
  · intro q hq
    rw [complain_plaint, hq]
    rfl
  · cases h : s.plaint with
    | none => exact Or.inr ⟨p, hp, by rw [complain_plaint, h]; rfl⟩
    | some q => exact Or.inl (by rw [complain_plaint, h]; rfl)
  · intro h
    unfold complain
    split
    · rfl
    · exact h
  · intro _ hp
    rw [complain_plaint] at hp
    cases hp
  · unfold complain
    split <;> rfl
  · unfold complain
    split <;> rfl

theorem complain_end_ok {V : Type} (s : Context V) (p : Plaint) : (complain s p).EndOK := by
  intro hp
  rw [complain_plaint] at hp
  cases hp

theorem kept_all {V : Type} (N : Arith V) : ∀ fuel, KeptAll N fuel := by
  intro fuel
  induction fuel with
  | zero =>
    refine ⟨?_, ?_, ?_, ?_⟩ <;> intros <;>
      simp_all [parse_factor, apply, parse_expr, parse_expr_loop]
  | succ n ih =>
    obtain ⟨hf, ha, he, hl⟩ := ih
    refine ⟨?_, ?_, ?_, ?_⟩
    · intro s σ v s1 σ1 h
      rw [parse_factor] at h
      split_ifs at h with h1 h2 h3 h4 h5
      · simp only [Option.some.injEq, Prod.mk.injEq] at h
        obtain ⟨-, rfl, rfl⟩ := h
        exact ⟨next_kept N s, next_end_ok N s⟩
      · cases hc : parse_factor N n (next N s) σ with
        | none => simp [hc] at h
        | some x =>
          obtain ⟨v1, s2, σ2⟩ := x
          rw [hc] at h
          simp only [Option.some.injEq, Prod.mk.injEq] at h
          obtain ⟨-, rfl, rfl⟩ := h
          have := hf _ _ _ _ _ hc
          exact ⟨(next_kept N s).chain this.1, this.2⟩
      · simp only [Option.some.injEq, Prod.mk.injEq] at h
        obtain ⟨-, rfl, rfl⟩ := h
        exact ⟨next_kept N s, next_end_ok N s⟩
      · simp only [Option.some.injEq, Prod.mk.injEq] at h
        obtain ⟨-, rfl, rfl⟩ := h
        exact ⟨next_kept N s, next_end_ok N s⟩
      · cases hc : parse_expr N n (next N s) 0 σ with
        | none => simp [hc] at h
        | some x =>
          obtain ⟨v1, s2, σ2⟩ := x
          rw [hc] at h
          simp only [Option.some.injEq, Prod.mk.injEq] at h
          obtain ⟨-, rfl, rfl⟩ := h
          have := he _ _ _ _ _ _ hc
          refine ⟨((next_kept N s).chain this.1).chain ?_, next_end_ok N _⟩
          split_ifs
          · exact (complain_kept _ _ (by simp [parser_complaints])).chain (next_kept N _)
          · exact next_kept N _
      · simp only [Option.some.injEq, Prod.mk.injEq] at h
        obtain ⟨-, rfl, rfl⟩ := h
        exact ⟨(complain_kept _ _ (by simp [parser_complaints])).chain (next_kept N _),
          next_end_ok N _⟩
    · intro s rator lhs rhs σ v s1 σ1 h
      rw [apply] at h
      split_ifs at h
      all_goals first
        | (simp only [Option.some.injEq, Prod.mk.injEq] at h
           obtain ⟨-, rfl, rfl⟩ := h
           first | exact Kept.same _ | exact complain_kept _ _ (by simp [parser_complaints]))
        | skip
      cases hc : get_value N n (N.toUnsigned lhs) (N.toUnsigned rhs) (some (.lit "")) σ with
      | none => simp [hc] at h
      | some x =>
        obtain ⟨res, σ2⟩ := x
        rw [hc] at h
        cases res with
        | ok value =>
          simp only [Option.some.injEq, Prod.mk.injEq] at h
          obtain ⟨-, rfl, rfl⟩ := h
          exact Kept.same _
        | error plaint =>
          simp only [Option.some.injEq, Prod.mk.injEq] at h
          obtain ⟨-, rfl, rfl⟩ := h
          refine complain_kept _ _ ?_
          obtain ⟨-, hin, hout⟩ := (invariants N n).2.2.2.2.2.2 _ _ _ _ _ _ hc
          by_cases hr : N.toUnsigned lhs < nrows ∧ N.toUnsigned rhs < ncols
          · have h2 := (hin hr).2
            unfold read_cell at h2
            split_ifs at h2
            · simp only [Except.error.injEq] at h2
              rw [h2]
              simp [parser_complaints]
            · split at h2
              · simp only [Except.error.injEq, orelse] at h2
                rw [h2]
                simp [parser_complaints]
              · simp at h2
          · have h2 := (hout hr).1
            simp only [Except.error.injEq] at h2
            rw [h2]
            simp [parser_complaints]
    · intro s prec σ v s1 σ1 h
      rw [parse_expr] at h
      cases hc : parse_factor N n s σ with
      | none => simp [hc] at h
      | some x =>
        obtain ⟨lhs, s2, σ2⟩ := x
        rw [hc] at h
        have h1 := hf _ _ _ _ _ hc
        have h2 := hl _ _ _ _ _ _ _ h
        exact ⟨h1.1.chain h2, h2.ended h1.2⟩
    · intro s prec lhs σ v s1 σ1 h
      rw [parse_expr_loop] at h
      cases hb : binding s.token with
      | none =>
        rw [hb] at h
        simp only [Option.some.injEq, Prod.mk.injEq] at h
        obtain ⟨-, rfl, rfl⟩ := h
        exact Kept.same _
      | some lr =>
        obtain ⟨lp, rp⟩ := lr
        rw [hb] at h
        simp only at h
        split_ifs at h with h1
        · simp only [Option.some.injEq, Prod.mk.injEq] at h
          obtain ⟨-, rfl, rfl⟩ := h
          exact Kept.same _
        · cases hc : parse_expr N n (next N s) rp σ with
          | none => simp [hc] at h
          | some x =>
            obtain ⟨rhs, s2, σ2⟩ := x
            rw [hc] at h
            simp only at h
            cases hc2 : apply N n s2 s.token lhs rhs σ2 with
            | none => simp [hc2] at h
            | some y =>
              obtain ⟨v2, s3, σ3⟩ := y
              rw [hc2] at h
              simp only at h
              have i1 := he _ _ _ _ _ _ hc
              have i2 := ha _ _ _ _ _ _ _ _ hc2
              have i3 := hl _ _ _ _ _ _ _ h
              exact (((next_kept N s).chain i1.1).chain i2).chain i3

/-! ## The marker after a call, references and trailing tokens: claims C15, C17 and C18 -/

/-- Claim C17: let the unknown cell X hold the formula `=R@C` that refers to
another cell of the grid. Evaluating X returns; if the cell `(R, C)` is then
valid with value `v`, X is valid with value `v` and `get_value` returns `v`; if
`(R, C)` then has a failure status, so has X, and `get_value` fails. More
generally a failed lookup makes `apply` complain, a complaint is never removed
by the parser, and `evaluate` succeeds only when the parser ends without a
complaint. -/
theorem C17_reference_propagates {V : Type} (N : Arith V) :
    (∀ (σ : State V) (ra ca rx cx : Nat) (R C : List Char) (vr vc : V)
      (msg : Option Plaint),
      IsNumber N R vr → IsNumber N C vc → N.toUnsigned vr = ra → N.toUnsigned vc = ca →
      ra < nrows ∧ ca < ncols → rx < nrows ∧ cx < ncols → ¬ (ra = rx ∧ ca = cx) →
      (σ.cells rx cx).text = '=' :: (R ++ '@' :: C) →
      (σ.cells rx cx).plaint = some .unknown →
      ∃ fuel res σ1,
        (∀ fuel1, fuel ≤ fuel1 → get_value N fuel1 rx cx msg σ = some (res, σ1)) ∧
        ((σ1.cells ra ca).plaint = none →
          (σ1.cells rx cx).plaint = none ∧
          (σ1.cells rx cx).value = (σ1.cells ra ca).value ∧
          res = .ok (σ1.cells ra ca).value) ∧
        (∀ p, (σ1.cells ra ca).plaint = some p →
          (∃ q, (σ1.cells rx cx).plaint = some q) ∧ ∃ q, res = .error q)) ∧
    (∀ (fuel : Nat) (s : Context V) (lhs rhs : V) (σ σ1 : State V) (p : Plaint),
      get_value N fuel (N.toUnsigned lhs) (N.toUnsigned rhs) (some (.lit "")) σ =
        some (.error p, σ1) →
      apply N (fuel + 1) s '@' lhs rhs σ = some (N.zero, complain s p, σ1) ∧
        (complain s p).plaint ≠ none) ∧
    (∀ (fuel : Nat) (s : Context V) (prec : Int) (lhs rhs : V) (rator : Char)
      (σ : State V) (v : V) (s1 : Context V) (σ1 : State V), s.plaint ≠ none →
      (parse_factor N fuel s σ = some (v, s1, σ1) → s1.plaint = s.plaint) ∧
      (apply N fuel s rator lhs rhs σ = some (v, s1, σ1) → s1.plaint = s.plaint) ∧
      (parse_expr N fuel s prec σ = some (v, s1, σ1) → s1.plaint = s.plaint) ∧
      (parse_expr_loop N fuel s prec lhs σ = some (v, s1, σ1) → s1.plaint = s.plaint)) ∧
    (∀ (fuel : Nat) (text : List Char) (r c : Nat) (σ : State V) (v : Option V)
      (σ1 : State V), evaluate N (fuel + 1) text r c σ = some (none, v, σ1) →
      ∃ p v1 s1, find_formula text = some p ∧
        parse_expr N fuel (next N ⟨p, r, c, tok_end, N.zero, none⟩) 0 σ = some (v1, s1, σ1) ∧
        s1.plaint = none) := by
  refine ⟨?_, ?_, ?_, ?_⟩
  · intro σ ra ca rx cx R C vr vc msg hR hC hra hca hA hX hne htext hunk
    obtain ⟨f, ⟨resA, σA⟩, hgA⟩ := get_value_total N
      (σ.set rx cx { σ.cells rx cx with plaint := some .calculating }) ra ca (some (.lit ""))
    have hA1 := hgA f (le_refl _)
    obtain ⟨-, hinA, -⟩ := (invariants N f).2.2.2.2.2.2 _ _ _ _ _ _ hA1
    obtain ⟨-, hresA⟩ := hinA hA
    rw [← hra, ← hca] at hA1
    have hu := update_reference N σ rx cx R C vr vc hR hC hX htext f resA σA hA1
    have hg := get_value_unknown N (f + 6) rx cx msg σ
    cases resA with
    | error p =>
      simp only at hu
      have hg1 := hg _ hX hunk hu
      refine ⟨f + 6 + 1, _, _, fun fuel1 hle => get_value_mono N hg1 hle, ?_, ?_⟩
      · intro hm
        rw [error_cells, State.set_cells_other _ _ _ _ _ _ hne] at hm
        simp [read_cell, hm] at hresA
      · intro q _
        refine ⟨⟨p, by simp [error_cells, State.set_cells_same]⟩, ?_⟩
        simp only [error_cells, State.set_cells_same, read_cell]
        split_ifs
        · exact ⟨_, rfl⟩
        · exact ⟨_, rfl⟩
    | ok v =>
      simp only at hu
      have hg1 := hg _ hX hunk hu
      refine ⟨f + 6 + 1, _, _, fun fuel1 hle => get_value_mono N hg1 hle, ?_, ?_⟩
      · intro hm
        rw [State.set_cells_other _ _ _ _ _ _ hne] at hm ⊢
        have hv : v = (σA.cells ra ca).value := by
          simp only [read_cell, hm] at hresA
          simpa using hresA
        subst hv
        simp [State.set_cells_same, read_cell]
      · intro q hq
        rw [State.set_cells_other _ _ _ _ _ _ hne] at hq
        exfalso
        unfold read_cell at hresA
        rw [hq] at hresA
        split_ifs at hresA
  · intro fuel s lhs rhs σ σ1 p hg
    refine ⟨by simp [apply, hg], ?_⟩
    rw [complain_plaint]
    simp
  · intro fuel s prec lhs rhs rator σ v s1 σ1 hs
    obtain ⟨q, hq⟩ := Option.ne_none_iff_exists'.mp hs
    obtain ⟨hf, ha, he, hl⟩ := kept_all N fuel
    refine ⟨fun h => ?_, fun h => ?_, fun h => ?_, fun h => ?_⟩
    · rw [(hf _ _ _ _ _ h).1.plaint q hq, hq]
    · rw [(ha _ _ _ _ _ _ _ _ h).plaint q hq, hq]
    · rw [(he _ _ _ _ _ _ h).1.plaint q hq, hq]
    · rw [(hl _ _ _ _ _ _ _ h).plaint q hq, hq]
  · intro fuel text r c σ v σ1 h
    rw [evaluate] at h
    cases hff : find_formula text with
    | none => simp [hff] at h
    | some p =>
      rw [hff] at h
      simp only at h
      cases hc : parse_expr N fuel (next N ⟨p, r, c, tok_end, N.zero, none⟩) 0 σ with
      | none => simp [hc] at h
      | some x =>
        obtain ⟨v1, s1, σ2⟩ := x
        rw [hc] at h
        simp only [Option.some.injEq, Prod.mk.injEq] at h
        obtain ⟨hp, -, rfl⟩ := h
        refine ⟨p, v1, s1, rfl, hc, ?_⟩
        split_ifs at hp with ht
        · rw [complain_plaint] at hp
          cases hp
        · exact hp


/-- The theorem of claim C17 with `=7` in cell `(0,0)` and `=0@0` in cell
`(1,0)`: both end valid with the value 7. -/
theorem C17_witness :
    (∃ fuel res σ1,
      (∀ fuel1, fuel ≤ fuel1 →
        get_value fracArith fuel1 1 0 none (grid fracArith [(0, 0, "=7"), (1, 0, "=0@0")]) =
          some (res, σ1)) ∧
      ((σ1.cells 0 0).plaint = none →
        (σ1.cells 1 0).plaint = none ∧ (σ1.cells 1 0).value = (σ1.cells 0 0).value ∧
        res = .ok (σ1.cells 0 0).value) ∧
      (∀ p, (σ1.cells 0 0).plaint = some p →
        (∃ q, (σ1.cells 1 0).plaint = some q) ∧ ∃ q, res = .error q)) ∧
    (get_value fracArith 20 1 0 none (grid fracArith [(0, 0, "=7"), (1, 0, "=0@0")])).map
      (fun res => ((res.2.cells 0 0).plaint, (res.2.cells 0 0).value,
        (res.2.cells 1 0).plaint, (res.2.cells 1 0).value)) =
    some (none, Frac.ofInt 7, none, Frac.ofInt 7) :=
  ⟨(C17_reference_propagates fracArith).1 (grid fracArith [(0, 0, "=7"), (1, 0, "=0@0")])
      0 0 1 0 ['0'] ['0'] (Frac.ofInt 0) (Frac.ofInt 0) none
      (frac_is_number ['0'] (by decide) (by decide))
      (frac_is_number ['0'] (by decide) (by decide)) rfl rfl (by decide) (by decide)
      (by decide) rfl rfl,
    by decide⟩

theorem close_token : ')' ∈ token_chars := by decide

theorem delimited_close (tl : List Char) : Delimited (')' :: tl) := delimited_cons (by decide)

/-- Claim C18: when the parser has read a complete expression of a formula
without a complaint and the current token is not the end, `evaluate` fails with
"Syntax error: unexpected token", as on `=a)` for every number literal `a`; and
whenever `evaluate` succeeds, the parser has ended on the token End with the
whole formula body read. -/
theorem C18_unexpected_token {V : Type} (N : Arith V) :
    (∀ (fuel : Nat) (text p : List Char) (r c : Nat) (σ σ1 : State V) (v : V)
      (s1 : Context V), find_formula text = some p →
      parse_expr N fuel (next N ⟨p, r, c, tok_end, N.zero, none⟩) 0 σ = some (v, s1, σ1) →
      s1.plaint = none → s1.token ≠ tok_end →
      evaluate N (fuel + 1) text r c σ =
        some (some (.lit "Syntax error: unexpected token"), some v, σ1)) ∧
    (∀ (a : List Char) (va : V) (fuel r c : Nat) (σ : State V), IsNumber N a va →
      evaluate N (fuel + 4) ('=' :: (a ++ [')'])) r c σ =
        some (some (.lit "Syntax error: unexpected token"), some va, σ)) ∧
    (∀ (fuel : Nat) (text : List Char) (r c : Nat) (σ σ1 : State V) (v : Option V),
      evaluate N (fuel + 1) text r c σ = some (none, v, σ1) →
      ∃ p v1 s1, find_formula text = some p ∧ v = some v1 ∧
        parse_expr N fuel (next N ⟨p, r, c, tok_end, N.zero, none⟩) 0 σ = some (v1, s1, σ1) ∧
        s1.plaint = none ∧ s1.token = tok_end ∧ s1.p = []) := by
  refine ⟨?_, ?_, ?_⟩
  · intro fuel text p r c σ σ1 v s1 hff hp hpl htok
    rw [evaluate, hff]
    simp only [hp, htok, ne_eq, not_false_eq_true, if_true, complain_plaint, hpl, orelse]
  · intro a va fuel r c σ ha
    have hn := next_number N ha (delimited_close [])
    simp [evaluate, find_formula_eq, parse_expr, parse_factor, parse_expr_loop, hn,
      next_token N close_token, binding, tok_end, complain]
  · intro fuel text r c σ σ1 v h
    rw [evaluate] at h
    cases hff : find_formula text with
    | none => simp [hff] at h
    | some p =>
      rw [hff] at h
      simp only at h
      cases hc : parse_expr N fuel (next N ⟨p, r, c, tok_end, N.zero, none⟩) 0 σ with
      | none => simp [hc] at h
      | some x =>
        obtain ⟨v1, s1, σ2⟩ := x
        rw [hc] at h
        simp only [Option.some.injEq, Prod.mk.injEq] at h
        obtain ⟨hp, rfl, rfl⟩ := h
        have hend := ((kept_all N fuel).2.2.1 _ _ _ _ _ _ hc).2
        by_cases ht : s1.token = tok_end
        · simp only [ht, ne_eq, not_true_eq_false, if_false] at hp
          exact ⟨p, v1, s1, rfl, rfl, hc, hp, ht, hend hp ht⟩
        · simp only [ht, ne_eq, not_false_eq_true, if_true, complain_plaint] at hp
          cases hp

/-- The theorem of claim C18 on `=1 2`, `=1)` and `=2 c`. -/
theorem C18_witness :
    evaluate fracArith (3 + 1) "=1 2".toList 0 0 (setup fracArith) =
      some (some (.lit "Syntax error: unexpected token"), some (Frac.ofInt 1),
        setup fracArith) ∧
    evaluate fracArith (0 + 4) "=1)".toList 0 0 (setup fracArith) =
      some (some (.lit "Syntax error: unexpected token"), some (Frac.ofInt 1),
        setup fracArith) ∧
    evaluate fracArith (3 + 1) "=2 c".toList 0 0 (setup fracArith) =
      some (some (.lit "Syntax error: unexpected token"), some (Frac.ofInt 2),
        setup fracArith) :=
  ⟨(C18_unexpected_token fracArith).1 3 "=1 2".toList "1 2".toList 0 0 (setup fracArith)
      (setup fracArith) (Frac.ofInt 1) ⟨[], 0, 0, '0', Frac.ofInt 2, none⟩ rfl rfl rfl
      (by decide),
    (C18_unexpected_token fracArith).2.1 ['1'] (Frac.ofInt 1) 0 0 0 (setup fracArith)
      (frac_is_number ['1'] (by decide) (by decide)),
    (C18_unexpected_token fracArith).1 3 "=2 c".toList "2 c".toList 0 0 (setup fracArith)
      (setup fracArith) (Frac.ofInt 2) ⟨[], 0, 0, 'c', Frac.ofInt 2, none⟩ rfl rfl rfl
      (by decide)⟩

/-! ## Unary minus: claim C19 -/

theorem minus_token : '-' ∈ token_chars := by decide

/-- The factor `-…-a` with `n + 1` minus signs, the first of which is the
current token: `parse_factor` negates the literal `n + 1` times. -/
theorem parse_factor_minus {V : Type} (N : Arith V) (a : List Char) (va : V)
    (ha : IsNumber N a va) (rest : List Char) (hrest : Delimited rest) (σ : State V)
    (row col k : Nat) (pl : Option Plaint) :
    ∀ (n : Nat) (tv : V),
      parse_factor N (k + n + 2) ⟨List.replicate n '-' ++ (a ++ rest), row, col, '-', tv, pl⟩ σ =
        some (neg_iter N (n + 1) va, next N ⟨rest, row, col, '0', va, pl⟩, σ) := by
  intro n
  induction n with
  | zero =>
    intro tv
    simp [parse_factor, next_number N ha hrest, neg_iter]
  | succ n ih =>
    intro tv
    have e : k + (n + 1) + 2 = (k + n + 2) + 1 := by omega
    rw [e, parse_factor]
    simp only [List.replicate_succ, List.cons_append, next_token N minus_token]
    rw [ih tv]
    simp [neg_iter]

/-- Claim C19: unary minus is read inside `parse_factor` and binds tighter than
every binary operator: `=-a^b` is `(-a)^b`, `=-a*b` is `(-a)*b`, `=-a@b` looks
up the cell `(-a, b)`, and a factor with any number `n + 1` of stacked minus
signs is the literal negated `n + 1` times, as `=--a`, which is `-(-a)` and in
exact arithmetic `a`. -/
theorem C19_unary_minus {V : Type} (N : Arith V) (a b : List Char) (va vb : V)
    (ha : IsNumber N a va) (hb : IsNumber N b vb) (row col : Nat) (σ : State V) :
    (∀ fuel, 9 ≤ fuel →
      evaluate N fuel ('=' :: '-' :: (a ++ '^' :: b)) row col σ =
        some (none, some (N.pow (N.neg va) vb), σ)) ∧
    (∀ fuel, 9 ≤ fuel →
      evaluate N fuel ('=' :: '-' :: (a ++ '*' :: b)) row col σ =
        some (none, some (N.mul (N.neg va) vb), σ)) ∧
    (∀ (fuel : Nat) (res : Except Plaint V) (σ1 : State V),
      get_value N fuel (N.toUnsigned (N.neg va)) (N.toUnsigned vb) (some (.lit "")) σ =
        some (res, σ1) →
      evaluate N (fuel + 9) ('=' :: '-' :: (a ++ '@' :: b)) row col σ =
        match res with
        | .error p => some (some p, some N.zero, σ1)
        | .ok v => some (none, some v, σ1)) ∧
    (∀ n fuel, n + 5 ≤ fuel →
      evaluate N fuel ('=' :: (List.replicate (n + 1) '-' ++ a)) row col σ =
        some (none, some (neg_iter N (n + 1) va), σ)) ∧
    (∀ fuel, 6 ≤ fuel →
      evaluate N fuel ('=' :: '-' :: '-' :: a) row col σ =
        some (none, some (N.neg (N.neg va)), σ)) ∧
    (∀ (ds : List Char) (τ : State Frac) (fuel : Nat), ds ≠ [] →
      (∀ ch ∈ ds, isdigit ch = true) → 6 ≤ fuel →
      evaluate fracArith fuel ('=' :: '-' :: '-' :: ds) row col τ =
        some (none, some (Frac.ofInt (digits_value 0 ds)), τ)) := by
  have dp : ∀ tl, Delimited ('^' :: tl) := fun tl => delimited_cons (by decide)
  have dm : ∀ tl, Delimited ('*' :: tl) := fun tl => delimited_cons (by decide)
  have tp : '^' ∈ token_chars := by decide
  have tm : '*' ∈ token_chars := by decide
  have stacked : ∀ {W : Type} (M : Arith W) (x : List Char) (vx : W), IsNumber M x vx →
      ∀ (τ : State W) (n k : Nat),
      evaluate M (k + n + 5) ('=' :: (List.replicate (n + 1) '-' ++ x)) row col τ =
        some (none, some (neg_iter M (n + 1) vx), τ) := by
    intro W M x vx hx τ n k
    have hf := parse_factor_minus M x vx hx [] delimited_nil τ row col k none n M.zero
    simp only [List.append_nil] at hf
    have e : k + n + 5 = (k + n + 2) + 1 + 1 + 1 := by omega
    rw [e, evaluate, find_formula_eq]
    simp only [List.replicate_succ, List.cons_append, next_token M minus_token]
    rw [parse_expr, parse_factor_mono M hf (Nat.le_succ _)]
    simp [parse_expr_loop, next_end, binding, tok_end]
  refine ⟨?_, ?_, ?_, ?_, ?_, ?_⟩
  · intro fuel hf
    obtain ⟨k, rfl⟩ := Nat.exists_eq_add_of_le hf
    rw [Nat.add_comm]
    simp [evaluate, find_formula_eq, parse_expr, parse_factor, parse_expr_loop, apply,
      next_number N ha (dp _), next_number_end N hb, next_token N minus_token,
      next_token N tp, next_end, binding, tok_end]
  · intro fuel hf
    obtain ⟨k, rfl⟩ := Nat.exists_eq_add_of_le hf
    rw [Nat.add_comm]
    simp [evaluate, find_formula_eq, parse_expr, parse_factor, parse_expr_loop, apply,
      next_number N ha (dm _), next_number_end N hb, next_token N minus_token,
      next_token N tm, next_end, binding, tok_end]
  · intro fuel res σ1 hg
    have g5 := get_value_mono N hg (Nat.le_add_right fuel 5)
    cases res with
    | error p =>
      simp [evaluate, find_formula_eq, parse_expr, parse_factor, parse_expr_loop, apply,
        next_number N ha (delimited_at _), next_number_end N hb, next_token N minus_token,
        next_token N at_token, next_end, binding, tok_end, g5, complain]
    | ok v =>
      simp [evaluate, find_formula_eq, parse_expr, parse_factor, parse_expr_loop, apply,
        next_number N ha (delimited_at _), next_number_end N hb, next_token N minus_token,
        next_token N at_token, next_end, binding, tok_end, g5, complain]
  · intro n fuel hf
    obtain ⟨k, rfl⟩ := Nat.exists_eq_add_of_le hf
    have e : n + 5 + k = k + n + 5 := by omega
    rw [e]
    exact stacked N a va ha σ n k
  · intro fuel hf
    obtain ⟨k, rfl⟩ := Nat.exists_eq_add_of_le hf
    have e : 6 + k = k + 1 + 5 := by omega
    rw [e]
    exact stacked N a va ha σ 1 k
  · intro ds τ fuel hne hall hf
    obtain ⟨k, rfl⟩ := Nat.exists_eq_add_of_le hf
    have e : 6 + k = k + 1 + 5 := by omega
    rw [e]
    have := stacked fracArith ds _ (frac_is_number ds hne hall) τ 1 k
    simp only [List.replicate_succ, List.replicate_zero, List.cons_append,
      List.nil_append] at this
    rw [this]
    simp [neg_iter, fracArith, Frac.neg, Frac.ofInt]

/-- The theorem of claim C19 on `=-2^2`, which gives 4, on `=-2*3`, which gives
-6, and on `=--5`, which gives 5. -/
theorem C19_witness :
    evaluate fracArith 9 "=-2^2".toList 0 0 (setup fracArith) =
      some (none, some (Frac.ofInt 4), setup fracArith) ∧
    evaluate fracArith 9 "=-2*3".toList 0 0 (setup fracArith) =
      some (none, some (Frac.ofInt (-6)), setup fracArith) ∧
    evaluate fracArith 6 "=--5".toList 0 0 (setup fracArith) =
      some (none, some (Frac.ofInt 5), setup fracArith) :=
  ⟨(C19_unary_minus fracArith ['2'] ['2'] (Frac.ofInt 2) (Frac.ofInt 2)
      (frac_is_number ['2'] (by decide) (by decide))
      (frac_is_number ['2'] (by decide) (by decide)) 0 0 (setup fracArith)).1 9
      (Nat.le_refl 9),
    (C19_unary_minus fracArith ['2'] ['3'] (Frac.ofInt 2) (Frac.ofInt 3)
      (frac_is_number ['2'] (by decide) (by decide))
      (frac_is_number ['3'] (by decide) (by decide)) 0 0 (setup fracArith)).2.1 9
      (Nat.le_refl 9),
    (C19_unary_minus fracArith ['5'] ['5'] (Frac.ofInt 5) (Frac.ofInt 5)
      (frac_is_number ['5'] (by decide) (by decide))
      (frac_is_number ['5'] (by decide) (by decide)) 0 0 (setup fracArith)).2.2.2.2.1 6
      (Nat.le_refl 6)⟩

/-! ## A lexical error with a pending operator: claim C13 -/

theorem next_bad {V : Type} (N : Arith V) {ch : Char} (h1 : isspace ch = false)
    (h2 : isdigit ch = false) (h3 : ch ∉ token_chars) (rest : List Char) (row col : Nat)
    (tok : Char) (tv : V) :
    next N ⟨ch :: rest, row, col, tok, tv, none⟩ =
      ⟨[], row, col, tok_end, tv, some (.lit "Syntax error: unknown token type")⟩ := by
  simp [next, h1, h2, h3, complain]

/-- The evaluation of `=R@` followed by a character outside the token set: the
pending `@` is applied after the complaint, to `R` and 0. -/
theorem evaluate_pending_reference {V : Type} (N : Arith V) (R : List Char) (vr : V)
    (hR : IsNumber N R vr) {bad : Char} (h1 : isspace bad = false)
    (h2 : isdigit bad = false) (h3 : bad ∉ token_chars) (rest : List Char)
    (row col : Nat) (σ : State V) (fuel : Nat) :
    evaluate N (fuel + 4) ('=' :: (R ++ '@' :: bad :: rest)) row col σ =
      (get_value N fuel (N.toUnsigned vr) (N.toUnsigned N.zero) (some (.lit "")) σ).map
        (fun x => (some (.lit "Syntax error: unknown token type"),
          some (match x.1 with
            | .ok v => v
            | .error _ => N.zero), x.2)) := by
  cases fuel with
  | zero =>
    simp [evaluate, find_formula_eq, parse_expr, parse_factor, parse_expr_loop, apply,
      next_number N hR (delimited_at _), next_token N at_token, next_bad N h1 h2 h3,
      binding, get_value]
  | succ k =>
    cases hg : get_value N (k + 1) (N.toUnsigned vr) (N.toUnsigned N.zero) (some (.lit "")) σ with
    | none =>
      simp [evaluate, find_formula_eq, parse_expr, parse_factor, parse_expr_loop, apply,
        next_number N hR (delimited_at _), next_token N at_token, next_bad N h1 h2 h3,
        next_end, binding, tok_end, complain, hg]
    | some x =>
      obtain ⟨res, σ1⟩ := x
      cases res <;>
      simp [evaluate, find_formula_eq, parse_expr, parse_factor, parse_expr_loop, apply,
        next_number N hR (delimited_at _), next_token N at_token, next_bad N h1 h2 h3,
        next_end, binding, tok_end, complain, hg]

/-- Claim C13, as the code has it: a character outside the token set makes `next`
complain "Syntax error: unknown token type", skip the rest of the input and
return End; from then on every read returns End, nothing more is read and
the complaint stays. But the operators already read are still applied: on
`=R@` followed by such a character, `evaluate` still calls `get_value(R, 0, "")`
and leaves the state that this call leaves, so the cell `(R, 0)` is recomputed
if it was unknown. -/
theorem C13_lexical_error {V : Type} (N : Arith V) :
    (∀ (ch : Char) (rest : List Char) (row col : Nat) (tok : Char) (tv : V),
      isspace ch = false → isdigit ch = false → ch ∉ token_chars →
      next N ⟨ch :: rest, row, col, tok, tv, none⟩ =
        ⟨[], row, col, tok_end, tv, some (.lit "Syntax error: unknown token type")⟩) ∧
    (∀ s : Context V, s.p = [] → next N s = { s with p := [], token := tok_end }) ∧
    (∀ (fuel : Nat) (s : Context V) (prec : Int) (σ : State V) (v : V) (s1 : Context V)
      (σ1 : State V), s.p = [] → s.plaint ≠ none →
      parse_expr N fuel s prec σ = some (v, s1, σ1) → s1.p = [] ∧ s1.plaint = s.plaint) ∧
    (∀ (R : List Char) (vr : V) (bad : Char) (rest : List Char) (row col : Nat)
      (σ : State V) (fuel : Nat), IsNumber N R vr →
      isspace bad = false → isdigit bad = false → bad ∉ token_chars →
      evaluate N (fuel + 4) ('=' :: (R ++ '@' :: bad :: rest)) row col σ =
        (get_value N fuel (N.toUnsigned vr) (N.toUnsigned N.zero) (some (.lit "")) σ).map
          (fun x => (some (.lit "Syntax error: unknown token type"),
            some (match x.1 with
              | .ok v => v
              | .error _ => N.zero), x.2))) := by
  refine ⟨?_, ?_, ?_, ?_⟩
  · intro ch rest row col tok tv h1 h2 h3
    exact next_bad N h1 h2 h3 rest row col tok tv
  · intro s hs
    exact next_p_nil N s hs
  · intro fuel s prec σ v s1 σ1 hp hpl h
    obtain ⟨q, hq⟩ := Option.ne_none_iff_exists'.mp hpl
    have hk := ((kept_all N fuel).2.2.1 _ _ _ _ _ _ h).1
    exact ⟨hk.truncated hp, by rw [hk.plaint q hq, hq]⟩
  · intro R vr bad rest row col σ fuel hR h1 h2 h3
    exact evaluate_pending_reference N R vr hR h1 h2 h3 rest row col σ fuel

/-- Claim C13 fails as stated: with `=5@#` in cell `(0,0)` and `=1` in the
unknown cell `(5,0)`, evaluating `(0,0)` ends with the lexical error and has
recomputed cell `(5,0)`, which is valid afterwards. -/
theorem C13_counterexample :
    (get_value fracArith 20 0 0 none (grid fracArith [(0, 0, "=5@#"), (5, 0, "=1")])).map
      (fun res => ((res.2.cells 0 0).plaint, (res.2.cells 5 0).plaint,
        decide ((res.2.cells 5 0).plaint = some Plaint.unknown))) =
      some (some (.lit "Syntax error: unknown token type"), none, false) ∧
    ((grid fracArith [(0, 0, "=5@#"), (5, 0, "=1")]).cells 5 0).plaint =
      some Plaint.unknown := by
  decide

/-- The theorem of claim C13 at the character `#` and on the formula `=5@#`. -/
theorem C13_witness :
    next fracArith ⟨['#'], 0, 0, '@', Frac.ofInt 5, none⟩ =
      ⟨[], 0, 0, tok_end, Frac.ofInt 5, some (.lit "Syntax error: unknown token type")⟩ ∧
    evaluate fracArith (16 + 4) "=5@#".toList 0 0
        (grid fracArith [(0, 0, "=5@#"), (5, 0, "=1")]) =
      (get_value fracArith 16 (fracArith.toUnsigned (Frac.ofInt 5))
          (fracArith.toUnsigned fracArith.zero) (some (.lit ""))
          (grid fracArith [(0, 0, "=5@#"), (5, 0, "=1")])).map
        (fun x => (some (.lit "Syntax error: unknown token type"),
          some (match x.1 with
            | .ok v => v
            | .error _ => fracArith.zero), x.2)) :=
  ⟨(C13_lexical_error fracArith).1 '#' [] 0 0 '@' (Frac.ofInt 5) (by decide) (by decide)
      (by decide),
    (C13_lexical_error fracArith).2.2.2 ['5'] (Frac.ofInt 5) '#' [] 0 0
      (grid fracArith [(0, 0, "=5@#"), (5, 0, "=1")]) 16
      (frac_is_number ['5'] (by decide) (by decide)) (by decide) (by decide) (by decide)⟩

/-! ## Texts without a formula: claim C11 -/

theorem find_formula_prefix (ws t : List Char) (h : ∀ ch ∈ ws, ch = ' ' ∨ ch = '\t') :
    find_formula (ws ++ '=' :: t) = some t := by
  induction ws with
  | nil => exact find_formula_eq t
  | cons a ws ih =>
    have ha : (a == ' ' || a == '\t') = true := by
      rcases h a (by simp) with rfl | rfl <;> decide
    have := ih (fun ch hch => h ch (by simp [hch]))
    unfold find_formula at this ⊢
    simpa [List.dropWhile_cons, ha] using this

theorem find_formula_some {text t : List Char} (h : find_formula text = some t) :
    ∃ ws, text = ws ++ '=' :: t ∧ ∀ ch ∈ ws, ch = ' ' ∨ ch = '\t' := by
  induction text with
  | nil => simp [find_formula] at h
  | cons a tl ih =>
    by_cases ha : (a == ' ' || a == '\t') = true
    · have h2 : find_formula tl = some t := by
        unfold find_formula at h ⊢
        simpa [List.dropWhile_cons, ha] using h
      obtain ⟨ws, e, hws⟩ := ih h2
      refine ⟨a :: ws, by rw [e]; rfl, ?_⟩
      intro ch hch
      rcases List.mem_cons.mp hch with rfl | hch
      · simpa using ha
      · exact hws ch hch
    · refine ⟨[], ?_, by simp⟩
      unfold find_formula at h
      simp only [List.dropWhile_cons, ha] at h
      split at h
      · rename_i t2 heq
        simp only [Bool.false_eq_true, if_false, List.cons.injEq] at heq
        simp only [Option.some.injEq] at h
        rw [List.nil_append, heq.1, heq.2, h]
      · cases h

theorem find_formula_none {text : List Char} (h : ¬ HasFormulaPrefix text) :
    find_formula text = none := by
  cases hf : find_formula text with
  | none => rfl
  | some t =>
    obtain ⟨ws, e, hws⟩ := find_formula_some hf
    exact absurd ⟨ws, t, e, hws⟩ h

/-- What `get_value` does on an unknown cell of the grid whose text has no
formula prefix. -/
theorem get_value_no_formula {V : Type} (N : Arith V) (σ : State V) (r c : Nat)
    (hin : r < nrows ∧ c < ncols) (hno : ¬ HasFormulaPrefix (σ.cells r c).text)
    (hunk : (σ.cells r c).plaint = some .unknown) (msg : Option Plaint) (fuel : Nat) :
    get_value N (fuel + 3) r c msg σ =
      some (.error (orelse msg (.lit "No formula")),
        error (.lit "No formula")
          (σ.set r c { σ.cells r c with plaint := some (.lit "No formula") })) := by
  have hnot : ¬ ¬ (r < nrows ∧ c < ncols) := not_not.mpr hin
  have hff : find_formula (σ.cells r c).text = none := find_formula_none hno
  have hu : update N (fuel + 2) r c σ = some (error (.lit "No formula")
      (σ.set r c { σ.cells r c with plaint := some (.lit "No formula") })) := by
    rw [update]
    simp only [hnot, if_false, State.set_cells_same, evaluate, hff]
    congr 2
    simp only [State.set]
    congr 1
    funext r1 c1
    by_cases h : r1 = r ∧ c1 = c <;> simp [h]
  rw [get_value_unknown N (fuel + 2) r c msg σ _ hin hunk hu]
  simp [read_cell, error_cells, State.set_cells_same]

theorem evaluate_not_no_formula {V : Type} (N : Arith V) (text : List Char)
    (h : HasFormulaPrefix text) (fuel r c : Nat) (σ : State V)
    (res : Option Plaint × Option V × State V) (he : evaluate N fuel text r c σ = some res) :
    res.1 ≠ some (.lit "No formula") := by
  obtain ⟨ws, t, rfl, hws⟩ := h
  cases fuel with
  | zero => simp [evaluate] at he
  | succ n =>
    rw [evaluate, find_formula_prefix ws t hws] at he
    simp only at he
    cases hc : parse_expr N n (next N ⟨t, r, c, tok_end, N.zero, none⟩) 0 σ with
    | none => simp [hc] at he
    | some x =>
      obtain ⟨v1, s1, σ1⟩ := x
      rw [hc] at he
      simp only [Option.some.injEq] at he
      subst he
      have hk := (next_kept N ⟨t, r, c, tok_end, N.zero, none⟩).chain
        ((kept_all N n).2.2.1 _ _ _ _ _ _ hc).1
      have hsrc : s1.plaint = none ∨ ∃ q ∈ parser_complaints, s1.plaint = some q := hk.source
      simp only
      split_ifs
      · rw [complain_plaint]
        rcases hsrc with h1 | ⟨q, hq, h1⟩
        · rw [h1]
          simp [orelse]
        · rw [h1]
          simp only [orelse, ne_eq, Option.some.injEq]
          rintro rfl
          revert hq
          decide
      · rcases hsrc with h1 | ⟨q, hq, h1⟩
        · rw [h1]
          simp
        · rw [h1]
          simp only [ne_eq, Option.some.injEq]
          rintro rfl
          revert hq
          decide

/-- Claim C11, as the code has it: a text is a formula exactly when it begins
with `=` after leading blanks and tabs. For every other text (as `hello` or the
empty text) `evaluate` fails with "No formula", stores no result and leaves the
state as it is; `get_value` on such an unknown cell of the grid leaves it with
the error status "No formula"; a formula `=R@C` in another cell that refers to
it fails, with the empty message. For every text with the prefix `evaluate`
never returns "No formula". -/
theorem C11_no_formula {V : Type} (N : Arith V) :
    (∀ (text : List Char) (fuel r c : Nat) (σ : State V), ¬ HasFormulaPrefix text →
      evaluate N (fuel + 1) text r c σ = some (some (.lit "No formula"), none, σ)) ∧
    (∀ (text : List Char) (fuel r c : Nat) (σ : State V)
      (res : Option Plaint × Option V × State V), HasFormulaPrefix text →
      evaluate N fuel text r c σ = some res → res.1 ≠ some (.lit "No formula")) ∧
    (∀ (σ : State V) (r c : Nat) (msg : Option Plaint), r < nrows ∧ c < ncols →
      ¬ HasFormulaPrefix (σ.cells r c).text → (σ.cells r c).plaint = some .unknown →
      ∃ σ1, (∀ fuel, 3 ≤ fuel → get_value N fuel r c msg σ =
          some (.error (orelse msg (.lit "No formula")), σ1)) ∧
        (σ1.cells r c).plaint = some (.lit "No formula") ∧
        (σ1.cells r c).value = (σ.cells r c).value) ∧
    (∀ (σ : State V) (ra ca rb cb : Nat) (R C : List Char) (vr vc : V)
      (msg : Option Plaint),
      IsNumber N R vr → IsNumber N C vc → N.toUnsigned vr = ra → N.toUnsigned vc = ca →
      ra < nrows ∧ ca < ncols → rb < nrows ∧ cb < ncols → ¬ (ra = rb ∧ ca = cb) →
      ¬ HasFormulaPrefix (σ.cells ra ca).text →
      (σ.cells ra ca).plaint = some .unknown ∨
        (σ.cells ra ca).plaint = some (.lit "No formula") →
      (σ.cells rb cb).text = '=' :: (R ++ '@' :: C) →
      (σ.cells rb cb).plaint = some .unknown →
      ∃ σ1, (∀ fuel, 10 ≤ fuel → get_value N fuel rb cb msg σ =
          some (.error (orelse msg (.lit "")), σ1)) ∧
        (σ1.cells rb cb).plaint = some (.lit "") ∧
        (σ1.cells ra ca).plaint = some (.lit "No formula")) := by
  refine ⟨?_, ?_, ?_, ?_⟩
  · intro text fuel r c σ hno
    rw [evaluate, find_formula_none hno]
  · intro text fuel r c σ res h he
    exact evaluate_not_no_formula N text h fuel r c σ res he
  · intro σ r c msg hin hno hunk
    have h3 := get_value_no_formula N σ r c hin hno hunk msg 0
    exact ⟨_, fun fuel hf => get_value_mono N h3 hf,
      by simp [error_cells, State.set_cells_same],
      by simp [error_cells, State.set_cells_same]⟩
  · intro σ ra ca rb cb R C vr vc msg hR hC hra hca hA hB hne hno hAst htext hunk
    have hne2 : ¬ (rb = ra ∧ cb = ca) := fun h => hne ⟨h.1.symm, h.2.symm⟩
    have hcell : (σ.set rb cb { σ.cells rb cb with plaint := some .calculating }).cells ra ca =
        σ.cells ra ca := State.set_cells_other _ _ _ _ _ _ hne
    have key : ∃ σA, get_value N 3 ra ca (some (.lit ""))
          (σ.set rb cb { σ.cells rb cb with plaint := some .calculating }) =
          some (.error (.lit ""), σA) ∧
        (σA.cells ra ca).plaint = some (.lit "No formula") := by
      rcases hAst with hu | hs
      · refine ⟨_, get_value_no_formula N _ ra ca hA (by rw [hcell]; exact hno)
          (by rw [hcell]; exact hu) (some (.lit "")) 0, ?_⟩
        simp [error_cells, State.set_cells_same]
      · have h1 := get_value_settled N 0 ra ca (some (.lit ""))
          (σ.set rb cb { σ.cells rb cb with plaint := some .calculating }) hA
          (by rw [hcell, hs]; simp)
        have h2 : read_cell (some (.lit ""))
            ((σ.set rb cb { σ.cells rb cb with plaint := some .calculating }).cells ra ca) =
            (.error (.lit "") : Except Plaint V) := by
          simp [read_cell, hcell, hs, orelse]
        rw [h2] at h1
        exact ⟨_, get_value_mono N h1 (by omega), by rw [hcell]; exact hs⟩
    obtain ⟨σA, hg, hpA⟩ := key
    rw [← hra, ← hca] at hg
    have hu := update_reference N σ rb cb R C vr vc hR hC hB htext 3 _ σA hg
    simp only at hu
    have hg1 := get_value_unknown N (3 + 6) rb cb msg σ _ hB hunk hu
    have hrc : read_cell msg ((error (.lit "")
        (σA.set rb cb { σA.cells rb cb with plaint := some (.lit ""), value := N.zero })).cells
        rb cb) = .error (orelse msg (.lit "")) := by
      simp [read_cell, error_cells, State.set_cells_same]
    rw [hrc] at hg1
    exact ⟨_, fun fuel hf => get_value_mono N hg1 hf,
      by simp [error_cells, State.set_cells_same],
      by rw [error_cells, State.set_cells_other _ _ _ _ _ _ hne]; exact hpA⟩

/-- Claim C11 fails as stated for whitespace other than blanks and tabs: the
text of a newline followed by `=1` begins with `=` after its leading whitespace,
and `evaluate` returns "No formula" for it. -/
theorem C11_counterexample :
    (spec_is_formula "\n=1".toList,
      (evaluate fracArith 20 "\n=1".toList 0 0 (setup fracArith)).map
        (fun res => (res.1, res.2.1))) =
    (true, some (some (.lit "No formula"), none)) := by
  decide

theorem hello_no_prefix : ¬ HasFormulaPrefix "hello".toList := by
  rintro ⟨ws, t, e, hws⟩
  have h := find_formula_prefix ws t hws
  rw [← e] at h
  have h0 : find_formula "hello".toList = none := by decide
  rw [h0] at h
  cases h

theorem empty_no_prefix : ¬ HasFormulaPrefix [] := by
  rintro ⟨ws, t, e, hws⟩
  have h := find_formula_prefix ws t hws
  rw [← e] at h
  have h0 : find_formula [] = none := by decide
  rw [h0] at h
  cases h

/-- The theorem of claim C11 on the texts `hello` and the empty text, on the
result of `evaluate` for `=1`, and with `hello` in cell `(0,0)` and `=0@0` in cell `(1,0)`. -/
theorem C11_witness :
    evaluate fracArith (0 + 1) "hello".toList 0 0 (setup fracArith) =
      some (some (.lit "No formula"), none, setup fracArith) ∧
    evaluate fracArith (0 + 1) [] 0 0 (setup fracArith) =
      some (some (.lit "No formula"), none, setup fracArith) ∧
    ((none : Option Plaint), some (Frac.ofInt 1), setup fracArith).1 ≠
      some (.lit "No formula") ∧
    (∃ σ1, (∀ fuel, 10 ≤ fuel →
        get_value fracArith fuel 1 0 none (grid fracArith [(0, 0, "hello"), (1, 0, "=0@0")]) =
          some (.error (orelse none (.lit "")), σ1)) ∧
      (σ1.cells 1 0).plaint = some (.lit "") ∧
      (σ1.cells 0 0).plaint = some (.lit "No formula")) :=
  ⟨(C11_no_formula fracArith).1 "hello".toList 0 0 0 (setup fracArith) hello_no_prefix,
    (C11_no_formula fracArith).1 [] 0 0 0 (setup fracArith) empty_no_prefix,
    (C11_no_formula fracArith).2.1 "=1".toList 5 0 0 (setup fracArith)
      (none, some (Frac.ofInt 1), setup fracArith) ⟨[], ['1'], rfl, by simp⟩ rfl,
    (C11_no_formula fracArith).2.2.2 (grid fracArith [(0, 0, "hello"), (1, 0, "=0@0")])
      0 0 1 0 ['0'] ['0'] (Frac.ofInt 0) (Frac.ofInt 0) none
      (frac_is_number ['0'] (by decide) (by decide))
      (frac_is_number ['0'] (by decide) (by decide)) rfl rfl (by decide) (by decide)
      (by decide) hello_no_prefix (Or.inl rfl) rfl rfl⟩

/-! ## The trace of a run, the latch and evaluation at most once: claims C12 and C16 -/

theorem erasure {V : Type} (N : Arith V) : ∀ fuel, Erasure N fuel := by
  intro fuel
  induction fuel with
  | zero =>
    refine ⟨?_, ?_, ?_, ?_, ?_, ?_, ?_⟩ <;> intros <;>
      simp [parse_factor, apply, parse_expr, parse_expr_loop, evaluate, update, get_value,
        parse_factor_traced, apply_traced, parse_expr_traced, parse_expr_loop_traced,
        evaluate_traced, update_traced, get_value_traced]
  | succ n ih =>
    obtain ⟨hf, ha, he, hl, hv, hu, hg⟩ := ih
    refine ⟨?_, ?_, ?_, ?_, ?_, ?_, ?_⟩
    · intro s σ
      rw [parse_factor, parse_factor_traced, hf, he]
      split_ifs
      · rfl
      · cases parse_factor_traced N n (next N s) σ <;> rfl
      · rfl
      · rfl
      · cases parse_expr_traced N n (next N s) 0 σ <;> rfl
      · rfl
    · intro s rator lhs rhs σ
      rw [apply, apply_traced, hg]
      split_ifs
      all_goals first
        | rfl
        | (cases h : get_value_traced N n (N.toUnsigned lhs) (N.toUnsigned rhs)
              (some (.lit "")) σ with
           | none => rfl
           | some x =>
             obtain ⟨res, σ1, l⟩ := x
             cases res <;> rfl)
    · intro s prec σ
      rw [parse_expr, parse_expr_traced, hf]
      cases parse_factor_traced N n s σ with
      | none => rfl
      | some x =>
        obtain ⟨lhs, s1, σ1, l1⟩ := x
        simp only [Option.map_some']
        rw [hl]
        cases parse_expr_loop_traced N n s1 prec lhs σ1 <;> rfl
    · intro s prec lhs σ
      rw [parse_expr_loop, parse_expr_loop_traced]
      cases binding s.token with
      | none => rfl
      | some lr =>
        obtain ⟨lp, rp⟩ := lr
        simp only
        split_ifs
        · rfl
        · rw [he]
          cases parse_expr_traced N n (next N s) rp σ with
          | none => rfl
          | some x =>
            obtain ⟨rhs, s1, σ1, l1⟩ := x
            simp only [Option.map_some']
            rw [ha]
            cases apply_traced N n s1 s.token lhs rhs σ1 with
            | none => rfl
            | some y =>
              obtain ⟨v, s2, σ2, l2⟩ := y
              simp only [Option.map_some']
              rw [hl]
              cases parse_expr_loop_traced N n s2 prec v σ2 <;> rfl
    · intro e r c σ
      rw [evaluate, evaluate_traced]
      cases find_formula e with
      | none => rfl
      | some p =>
        simp only
        rw [he]
        cases parse_expr_traced N n (next N ⟨p, r, c, tok_end, N.zero, none⟩) 0 σ <;> rfl
    · intro r c σ
      rw [update, update_traced]
      split_ifs
      · dsimp only
        rw [hv]
        generalize evaluate_traced N n _ r c _ = E
        cases E with
        | none => rfl
        | some x =>
          obtain ⟨p, v, σ1, l⟩ := x
          cases p <;> rfl
      · rfl
    · intro r c d σ
      rw [get_value, get_value_traced]
      split_ifs with h1 h2
      · rfl
      · rw [hu]
        cases update_traced N n r c σ with
        | none => rfl
        | some x =>
          obtain ⟨σ1, l⟩ := x
          simp only [Option.map_some']
          split_ifs
          · rfl
          · cases (σ1.cells r c).plaint <;> rfl
      · simp only
        split_ifs
        · rfl
        · cases (σ.cells r c).plaint <;> rfl

theorem entered_cells_append (l1 l2 : List Event) :
    entered_cells (l1 ++ l2) = entered_cells l1 ++ entered_cells l2 := by
  induction l1 with
  | nil => rfl
  | cons e l ih =>
    cases e with
    | entered r c => simp [entered_cells, ih]
    | left r c p => simp [entered_cells, ih]

theorem first_failure_append (l1 l2 : List Event) :
    first_failure (l1 ++ l2) =
      match first_failure l1 with
      | some p => some p
      | none => first_failure l2 := by
  induction l1 with
  | nil => rfl
  | cons e l ih =>
    cases e with
    | entered r c => simpa [first_failure] using ih
    | left r c p =>
      cases p with
      | none => simpa [first_failure] using ih
      | some p => simp [first_failure]

theorem latched_append (b : Option Plaint) (l1 l2 : List Event) :
    latched (latched b l1) l2 = latched b (l1 ++ l2) := by
  cases b with
  | some m => rfl
  | none =>
    simp only [latched, first_failure_append]

theorem Traced.nil {V : Type} (σ : State V) : Traced σ [] σ :=
  ⟨Later.refl σ, fun _ h => by simp [entered_cells] at h,
    fun _ h => by simp [entered_cells] at h, by simp [entered_cells],
    by cases h : σ.the_plaint <;> simp [latched, first_failure]⟩

theorem Traced.append {V : Type} {σ σ1 σ2 : State V} {l1 l2 : List Event}
    (h1 : Traced σ l1 σ1) (h2 : Traced σ1 l2 σ2) : Traced σ (l1 ++ l2) σ2 := by
  refine ⟨h1.later.trans h2.later, ?_, ?_, ?_, ?_⟩
  · intro rc h
    rw [entered_cells_append, List.mem_append] at h
    rcases h with h | h
    · exact h1.before rc h
    · exact h1.later.unknown _ _ (h2.before rc h)
  · intro rc h
    rw [entered_cells_append, List.mem_append] at h
    rcases h with h | h
    · have := h1.after rc h
      rw [h2.later.settled _ _ this]
      exact this
    · exact h2.after rc h
  · rw [entered_cells_append, List.nodup_append]
    refine ⟨h1.nodup, h2.nodup, ?_⟩
    intro rc ha hb
    exact h1.after rc ha (h2.before rc hb)
  · rw [h2.latch, h1.latch, latched_append]

theorem erased_get_value {V : Type} (N : Arith V) {fuel r c : Nat} {d : Option Plaint}
    {σ σ1 : State V} {res : Except Plaint V} {l : List Event}
    (h : get_value_traced N fuel r c d σ = some (res, σ1, l)) :
    get_value N fuel r c d σ = some (res, σ1) := by
  rw [(erasure N fuel).2.2.2.2.2.2, h]
  rfl

theorem erased_update {V : Type} (N : Arith V) {fuel r c : Nat}
    {σ σ1 : State V} {l : List Event}
    (h : update_traced N fuel r c σ = some (σ1, l)) :
    update N fuel r c σ = some σ1 := by
  rw [(erasure N fuel).2.2.2.2.2.1, h]
  rfl

theorem traced_all {V : Type} (N : Arith V) : ∀ fuel, TracedAll N fuel := by
  intro fuel
  induction fuel with
  | zero =>
    refine ⟨?_, ?_, ?_, ?_, ?_, ?_, ?_⟩ <;> intros <;>
      simp_all [parse_factor_traced, apply_traced, parse_expr_traced, parse_expr_loop_traced,
        evaluate_traced, update_traced, get_value_traced]
  | succ n ih =>
    obtain ⟨hf, ha, he, hl, hv, hu, hg⟩ := ih
    refine ⟨?_, ?_, ?_, ?_, ?_, ?_, ?_⟩
    · intro s σ v s1 σ1 l h
      rw [parse_factor_traced] at h
      split_ifs at h
      · cases h; exact Traced.nil _
      · cases hc : parse_factor_traced N n (next N s) σ with
        | none => simp [hc] at h
        | some x =>
          obtain ⟨v1, s2, σ2, l2⟩ := x
          simp only [hc, Option.some.injEq, Prod.mk.injEq] at h
          obtain ⟨-, -, rfl, rfl⟩ := h
          exact hf _ _ _ _ _ _ hc
      · cases h; exact Traced.nil _
      · cases h; exact Traced.nil _
      · cases hc : parse_expr_traced N n (next N s) 0 σ with
        | none => simp [hc] at h
        | some x =>
          obtain ⟨v1, s2, σ2, l2⟩ := x
          simp only [hc, Option.some.injEq, Prod.mk.injEq] at h
          obtain ⟨-, -, rfl, rfl⟩ := h
          exact he _ _ _ _ _ _ _ hc
      · cases h; exact Traced.nil _
    · intro s rator lhs rhs σ v s1 σ1 l h
      rw [apply_traced] at h
      split_ifs at h
      all_goals first
        | (cases h; exact Traced.nil _)
        | (cases hc : get_value_traced N n (N.toUnsigned lhs) (N.toUnsigned rhs)
              (some (.lit "")) σ with
           | none => simp [hc] at h
           | some x =>
             obtain ⟨res, σ2, l2⟩ := x
             have t := hg _ _ _ _ _ _ _ hc
             cases res <;>
               (simp only [hc, Option.some.injEq, Prod.mk.injEq] at h
                obtain ⟨-, -, rfl, rfl⟩ := h
                exact t))
    · intro s prec σ v s1 σ1 l h
      rw [parse_expr_traced] at h
      cases hc : parse_factor_traced N n s σ with
      | none => simp [hc] at h
      | some x =>
        obtain ⟨lhs, s2, σ2, l2⟩ := x
        simp only [hc] at h
        cases hd : parse_expr_loop_traced N n s2 prec lhs σ2 with
        | none => simp [hd] at h
        | some y =>
          obtain ⟨v3, s3, σ3, l3⟩ := y
          simp only [hd, Option.some.injEq, Prod.mk.injEq] at h
          obtain ⟨-, -, rfl, rfl⟩ := h
          exact (hf _ _ _ _ _ _ hc).append (hl _ _ _ _ _ _ _ _ hd)
    · intro s prec lhs σ v s1 σ1 l h
      rw [parse_expr_loop_traced] at h
      cases hb : binding s.token with
      | none =>
        simp only [hb, Option.some.injEq, Prod.mk.injEq] at h
        obtain ⟨-, -, rfl, rfl⟩ := h
        exact Traced.nil _
      | some lr =>
        obtain ⟨lp, rp⟩ := lr
        simp only [hb] at h
        split_ifs at h
        · simp only [Option.some.injEq, Prod.mk.injEq] at h
          obtain ⟨-, -, rfl, rfl⟩ := h
          exact Traced.nil _
        · cases hc : parse_expr_traced N n (next N s) rp σ with
          | none => simp [hc] at h
          | some x =>
            obtain ⟨rhs, s2, σ2, l2⟩ := x
            simp only [hc] at h
            cases hd : apply_traced N n s2 s.token lhs rhs σ2 with
            | none => simp [hd] at h
            | some y =>
              obtain ⟨v3, s3, σ3, l3⟩ := y
              simp only [hd] at h
              cases hk : parse_expr_loop_traced N n s3 prec v3 σ3 with
              | none => simp [hk] at h
              | some z =>
                obtain ⟨v4, s4, σ4, l4⟩ := z
                simp only [hk, Option.some.injEq, Prod.mk.injEq] at h
                obtain ⟨-, -, rfl, rfl⟩ := h
                exact (he _ _ _ _ _ _ _ hc).append
                  ((ha _ _ _ _ _ _ _ _ _ hd).append (hl _ _ _ _ _ _ _ _ hk))
    · intro e r c σ p v σ1 l h
      rw [evaluate_traced] at h
      cases hff : find_formula e with
      | none =>
        simp only [hff, Option.some.injEq, Prod.mk.injEq] at h
        obtain ⟨-, -, rfl, rfl⟩ := h
        exact Traced.nil _
      | some q =>
        simp only [hff] at h
        cases hc : parse_expr_traced N n (next N ⟨q, r, c, tok_end, N.zero, none⟩) 0 σ with
        | none => simp [hc] at h
        | some x =>
          obtain ⟨v1, s2, σ2, l2⟩ := x
          simp only [hc, Option.some.injEq, Prod.mk.injEq] at h
          obtain ⟨-, -, rfl, rfl⟩ := h
          exact he _ _ _ _ _ _ _ hc
    · intro r c σ σ3 l hunk h
      have hlater := ((invariants N (n + 1)).2.2.2.2.2.1 r c σ σ3 hunk (erased_update N h))
      rw [update_traced] at h
      split_ifs at h with hin
      dsimp only at h
      generalize hE : evaluate_traced N n _ r c _ = E at h
      cases E with
      | none => simp at h
      | some x =>
        obtain ⟨p, v, σ1, l1⟩ := x
        have t := hv _ _ _ _ _ _ _ _ hE
        have hcell : ((σ.set r c { σ.cells r c with plaint := some .calculating }).cells r c).plaint = some .calculating := by
          simp [State.set]
        have hnot : (r, c) ∉ entered_cells l1 := by
          intro hm
          have := t.before _ hm
          rw [hcell] at this
          cases this
        have hne : ∀ rc ∈ entered_cells l1, ¬ (rc.1 = r ∧ rc.2 = c) := by
          rintro ⟨r1, c1⟩ hm ⟨h1, h2⟩
          simp only at h1 h2
          subst h1 h2
          exact hnot hm
        have hcells : (∃ cell, σ3.cells = (σ1.set r c cell).cells) ∧ σ3.the_plaint = latched σ1.the_plaint [.left r c p] ∧ l = .entered r c :: (l1 ++ [.left r c p]) := by
          cases p with
          | none =>
            simp only [Option.some.injEq, Prod.mk.injEq] at h
            obtain ⟨rfl, rfl⟩ := h
            refine ⟨⟨_, rfl⟩, ?_, rfl⟩
            cases hq : σ1.the_plaint <;> simp [State.set, latched, first_failure, hq]
          | some p =>
            simp only [Option.some.injEq, Prod.mk.injEq] at h
            obtain ⟨rfl, rfl⟩ := h
            refine ⟨⟨_, error_cells _ _⟩, ?_, rfl⟩
            cases hq : σ1.the_plaint <;> simp [State.set, latched, first_failure, hq, error]
        obtain ⟨⟨cell, hc1⟩, hc2, rfl⟩ := hcells
        have hent : entered_cells (Event.entered r c :: (l1 ++ [Event.left r c p])) =
            (r, c) :: entered_cells l1 := by
          simp [entered_cells, entered_cells_append]
        refine ⟨hlater.1, ?_, ?_, ?_, ?_⟩
        · intro rc hm
          rw [hent, List.mem_cons] at hm
          rcases hm with rfl | hm
          · exact hunk
          · have := t.before rc hm
            simpa [State.set, hne rc hm] using this
        · intro rc hm
          rw [hent, List.mem_cons] at hm
          rcases hm with rfl | hm
          · exact hlater.2
          · have := t.after rc hm
            rw [hc1]
            simpa [State.set, hne rc hm] using this
        · rw [hent, List.nodup_cons]
          exact ⟨hnot, t.nodup⟩
        · rw [hc2, t.latch]
          have : (σ.set r c { σ.cells r c with plaint := some .calculating }).the_plaint = σ.the_plaint := rfl
          rw [this, latched_append]
          cases hq : σ.the_plaint <;> simp [latched, first_failure]
    · intro r c d σ res σ1 l h
      rw [get_value_traced] at h
      split_ifs at h with h1 h2
      · simp only [Option.some.injEq, Prod.mk.injEq] at h
        obtain ⟨-, rfl, rfl⟩ := h
        exact Traced.nil _
      · cases hc : update_traced N n r c σ with
        | none => simp [hc] at h
        | some x =>
          obtain ⟨σ2, l2⟩ := x
          have t := hu _ _ _ _ _ h2 hc
          simp only [hc] at h
          split_ifs at h
          · simp only [Option.some.injEq, Prod.mk.injEq] at h
            obtain ⟨-, rfl, rfl⟩ := h
            exact t
          · cases hp : (σ2.cells r c).plaint <;>
              (simp only [hp, Option.some.injEq, Prod.mk.injEq] at h
               obtain ⟨-, rfl, rfl⟩ := h
               exact t)
      · simp only at h
        split_ifs at h
        · simp only [Option.some.injEq, Prod.mk.injEq] at h
          obtain ⟨-, rfl, rfl⟩ := h
          exact Traced.nil _
        · cases hp : (σ.cells r c).plaint <;>
            (simp only [hp, Option.some.injEq, Prod.mk.injEq] at h
             obtain ⟨-, rfl, rfl⟩ := h
             exact Traced.nil _)

theorem traced_step {V : Type} (N : Arith V) : ∀ fuel, TracedStep N fuel := by
  intro fuel
  induction fuel with
  | zero =>
    refine ⟨?_, ?_, ?_, ?_, ?_, ?_, ?_⟩ <;> intros <;>
      simp_all [parse_factor_traced, apply_traced, parse_expr_traced, parse_expr_loop_traced,
        evaluate_traced, update_traced, get_value_traced]
  | succ n ih =>
    obtain ⟨hf, ha, he, hl, hv, hu, hg⟩ := ih
    refine ⟨?_, ?_, ?_, ?_, ?_, ?_, ?_⟩
    · intro s σ res h
      rw [parse_factor_traced] at h ⊢
      split_ifs at h ⊢ with h1 h2 h3 h4 h5
      · exact h
      · cases hc : parse_factor_traced N n (next N s) σ with
        | none => simp [hc] at h
        | some x => rw [hc] at h; rw [hf _ _ _ hc]; exact h
      · exact h
      · exact h
      · cases hc : parse_expr_traced N n (next N s) 0 σ with
        | none => simp [hc] at h
        | some x => rw [hc] at h; rw [he _ _ _ _ hc]; exact h
      · exact h
    · intro s rator lhs rhs σ res h
      rw [apply_traced] at h ⊢
      split_ifs at h ⊢
      all_goals first
        | exact h
        | (cases hc : get_value_traced N n (N.toUnsigned lhs) (N.toUnsigned rhs)
              (some (.lit "")) σ with
           | none => simp [hc] at h
           | some x => rw [hc] at h; rw [hg _ _ _ _ _ hc]; exact h)
    · intro s prec σ res h
      rw [parse_expr_traced] at h ⊢
      cases hc : parse_factor_traced N n s σ with
      | none => simp [hc] at h
      | some x =>
        rw [hc] at h; rw [hf _ _ _ hc]
        obtain ⟨lhs, s1, σ1, l1⟩ := x
        simp only at h ⊢
        cases hd : parse_expr_loop_traced N n s1 prec lhs σ1 with
        | none => simp [hd] at h
        | some y => rw [hd] at h; rw [hl _ _ _ _ _ hd]; exact h
    · intro s prec lhs σ res h
      rw [parse_expr_loop_traced] at h ⊢
      cases hb : binding s.token with
      | none => rw [hb] at h; exact h
      | some lr =>
        obtain ⟨lp, rp⟩ := lr
        rw [hb] at h
        simp only at h ⊢
        split_ifs at h ⊢ with h1
        · exact h
        · cases hc : parse_expr_traced N n (next N s) rp σ with
          | none => simp [hc] at h
          | some x =>
            obtain ⟨rhs, s1, σ1, l1⟩ := x
            rw [hc] at h; rw [he _ _ _ _ hc]
            simp only at h ⊢
            cases hc2 : apply_traced N n s1 s.token lhs rhs σ1 with
            | none => simp [hc2] at h
            | some y =>
              obtain ⟨v, s2, σ2, l2⟩ := y
              rw [hc2] at h; rw [ha _ _ _ _ _ _ hc2]
              simp only at h ⊢
              cases hc3 : parse_expr_loop_traced N n s2 prec v σ2 with
              | none => simp [hc3] at h
              | some z => rw [hc3] at h; rw [hl _ _ _ _ _ hc3]; exact h
    · intro e r c σ res h
      rw [evaluate_traced] at h ⊢
      cases hff : find_formula e with
      | none => rw [hff] at h; exact h
      | some p =>
        rw [hff] at h
        simp only at h ⊢
        cases hc : parse_expr_traced N n (next N { p := p, row := r, col := c, token := tok_end, token_value := N.zero, plaint := none }) 0 σ with
        | none => simp [hc] at h
        | some x => rw [hc] at h; rw [he _ _ _ _ hc]; exact h
    · intro r c σ res h
      rw [update_traced] at h ⊢
      split_ifs at h ⊢ with h1
      dsimp only at h ⊢
      generalize hE : evaluate_traced N n _ r c _ = E at h
      cases E with
      | none => simp at h
      | some x => rw [hv _ _ _ _ _ hE]; exact h
    · intro r c d σ res h
      rw [get_value_traced] at h ⊢
      split_ifs at h ⊢ with h1 h2
      · exact h
      · cases hc : update_traced N n r c σ with
        | none => simp [hc] at h
        | some x => rw [hc] at h; rw [hu _ _ _ _ hc]; exact h
      · exact h

theorem get_value_traced_mono {V : Type} (N : Arith V) {fuel fuel1 : Nat} {r c : Nat}
    {d : Option Plaint} {σ : State V} {res : Except Plaint V × State V × List Event}
    (h : get_value_traced N fuel r c d σ = some res) (hle : fuel ≤ fuel1) :
    get_value_traced N fuel1 r c d σ = some res := by
  obtain ⟨k, rfl⟩ := Nat.exists_eq_add_of_le hle
  induction k with
  | zero => exact h
  | succ k ih => exact (traced_step N (fuel + k)).2.2.2.2.2.2 _ _ _ _ _ (ih (Nat.le_add_right _ _))

/-- Every traced call of `get_value` returns: from some amount of fuel on it
gives one and the same result, state and events, and they are the result and
state of `get_value`. -/
theorem get_value_traced_total {V : Type} (N : Arith V) (σ : State V) (r c : Nat)
    (d : Option Plaint) :
    ∃ fuel res σ1 l, ∀ fuel1, fuel ≤ fuel1 →
      get_value_traced N fuel1 r c d σ = some (res, σ1, l) ∧
      get_value N fuel1 r c d σ = some (res, σ1) := by
  obtain ⟨fuel, ⟨res, σ1⟩, h⟩ := get_value_total N σ r c d
  have h0 := h fuel (Nat.le_refl _)
  rw [(erasure N fuel).2.2.2.2.2.2] at h0
  cases ht : get_value_traced N fuel r c d σ with
  | none => simp [ht] at h0
  | some x =>
    obtain ⟨res1, σ2, l⟩ := x
    simp only [ht, Option.map_some', Option.some.injEq, Prod.mk.injEq] at h0
    obtain ⟨rfl, rfl⟩ := h0
    exact ⟨fuel, res1, σ2, l, fun fuel1 hle =>
      ⟨get_value_traced_mono N ht hle, h fuel1 hle⟩⟩

theorem calls_traced_total {V : Type} (N : Arith V) (cs : List (Nat × Nat × Option Plaint)) :
    ∀ σ : State V, ∃ fuel results σ1 l, ∀ fuel1, fuel ≤ fuel1 →
      calls_traced N fuel1 cs σ = some (results, σ1, l) ∧
      calls N fuel1 cs σ = some (results, σ1) ∧ Traced σ l σ1 := by
  induction cs with
  | nil =>
    intro σ
    exact ⟨0, [], σ, [], fun _ _ => ⟨rfl, rfl, Traced.nil σ⟩⟩
  | cons rcd rest ih =>
    intro σ
    obtain ⟨r, c, d⟩ := rcd
    obtain ⟨f1, res, σ1, l1, h1⟩ := get_value_traced_total N σ r c d
    obtain ⟨f2, results, σ2, l2, h2⟩ := ih σ1
    refine ⟨max f1 f2, res :: results, σ2, l1 ++ l2, fun fuel1 hle => ?_⟩
    obtain ⟨a1, a2⟩ := h1 fuel1 (le_trans (le_max_left _ _) hle)
    obtain ⟨b1, b2, b3⟩ := h2 fuel1 (le_trans (le_max_right _ _) hle)
    refine ⟨?_, ?_, ?_⟩
    · simp only [calls_traced, a1, b1]
    · simp only [calls, a2, b2]
    · exact ((traced_all N fuel1).2.2.2.2.2.2 _ _ _ _ _ _ _ a1).append b3

/-- Claim C12: the Diagnostics Latch is first-wins. Every call of `get_value`,
from every state, returns (from some amount of fuel on, with one result, state
and list of events); a message that the latch held before the call is the
message it holds after; and when the latch was empty before the call, it holds
after the call the message of the first `update` of the call that finished
with a failure, and stays empty when no `update` of the call failed. -/
theorem C12_latch_first_wins {V : Type} (N : Arith V) (σ : State V) (r c : Nat)
    (d : Option Plaint) :
    ∃ fuel res σ1 l,
      (∀ fuel1, fuel ≤ fuel1 →
        get_value_traced N fuel1 r c d σ = some (res, σ1, l) ∧
        get_value N fuel1 r c d σ = some (res, σ1)) ∧
      (∀ m, σ.the_plaint = some m → σ1.the_plaint = some m) ∧
      (σ.the_plaint = none → σ1.the_plaint = first_failure l) := by
  obtain ⟨fuel, res, σ1, l, h⟩ := get_value_traced_total N σ r c d
  have t := (traced_all N fuel).2.2.2.2.2.2 _ _ _ _ _ _ _ (h fuel (Nat.le_refl _)).1
  refine ⟨fuel, res, σ1, l, h, ?_, ?_⟩
  · intro m hm
    rw [t.latch, hm]
    rfl
  · intro hm
    rw [t.latch, hm]
    rfl

/-- Claim C16: each cell is evaluated at most once per epoch. Every sequence of
calls of `get_value`, from every state (so from the state that a `set_text`
left), returns (from some amount of fuel on, with one list of results, final
state and list of events), and in the events of the whole sequence no cell is
entered by `update` twice; `evaluate` runs only inside `update`, once. -/
theorem C16_at_most_once {V : Type} (N : Arith V) (σ : State V)
    (cs : List (Nat × Nat × Option Plaint)) :
    ∃ fuel results σ1 l,
      (∀ fuel1, fuel ≤ fuel1 →
        calls_traced N fuel1 cs σ = some (results, σ1, l) ∧
        calls N fuel1 cs σ = some (results, σ1)) ∧
      (entered_cells l).Nodup := by
  obtain ⟨fuel, results, σ1, l, h⟩ := calls_traced_total N cs σ
  exact ⟨fuel, results, σ1, l, fun fuel1 hle => ⟨(h fuel1 hle).1, (h fuel1 hle).2.1⟩,
    (h fuel (Nat.le_refl _)).2.2.nodup⟩

/-- An example of the first-wins latch: with `=1@0` in cell `(0,0)` and the
text `hello` in cell `(1,0)`, the call on `(0,0)` enters `update` for `(0,0)`,
then for `(1,0)`, which is the first to finish and fails with `No formula`; the
latch, empty before, holds `No formula` after, not the empty message with
which `(0,0)` fails. -/
theorem latch_example :
    (get_value_traced fracArith 20 0 0 none
        (grid fracArith [(0, 0, "=1@0"), (1, 0, "hello")])).map
      (fun res => (res.2.2, res.2.1.the_plaint)) =
    some ([.entered 0 0, .entered 1 0, .left 1 0 (some (.lit "No formula")),
        .left 0 0 (some (.lit ""))],
      some (.lit "No formula")) := by
  decide

/-- An example of at-most-once evaluation: cell `(0,0)` refers twice to cell
`(1,0)`, which refers back to `(0,0)`; two calls on `(0,0)` and one on `(1,0)`
enter `update` once for each of the two cells. -/
theorem at_most_once_example :
    (calls_traced fracArith 20 [(0, 0, none), (1, 0, none), (0, 0, none)]
        (grid fracArith [(0, 0, "=(1@0)+(1@0)"), (1, 0, "=0@0")])).map
      (fun res => res.2.2) =
    some [.entered 0 0, .entered 1 0, .left 1 0 (some .calculating),
      .left 0 0 (some .calculating)] := by
  decide

/-! ## The grid written to a file and read again: claim C14 -/

theorem evaluate_value {V : Type} (N : Arith V) {fuel : Nat} {e : List Char} {r c : Nat}
    {σ σ1 : State V} {v : Option V}
    (h : evaluate N fuel e r c σ = some (none, v, σ1)) : ∃ x, v = some x := by
  cases fuel with
  | zero => simp [evaluate] at h
  | succ n =>
    rw [evaluate] at h
    cases hff : find_formula e with
    | none => simp [hff] at h
    | some p =>
      simp only [hff] at h
      cases hc : parse_expr N n (next N ⟨p, r, c, tok_end, N.zero, none⟩) 0 σ with
      | none => simp [hc] at h
      | some x =>
        obtain ⟨v1, s2, σ2⟩ := x
        simp only [hc, Option.some.injEq, Prod.mk.injEq] at h
        exact ⟨v1, h.2.1.symm⟩

theorem read_cell_alike {V : Type} (d : Option Plaint) (a b : Cell V)
    (hp : a.plaint = b.plaint) (hv : a.plaint = none → a.value = b.value) :
    read_cell d a = read_cell d b := by
  unfold read_cell
  rw [← hp]
  split_ifs
  · rfl
  · cases h : a.plaint with
    | none => simp only [hv h]
    | some p => rfl

theorem Alike.set {V : Type} {σa σb : State V} (h : Alike σa σb) (r c : Nat)
    (p : Option Plaint) (va vb : V) (hv : p = none → va = vb) :
    Alike (σa.set r c { σa.cells r c with plaint := p, value := va })
      (σb.set r c { σb.cells r c with plaint := p, value := vb }) := by
  refine ⟨?_, ?_, ?_⟩
  · intro r1 c1 h1 h2
    by_cases hrc : r1 = r ∧ c1 = c
    · obtain ⟨rfl, rfl⟩ := hrc
      simpa [State.set] using h.formula r1 c1 h1 h2
    · simpa [State.set, hrc] using h.formula r1 c1 h1 h2
  · intro r1 c1 h1 h2
    by_cases hrc : r1 = r ∧ c1 = c
    · obtain ⟨rfl, rfl⟩ := hrc
      simp [State.set]
    · simpa [State.set, hrc] using h.plaint r1 c1 h1 h2
  · intro r1 c1 h1 h2
    by_cases hrc : r1 = r ∧ c1 = c
    · obtain ⟨rfl, rfl⟩ := hrc
      simpa [State.set] using hv
    · simpa [State.set, hrc] using h.value r1 c1 h1 h2

theorem Alike.cells {V : Type} {σa σb σa1 σb1 : State V} (h : Alike σa σb)
    (ha : σa1.cells = σa.cells) (hb : σb1.cells = σb.cells) : Alike σa1 σb1 := by
  refine ⟨?_, ?_, ?_⟩
  · intro r c h1 h2
    rw [ha, hb]
    exact h.formula r c h1 h2
  · intro r c h1 h2
    rw [ha, hb]
    exact h.plaint r c h1 h2
  · intro r c h1 h2
    rw [ha, hb]
    exact h.value r c h1 h2

theorem simulation {V : Type} (N : Arith V) : ∀ fuel, Simulation N fuel := by
  intro fuel
  induction fuel with
  | zero =>
    refine ⟨?_, ?_, ?_, ?_, ?_, ?_, ?_⟩ <;> intros <;>
      simp_all [parse_factor, apply, parse_expr, parse_expr_loop, evaluate, update, get_value]
  | succ n ih =>
    obtain ⟨hf, ha, he, hl, hv, hu, hg⟩ := ih
    refine ⟨?_, ?_, ?_, ?_, ?_, ?_, ?_⟩
    · intro s σa σb v s1 σa1 hab h
      rw [parse_factor] at h ⊢
      split_ifs at h ⊢
      · simp only [Option.some.injEq, Prod.mk.injEq] at h
        obtain ⟨rfl, rfl, rfl⟩ := h
        exact ⟨σb, rfl, hab⟩
      · cases hc : parse_factor N n (next N s) σa with
        | none => simp [hc] at h
        | some x =>
          obtain ⟨v1, s2, σa2⟩ := x
          simp only [hc, Option.some.injEq, Prod.mk.injEq] at h
          obtain ⟨rfl, rfl, rfl⟩ := h
          obtain ⟨σb1, e1, k1⟩ := hf _ _ _ _ _ _ hab hc
          exact ⟨σb1, by simp only [e1], k1⟩
      · simp only [Option.some.injEq, Prod.mk.injEq] at h
        obtain ⟨rfl, rfl, rfl⟩ := h
        exact ⟨σb, rfl, hab⟩
      · simp only [Option.some.injEq, Prod.mk.injEq] at h
        obtain ⟨rfl, rfl, rfl⟩ := h
        exact ⟨σb, rfl, hab⟩
      · cases hc : parse_expr N n (next N s) 0 σa with
        | none => simp [hc] at h
        | some x =>
          obtain ⟨v1, s2, σa2⟩ := x
          simp only [hc, Option.some.injEq, Prod.mk.injEq] at h
          obtain ⟨rfl, rfl, rfl⟩ := h
          obtain ⟨σb1, e1, k1⟩ := he _ _ _ _ _ _ _ hab hc
          exact ⟨σb1, by simp only [e1], k1⟩
      · simp only [Option.some.injEq, Prod.mk.injEq] at h
        obtain ⟨rfl, rfl, rfl⟩ := h
        exact ⟨σb, rfl, hab⟩
    · intro s rator lhs rhs σa σb v s1 σa1 hab h
      rw [apply] at h ⊢
      split_ifs at h ⊢
      all_goals first
        | (simp only [Option.some.injEq, Prod.mk.injEq] at h
           obtain ⟨rfl, rfl, rfl⟩ := h
           exact ⟨σb, rfl, hab⟩)
        | (cases hc : get_value N n (N.toUnsigned lhs) (N.toUnsigned rhs)
              (some (.lit "")) σa with
           | none => simp [hc] at h
           | some x =>
             obtain ⟨res, σa2⟩ := x
             obtain ⟨σb1, e1, k1⟩ := hg _ _ _ _ _ _ _ hab hc
             cases res <;>
               (simp only [hc, Option.some.injEq, Prod.mk.injEq] at h
                obtain ⟨rfl, rfl, rfl⟩ := h
                exact ⟨σb1, by simp only [e1], k1⟩))
    · intro s prec σa σb v s1 σa1 hab h
      rw [parse_expr] at h ⊢
      cases hc : parse_factor N n s σa with
      | none => simp [hc] at h
      | some x =>
        obtain ⟨lhs, s2, σa2⟩ := x
        simp only [hc] at h
        obtain ⟨σb2, e1, k1⟩ := hf _ _ _ _ _ _ hab hc
        obtain ⟨σb3, e2, k2⟩ := hl _ _ _ _ _ _ _ _ k1 h
        exact ⟨σb3, by simp only [e1, e2], k2⟩
    · intro s prec lhs σa σb v s1 σa1 hab h
      rw [parse_expr_loop] at h ⊢
      cases hb : binding s.token with
      | none =>
        simp only [hb, Option.some.injEq, Prod.mk.injEq] at h
        obtain ⟨rfl, rfl, rfl⟩ := h
        exact ⟨σb, rfl, hab⟩
      | some lr =>
        obtain ⟨lp, rp⟩ := lr
        simp only [hb] at h ⊢
        split_ifs at h ⊢
        · simp only [Option.some.injEq, Prod.mk.injEq] at h
          obtain ⟨rfl, rfl, rfl⟩ := h
          exact ⟨σb, rfl, hab⟩
        · cases hc : parse_expr N n (next N s) rp σa with
          | none => simp [hc] at h
          | some x =>
            obtain ⟨rhs, s2, σa2⟩ := x
            simp only [hc] at h
            cases hd : apply N n s2 s.token lhs rhs σa2 with
            | none => simp [hd] at h
            | some y =>
              obtain ⟨v3, s3, σa3⟩ := y
              simp only [hd] at h
              obtain ⟨σb2, e1, k1⟩ := he _ _ _ _ _ _ _ hab hc
              obtain ⟨σb3, e2, k2⟩ := ha _ _ _ _ _ _ _ _ _ k1 hd
              obtain ⟨σb4, e3, k3⟩ := hl _ _ _ _ _ _ _ _ k2 h
              exact ⟨σb4, by simp only [e1, e2, e3], k3⟩
    · intro ea eb r c σa σb p v σa1 hff hab h
      rw [evaluate] at h ⊢
      rw [← hff]
      cases hq : find_formula ea with
      | none =>
        simp only [hq, Option.some.injEq, Prod.mk.injEq] at h
        obtain ⟨rfl, rfl, rfl⟩ := h
        exact ⟨σb, rfl, hab⟩
      | some q =>
        simp only [hq] at h ⊢
        cases hc : parse_expr N n (next N ⟨q, r, c, tok_end, N.zero, none⟩) 0 σa with
        | none => simp [hc] at h
        | some x =>
          obtain ⟨v1, s2, σa2⟩ := x
          simp only [hc, Option.some.injEq, Prod.mk.injEq] at h
          obtain ⟨rfl, rfl, rfl⟩ := h
          obtain ⟨σb1, e1, k1⟩ := he _ _ _ _ _ _ _ hab hc
          exact ⟨σb1, by simp only [e1], k1⟩
    · intro r c σa σb σa3 hab h
      rw [update] at h ⊢
      split_ifs at h ⊢ with hin
      dsimp only at h ⊢
      have hab0 : Alike (σa.set r c { σa.cells r c with plaint := some .calculating })
          (σb.set r c { σb.cells r c with plaint := some .calculating }) := by
        have := hab.set r c (some .calculating) (σa.cells r c).value (σb.cells r c).value
          (fun h => by cases h)
        exact this
      have hff : find_formula ((σa.set r c { σa.cells r c with plaint := some .calculating }).cells r c).text = find_formula ((σb.set r c { σb.cells r c with plaint := some .calculating }).cells r c).text := by
        simpa [State.set] using hab.formula r c hin.1 hin.2
      generalize hE : evaluate N n ((σa.set r c { σa.cells r c with plaint := some .calculating }).cells r c).text r c (σa.set r c { σa.cells r c with plaint := some .calculating }) = E at h
      cases E with
      | none => simp at h
      | some x =>
        obtain ⟨p, v, σa1⟩ := x
        obtain ⟨σb1, e1, k1⟩ := hv _ _ _ _ _ _ _ _ _ hff hab0 hE
        have e1' : evaluate N n (σb.cells r c).text r c (σb.set r c { text := (σb.cells r c).text, plaint := some .calculating, value := (σb.cells r c).value }) = some (p, v, σb1) := by
          simpa [State.set] using e1
        simp only [State.set_cells_same, e1']
        have hval : p = none → ∃ x, v = some x := by
          intro hp
          subst hp
          exact evaluate_value N hE
        cases v with
        | none =>
          cases p with
          | none =>
            obtain ⟨x, hx⟩ := hval rfl
            cases hx
          | some p =>
            simp only [Option.some.injEq] at h ⊢
            subst h
            exact ⟨_, rfl, (k1.set r c (some p) _ _ (fun hp => by cases hp)).cells
              (error_cells _ _) (error_cells _ _)⟩
        | some x =>
          cases p with
          | none =>
            simp only [Option.some.injEq] at h ⊢
            subst h
            exact ⟨_, rfl, k1.set r c none x x (fun _ => rfl)⟩
          | some p =>
            simp only [Option.some.injEq] at h ⊢
            subst h
            exact ⟨_, rfl, (k1.set r c (some p) x x (fun _ => rfl)).cells
              (error_cells _ _) (error_cells _ _)⟩
    · intro r c d σa σb res σa1 hab h
      rw [get_value_succ] at h ⊢
      by_cases hout : nrows ≤ r ∨ ncols ≤ c
      · simp only [hout, if_true, Option.some.injEq, Prod.mk.injEq] at h ⊢
        obtain ⟨rfl, rfl⟩ := h
        exact ⟨σb, ⟨rfl, rfl⟩, hab⟩
      · simp only [hout, if_false] at h ⊢
        have hin : r < nrows ∧ c < ncols := by
          constructor <;> by_contra hh <;> exact hout (by omega)
        rw [← hab.plaint r c hin.1 hin.2]
        by_cases hunk : (σa.cells r c).plaint = some .unknown
        · simp only [hunk, if_true] at h ⊢
          cases hc : update N n r c σa with
          | none => simp [hc] at h
          | some σa2 =>
            simp only [hc, Option.map_some', Option.some.injEq, Prod.mk.injEq] at h
            obtain ⟨rfl, rfl⟩ := h
            obtain ⟨σb1, e1, k1⟩ := hu _ _ _ _ _ hab hc
            refine ⟨σb1, ?_, k1⟩
            simp only [e1, Option.map_some']
            rw [read_cell_alike d _ _ (k1.plaint r c hin.1 hin.2) (k1.value r c hin.1 hin.2)]
        · simp only [hunk, if_false, Option.map_some', Option.some.injEq, Prod.mk.injEq] at h ⊢
          obtain ⟨rfl, rfl⟩ := h
          exact ⟨σb, ⟨(read_cell_alike d _ _ (hab.plaint r c hin.1 hin.2)
            (hab.value r c hin.1 hin.2)).symm, rfl⟩, hab⟩

theorem take_line_record (l rest : List Char) (hl : ∀ ch ∈ l, ch ≠ '\n') :
    ∀ n, l.length < n → take_line n (l ++ '\n' :: rest) = (l ++ ['\n'], rest) := by
  induction l with
  | nil =>
    intro n hn
    cases n with
    | zero => cases hn
    | succ n => simp [take_line]
  | cons a l ih =>
    intro n hn
    cases n with
    | zero => cases hn
    | succ n =>
      have ha : a ≠ '\n' := hl a (by simp)
      have := ih (fun ch hch => hl ch (by simp [hch])) n (by simpa using hn)
      simp [take_line, ha, this]

theorem decimal_facts : ∀ r < 20, (decimal r).length ≤ 2 ∧ ∀ ch ∈ decimal r, ch ≠ '\n' := by
  decide

theorem scan_row (r : Nat) (hr : r < nrows) (rest : List Char) :
    scan_unsigned (decimal r ++ ' ' :: rest) = some (r, ' ' :: rest) := by
  unfold nrows at hr
  interval_cases r <;> rfl

theorem scan_col (c : Nat) (hc : c < ncols) (rest : List Char) :
    scan_unsigned ((' ' :: (decimal c ++ ' ' :: rest)).dropWhile isspace) =
      some (c, ' ' :: rest) := by
  unfold ncols at hc
  interval_cases c <;> rfl

theorem dropWhile_blank_space (x : List Char) : ∀ t : List Char,
    (∀ ch tl, t.dropWhile (fun ch => ch == ' ' || ch == '\t') = ch :: tl → isspace ch = false) →
    t.dropWhile (fun ch => ch == ' ' || ch == '\t') ≠ [] →
    (t ++ x).dropWhile isspace = t.dropWhile (fun ch => ch == ' ' || ch == '\t') ++ x := by
  intro t
  induction t with
  | nil => intro _ h; exact absurd rfl h
  | cons a t ih =>
    intro h1 h2
    by_cases ha : (a == ' ' || a == '\t') = true
    · have hs : isspace a = true := by
        simp only [Bool.or_eq_true, beq_iff_eq] at ha
        rcases ha with rfl | rfl <;> decide
      simp only [List.dropWhile_cons, ha, if_true] at h1 h2 ⊢
      simp only [List.cons_append, List.dropWhile_cons, hs, if_true]
      exact ih h1 h2
    · have hs : isspace a = false := by
        apply h1 a t
        simp only [List.dropWhile_cons, ha]
        rfl
      simp only [List.cons_append, List.dropWhile_cons, ha, hs]
      rfl

theorem takeWhile_line (l : List Char) (hl : ∀ ch ∈ l, ch ≠ '\n') :
    (l ++ ['\n']).takeWhile (fun ch => ch != '\n') = l := by
  induction l with
  | nil => simp
  | cons a l ih =>
    have ha : a ≠ '\n' := hl a (by simp)
    simp [List.takeWhile_cons, ha, ih (fun ch hch => hl ch (by simp [hch]))]

theorem decimal_col_facts : ∀ c < 4, (decimal c).length ≤ 1 := by
  decide

theorem storable_facts {t : List Char} (h : storable t = true) :
    (∀ ch ∈ t, ch ≠ '\n') ∧ t.length ≤ 1017 ∧
    (∀ ch tl, t.dropWhile (fun ch => ch == ' ' || ch == '\t') = ch :: tl →
      isspace ch = false) := by
  unfold storable at h
  simp only [Bool.and_eq_true, List.all_eq_true, bne_iff_ne, ne_eq, decide_eq_true_eq] at h
  obtain ⟨⟨h1, h2⟩, h3⟩ := h
  refine ⟨h1, h2, ?_⟩
  intro ch tl e
  rw [e] at h3
  simpa using h3

theorem sscanf_record (r c : Nat) (t : List Char) (hr : r < nrows) (hc : c < ncols)
    (hs : storable t = true) (hb : is_blank t = false) :
    sscanf_line (record r c t) =
      some (r, c, t.dropWhile (fun ch => ch == ' ' || ch == '\t')) := by
  obtain ⟨h1, -, h3⟩ := storable_facts hs
  have hne : t.dropWhile (fun ch => ch == ' ' || ch == '\t') ≠ [] := by
    intro e
    simp [is_blank, e] at hb
  have hd : (' ' :: (t ++ ['\n'])).dropWhile isspace =
      t.dropWhile (fun ch => ch == ' ' || ch == '\t') ++ ['\n'] := by
    have : isspace ' ' = true := by decide
    rw [List.dropWhile_cons, this, if_pos rfl]
    exact dropWhile_blank_space _ t h3 hne
  have hsub : ∀ ch ∈ t.dropWhile (fun ch => ch == ' ' || ch == '\t'), ch ≠ '\n' :=
    fun ch hch => h1 ch ((List.dropWhile_suffix _).subset hch)
  unfold sscanf_line record
  rw [scan_row r hr]
  simp only
  rw [scan_col c hc]
  simp only
  rw [hd, takeWhile_line _ hsub]
  cases hq : t.dropWhile (fun ch => ch == ' ' || ch == '\t') with
  | nil => exact absurd hq hne
  | cons a tl => rfl

theorem fgets_record (r c : Nat) (t rest : List Char) (hr : r < nrows) (hc : c < ncols)
    (hs : storable t = true) :
    fgets 1024 (record r c t ++ rest) = some (record r c t, rest) := by
  obtain ⟨h1, h2, -⟩ := storable_facts hs
  have fr := decimal_facts r hr
  have fc := decimal_facts c (lt_trans hc (by decide))
  have e : record r c t = (decimal r ++ ' ' :: (decimal c ++ ' ' :: t)) ++ ['\n'] := by
    simp [record]
  have hl : ∀ ch ∈ decimal r ++ ' ' :: (decimal c ++ ' ' :: t), ch ≠ '\n' := by
    intro ch hch
    simp only [List.mem_append, List.mem_cons] at hch
    rcases hch with h | rfl | h | rfl | h
    · exact fr.2 ch h
    · decide
    · exact fc.2 ch h
    · decide
    · exact h1 ch h
  have hlen : (decimal r ++ ' ' :: (decimal c ++ ' ' :: t)).length < 1023 := by
    simp only [List.length_append, List.length_cons]
    have := fr.1
    have := decimal_col_facts c hc
    omega
  have key := take_line_record _ rest hl 1023 hlen
  rw [e]
  cases hq : (decimal r ++ ' ' :: (decimal c ++ ' ' :: t) ++ ['\n']) ++ rest with
  | nil => simp at hq
  | cons a tl =>
    unfold fgets
    simp only
    rw [← hq]
    simpa using key

theorem set_text_buffer {V : Type} (σ : State V) (r c : Nat) (t : List Char)
    (hr : r < nrows) (hc : c < ncols) :
    ∃ σ1, set_text r c (.buffer t) σ = some σ1 ∧
      (σ1.cells r c).text = t ∧
      (∀ r1 c1, ¬ (r1 = r ∧ c1 = c) → (σ1.cells r1 c1).text = (σ.cells r1 c1).text) ∧
      (∀ r1 c1, r1 < nrows → c1 < ncols → (σ1.cells r1 c1).plaint = some .unknown) := by
  refine ⟨_, by simp [set_text, hr, hc, TextArg.is_text_of]; rfl, ?_, ?_, ?_⟩
  · simp [State.set, TextArg.chars, hr, hc]
  · intro r1 c1 hne
    by_cases hin : r1 < nrows ∧ c1 < ncols
    · simp [State.set, hne, hin]
    · simp [State.set, hne, hin]
  · intro r1 c1 h1 h2
    simp [h1, h2]

theorem read_lines_record {V : Type} (σ0 σ1 : State V) (fuel r c : Nat) (t rest : List Char)
    (hr : r < nrows) (hc : c < ncols) (hs : storable t = true) (hb : is_blank t = false)
    (h1 : set_text r c (.buffer (t.dropWhile (fun ch => ch == ' ' || ch == '\t'))) σ0 = some σ1) :
    read_lines (fuel + 1) (record r c t ++ rest) σ0 = read_lines fuel rest σ1 := by
  have hout : ¬ (nrows ≤ r ∨ ncols ≤ c) := by omega
  rw [read_lines, fgets_record r c t rest hr hc hs]
  simp only [sscanf_record r c t hr hc hs hb, hout, if_false, h1]

theorem record_length (r c : Nat) (t : List Char) : 0 < (record r c t).length := by
  simp [record]

theorem read_cells {V : Type} (σ : State V)
    (hσ : ∀ r < nrows, ∀ c < ncols, storable (σ.cells r c).text = true) :
    ∀ l : List (Nat × Nat), l.Nodup → (∀ rc ∈ l, rc.1 < nrows ∧ rc.2 < ncols) →
    ∀ σ0 : State V, ∃ σ1,
      (∀ fuel, (write_cells σ l).length < fuel →
        read_lines fuel (write_cells σ l) σ0 = some σ1) ∧
      (∀ rc ∈ l, is_blank (σ.cells rc.1 rc.2).text = false →
        (σ1.cells rc.1 rc.2).text =
          (σ.cells rc.1 rc.2).text.dropWhile (fun ch => ch == ' ' || ch == '\t')) ∧
      (∀ r c, ((r, c) ∉ l ∨ is_blank (σ.cells r c).text = true) →
        (σ1.cells r c).text = (σ0.cells r c).text) ∧
      ((∀ r < nrows, ∀ c < ncols, (σ0.cells r c).plaint = some .unknown) →
        ∀ r < nrows, ∀ c < ncols, (σ1.cells r c).plaint = some .unknown) := by
  intro l
  induction l with
  | nil =>
    intro _ _ σ0
    refine ⟨σ0, ?_, ?_, ?_, ?_⟩
    · intro fuel hf
      cases fuel with
      | zero => cases hf
      | succ n => simp [write_cells, read_lines, fgets]
    · intro rc h
      cases h
    · intro r c _
      rfl
    · intro h
      exact h
  | cons rc l ih =>
    intro hnd hin σ0
    obtain ⟨r, c⟩ := rc
    have hrc := hin (r, c) (by simp)
    simp only at hrc
    have hnd' := (List.nodup_cons.mp hnd)
    have hin' : ∀ rc ∈ l, rc.1 < nrows ∧ rc.2 < ncols := fun rc h => hin rc (by simp [h])
    by_cases hb : is_blank (σ.cells r c).text = true
    · obtain ⟨σ1, a1, a2, a3, a4⟩ := ih hnd'.2 hin' σ0
      refine ⟨σ1, ?_, ?_, ?_, a4⟩
      · intro fuel hf
        simp only [write_cells, hb, if_true, List.nil_append] at hf ⊢
        exact a1 fuel hf
      · intro rc1 hm hnb
        rcases List.mem_cons.mp hm with rfl | hm
        · simp only at hnb
          rw [hb] at hnb
          cases hnb
        · exact a2 rc1 hm hnb
      · intro r1 c1 h
        apply a3
        rcases h with h | h
        · left
          intro hm
          exact h (by simp [hm])
        · right
          exact h
    · have hb' : is_blank (σ.cells r c).text = false := by simpa using hb
      have hs := hσ r hrc.1 c hrc.2
      obtain ⟨σ1, s1, s2, s3, s4⟩ := set_text_buffer σ0 r c
        ((σ.cells r c).text.dropWhile (fun ch => ch == ' ' || ch == '\t')) hrc.1 hrc.2
      obtain ⟨σ2, a1, a2, a3, a4⟩ := ih hnd'.2 hin' σ1
      refine ⟨σ2, ?_, ?_, ?_, ?_⟩
      · intro fuel hf
        simp only [write_cells, hb', Bool.false_eq_true, if_false] at hf ⊢
        cases fuel with
        | zero => cases hf
        | succ n =>
          rw [read_lines_record σ0 σ1 n r c _ _ hrc.1 hrc.2 hs hb' s1]
          apply a1
          have := record_length r c (σ.cells r c).text
          simp only [List.length_append] at hf
          omega
      · intro rc1 hm hnb
        rcases List.mem_cons.mp hm with rfl | hm
        · simp only
          rw [a3 r c (Or.inl hnd'.1), s2]
        · exact a2 rc1 hm hnb
      · intro r1 c1 h
        have hne : ¬ (r1 = r ∧ c1 = c) := by
          rintro ⟨rfl, rfl⟩
          rcases h with h | h
          · exact h (by simp)
          · rw [hb'] at h
            cases h
        rw [← s3 r1 c1 hne]
        apply a3
        rcases h with h | h
        · left
          intro hm
          exact h (by simp [hm])
        · right
          exact h
      · intro _
        exact a4 (fun r1 h1 c1 h2 => s4 r1 c1 h1 h2)

theorem cell_order_facts :
    cell_order.Nodup ∧ (∀ rc ∈ cell_order, rc.1 < 20 ∧ rc.2 < 4) ∧
      ∀ r < 20, ∀ c < 4, (r, c) ∈ cell_order := by
  decide

theorem find_formula_blank {t : List Char} (h : is_blank t = true) :
    find_formula t = none := by
  unfold is_blank at h
  unfold find_formula
  rw [List.isEmpty_iff.mp h]

theorem find_formula_dropWhile (t : List Char) :
    find_formula (t.dropWhile (fun ch => ch == ' ' || ch == '\t')) = find_formula t := by
  unfold find_formula
  rw [List.dropWhile_idempotent]

/-- What the grid holds after `write_file` and `read_file`, for a grid of
texts that are storable: every cell is unknown, and its text has the same
formula as the text in the grid written. -/
theorem reloaded_alike {V : Type} (N : Arith V) (σ : State V)
    (hunknown : ∀ r < nrows, ∀ c < ncols, (σ.cells r c).plaint = some .unknown)
    (htext : ∀ r < nrows, ∀ c < ncols, storable (σ.cells r c).text = true) :
    ∃ σ1, reloaded N σ = some σ1 ∧ Alike σ σ1 := by
  obtain ⟨hnd, hin, hall⟩ := cell_order_facts
  obtain ⟨σ1, a1, a2, a3, a4⟩ := read_cells σ htext cell_order hnd hin (setup N)
  have hu := a4 (fun _ _ _ _ => rfl)
  refine ⟨σ1, a1 _ (Nat.lt_succ_self _), ?_, ?_, ?_⟩
  · intro r c hr hc
    by_cases hb : is_blank (σ.cells r c).text = true
    · rw [a3 r c (Or.inr hb), find_formula_blank hb]
      rfl
    · have := a2 (r, c) (hall r hr c hc) (by simpa using hb)
      simp only at this
      rw [this, find_formula_dropWhile]
  · intro r c hr hc
    rw [hunknown r hr c hc, hu r hr c hc]
  · intro r c hr hc hn
    rw [hunknown r hr c hc] at hn
    cases hn

theorem get_value_alike {V : Type} (N : Arith V) {σa σb : State V} (h : Alike σa σb)
    (r c : Nat) (d : Option Plaint) :
    ∃ fuel res σa1 σb1, (∀ fuel1, fuel ≤ fuel1 →
      get_value N fuel1 r c d σa = some (res, σa1) ∧
      get_value N fuel1 r c d σb = some (res, σb1)) ∧ Alike σa1 σb1 := by
  obtain ⟨fuel, ⟨res, σa1⟩, ha⟩ := get_value_total N σa r c d
  obtain ⟨σb1, hb, k⟩ := (simulation N fuel).2.2.2.2.2.2 _ _ _ _ _ _ _ h (ha fuel (Nat.le_refl _))
  exact ⟨fuel, res, σa1, σb1, fun fuel1 hle => ⟨ha fuel1 hle, get_value_mono N hb hle⟩, k⟩

theorem calls_alike {V : Type} (N : Arith V) (cs : List (Nat × Nat × Option Plaint)) :
    ∀ σa σb : State V, Alike σa σb →
    ∃ fuel results σa1 σb1, ∀ fuel1, fuel ≤ fuel1 →
      calls N fuel1 cs σa = some (results, σa1) ∧
      calls N fuel1 cs σb = some (results, σb1) := by
  induction cs with
  | nil =>
    intro σa σb _
    exact ⟨0, [], σa, σb, fun _ _ => ⟨rfl, rfl⟩⟩
  | cons rcd rest ih =>
    intro σa σb h
    obtain ⟨r, c, d⟩ := rcd
    obtain ⟨f1, res, σa1, σb1, h1, k⟩ := get_value_alike N h r c d
    obtain ⟨f2, results, σa2, σb2, h2⟩ := ih σa1 σb1 k
    refine ⟨max f1 f2, res :: results, σa2, σb2, fun fuel1 hle => ?_⟩
    obtain ⟨a1, a2⟩ := h1 fuel1 (le_trans (le_max_left _ _) hle)
    obtain ⟨b1, b2⟩ := h2 fuel1 (le_trans (le_max_right _ _) hle)
    exact ⟨by simp only [calls, a1, b1], by simp only [calls, a2, b2]⟩

/-- Claim C14 fails as stated: the text of a carriage return followed by `=1`
has no newline; in the grid with this text in cell `(0,0)` the call of
`get_value` on the cell fails, the cell has the message "No formula"; in the
grid that `read_file` reads from what `write_file` wrote the same call returns
the value 1. -/
theorem C14_counterexample :
    ("\r=1".toList.all (fun ch => ch != '\n'),
      (get_value fracArith 20 0 0 none (grid fracArith [(0, 0, "\r=1")])).map
        (fun res => (res.1.toOption, (res.2.cells 0 0).plaint.map Plaint.text)),
      (reloaded fracArith (grid fracArith [(0, 0, "\r=1")])).bind
        (fun σ1 => (get_value fracArith 20 0 0 none σ1).map
          (fun res => (res.1.toOption, (res.2.cells 0 0).plaint.map Plaint.text)))) =
    (true, some (none, some "No formula"), some (some ⟨1, 1⟩, none)) := by
  decide

/-- Claim C14, amended: round trip of persistence. Let every cell of the grid
be unknown, as at the start of an epoch, and let every text of the grid be
storable: it has no newline, at most 1017 characters, and no white space other
than blanks and tabs before its first other character. Then `read_file`, run
in the grid after `setup` on what `write_file` wrote, returns a grid, and in
this grid every call of `get_value`, and every sequence of calls, returns
(from some amount of fuel on) the results that it returns in the grid
written. -/
theorem C14_round_trip {V : Type} (N : Arith V) (σ : State V)
    (hunknown : ∀ r < nrows, ∀ c < ncols, (σ.cells r c).plaint = some .unknown)
    (htext : ∀ r < nrows, ∀ c < ncols, storable (σ.cells r c).text = true) :
    ∃ σ1, reloaded N σ = some σ1 ∧
      (∀ r c d, ∃ fuel res σ2 σ3, ∀ fuel1, fuel ≤ fuel1 →
        get_value N fuel1 r c d σ = some (res, σ2) ∧
        get_value N fuel1 r c d σ1 = some (res, σ3)) ∧
      (∀ cs, ∃ fuel results σ2 σ3, ∀ fuel1, fuel ≤ fuel1 →
        calls N fuel1 cs σ = some (results, σ2) ∧
        calls N fuel1 cs σ1 = some (results, σ3)) := by
  obtain ⟨σ1, h1, k⟩ := reloaded_alike N σ hunknown htext
  refine ⟨σ1, h1, ?_, ?_⟩
  · intro r c d
    obtain ⟨fuel, res, σ2, σ3, h, -⟩ := get_value_alike N k r c d
    exact ⟨fuel, res, σ2, σ3, h⟩
  · intro cs
    exact calls_alike N cs σ σ1 k

/-- The theorem of claim C14 for the grid with `=1@0` in cell `(0,1)` and
` =2*3` in cell `(1,0)`; in the grid read from the file the cell `(1,0)` has the
value 6. -/
theorem C14_witness :
    (∀ r < nrows, ∀ c < ncols,
      ((grid fracArith [(0, 1, "=1@0"), (1, 0, " =2*3")]).cells r c).plaint =
        some .unknown) ∧
    (∀ r < nrows, ∀ c < ncols,
      storable ((grid fracArith [(0, 1, "=1@0"), (1, 0, " =2*3")]).cells
        r c).text = true) ∧
    (∃ σ1, reloaded fracArith (grid fracArith [(0, 1, "=1@0"), (1, 0, " =2*3")])
        = some σ1 ∧
      (∀ r c d, ∃ fuel res σ2 σ3, ∀ fuel1, fuel ≤ fuel1 →
        get_value fracArith fuel1 r c d
          (grid fracArith [(0, 1, "=1@0"), (1, 0, " =2*3")]) = some (res, σ2) ∧
        get_value fracArith fuel1 r c d σ1 = some (res, σ3)) ∧
      (∀ cs, ∃ fuel results σ2 σ3, ∀ fuel1, fuel ≤ fuel1 →
        calls fracArith fuel1 cs
          (grid fracArith [(0, 1, "=1@0"), (1, 0, " =2*3")]) =
            some (results, σ2) ∧
        calls fracArith fuel1 cs σ1 = some (results, σ3))) ∧
    (reloaded fracArith (grid fracArith [(0, 1, "=1@0"), (1, 0, " =2*3")])).bind
        (fun σ1 => (get_value fracArith 20 1 0 none σ1).map (fun res => res.1.toOption)) =
      some (some ⟨6, 1⟩) :=
  ⟨by decide, by decide,
    C14_round_trip fracArith _ (by decide) (by decide), by decide⟩

end Vicissicalc
